import Mathlib

/-!
go-l10n: the message compiler of `codegen.go`.

A shallow embedding of the code generator of `infastin/go-l10n` (`src/codegen.go`).
The generator builds `go/ast` trees; the trees are embedded as inductive types, the
generator functions as functions returning the tree (and the localization, whose set
of imports they extend), and the generated Go code is given a meaning by a small
evaluator for the statement and expression forms the generator emits.
-/

set_option autoImplicit false

namespace GoL10n

/-! ## `go/token` and `go/ast`: the fragments `codegen.go` builds -/

/-- The tokens of `go/token` used by `codegen.go`. -/
inductive Token where
  | ILLEGAL | INT | CHAR | STRING | EQL | GTR | AND | ASSIGN | IMPORT | TYPE | VAR
  deriving DecidableEq, Repr

mutual
/-- Expressions and type expressions of `go/ast`. An `*ast.Ident` in a name position is
its `Name`; a nil or empty `*ast.FieldList` is the empty list of fields. -/
inductive Expr where
  | Ident (name : String)
  | BasicLit (kind : Token) (value : String)
  | SelectorExpr (x : Expr) (sel : String)
  | CallExpr (fn : Expr) (args : List Expr)
  | BinaryExpr (x : Expr) (op : Token) (y : Expr)
  | UnaryExpr (op : Token) (x : Expr)
  | StarExpr (x : Expr)
  | IndexExpr (x : Expr) (index : Expr)
  | KeyValueExpr (key : Expr) (value : Expr)
  | CompositeLit (type : Expr) (elts : List Expr)
  | TypeAssertExpr (x : Expr)
  | ArrayType (elt : Expr)
  | MapType (key : Expr) (value : Expr)
  | StructType (fields : List Field)
  | FuncType (params : List Field) (results : List Field)
  | InterfaceType (methods : List Field)
/-- An `ast.Field`: the names it declares and its type. -/
inductive Field where
  | mk (names : List String) (type : Expr)
end

/-- The `ast.Spec` kinds. -/
inductive Spec where
  | ImportSpec (path : Expr)
  | TypeSpec (name : String) (type : Expr)
  | ValueSpec (names : List String) (type : Option Expr) (values : List Expr)

/-- Statements of `go/ast`. A `DeclStmt` carries the token and the specs of its
`GenDecl`; the body of a switch is the list of its block. -/
inductive Stmt where
  | ExprStmt (x : Expr)
  | ReturnStmt (results : List Expr)
  | AssignStmt (lhs : List Expr) (tok : Token) (rhs : List Expr)
  | DeclStmt (tok : Token) (specs : List Spec)
  | SwitchStmt (body : List Stmt)
  | TypeSwitchStmt (assign : Stmt) (body : List Stmt)
  | CaseClause (list : List Expr) (body : List Stmt)

/-- Declarations of `go/ast`. -/
inductive Decl where
  | GenDecl (tok : Token) (specs : List Spec)
  | FuncDecl (name : String) (recv : List Field) (type : Expr) (body : List Stmt)

/-- An `ast.File`: the lines of its doc comment, the package name, the declarations. -/
structure File where
  Doc : List String
  Name : String
  Decls : List Decl

/-- The names an `ast.Field` declares. -/
def Field.names : Field → List String
  | .mk ns _ => ns

/-- The type of an `ast.Field`. -/
def Field.type : Field → Expr
  | .mk _ t => t

/-! ## `strconv.Quote` -/

/-- The escape `strconv.Quote` writes for one character: the double quote, the backslash
and the control characters that have a name. Every other character is kept; Go
writes the remaining non-printable ones as `\x`, `\u` or `\U` escapes, which are
not part of this embedding. -/
def quoteChar (c : Char) : List Char :=
  if c = '"' then ['\\', '"']
  else if c = '\\' then ['\\', '\\']
  else if c = '\n' then ['\\', 'n']
  else if c = '\r' then ['\\', 'r']
  else if c = '\t' then ['\\', 't']
  else [c]

/-- The characters of `strconv.Quote` between the two double quotes. -/
def quoteBody : List Char → List Char
  | [] => []
  | c :: cs => quoteChar c ++ quoteBody cs

/-- The Go function `strconv.Quote`: a double-quoted Go string literal. -/
def strconvQuote (s : String) : String :=
  String.mk ('"' :: (quoteBody s.data ++ ['"']))

/-- The character an escape letter stands for. -/
def unescapeChar (c : Char) : Option Char :=
  if c = '"' then some '"'
  else if c = '\\' then some '\\'
  else if c = 'n' then some '\n'
  else if c = 'r' then some '\r'
  else if c = 't' then some '\t'
  else none

/-- Reads the body of a string literal up to and including the closing quote. -/
def unquoteBody : List Char → Option (List Char)
  | [] => none
  | [c] => if c = '"' then some [] else none
  | c :: d :: rest =>
    if c = '\\' then
      match unescapeChar d, unquoteBody rest with
      | some e, some out => some (e :: out)
      | _, _ => none
    else if c = '"' then none
    else
      match unquoteBody (d :: rest) with
      | some out => some (c :: out)
      | none => none

/-- The text a double-quoted Go string literal denotes (`strconv.Unquote`). -/
def strconvUnquote (q : String) : Option String :=
  match q.data with
  | [] => none
  | c :: cs => if c = '"' then (unquoteBody cs).map String.mk else none

/-! ## The intermediate representation -/

/-- A Go import: the import path and the package name. -/
structure GoImport where
  Import : String
  Package : String
  deriving DecidableEq, Repr

/-- The Go type of an argument (`ast.GoType` in `config.go`). -/
structure GoType where
  Import : String
  Package : String
  Type_ : String
  deriving DecidableEq, Repr

/-- A declared argument of a message. -/
structure Argument where
  Name : String
  GoType : GoType
  deriving DecidableEq, Repr

/-- Modelled from the spec: the declaration of `FmtInfo`, the optional explicit format
directive of an argument reference, is missing. The code uses it through two methods
only, `IsZero()` and `GoFormat(goType)`; a directive is the pair of what they return. -/
structure FmtInfo where
  IsZero : Bool
  GoFormat : GoType → String

/-- A reference to an argument, with its format directive. -/
structure ArgInfo where
  Name : String
  FmtInfo : FmtInfo

/-- A reference to a variable scope. -/
structure VarInfo where
  Name : String

/-- One part of a template: the three dynamic types `generateFormatParts` switches on. -/
inductive Part where
  | str (s : String)
  | arg (info : ArgInfo)
  | var (info : VarInfo)

/-- An ordered sequence of parts. -/
abbrev FormatParts := List Part

/-- The four optional sub-templates of a plural and the argument that drives it. -/
structure Plural where
  Arg : String
  Zero : FormatParts
  One : FormatParts
  Many : FormatParts
  Other : FormatParts

/-- A shared sub-template of a message. -/
structure VariableScope where
  Name : String
  ArgumentNames : List String
  Plural : Plural
  String : FormatParts

/-- A named top-level message. -/
structure MessageScope where
  Name : String
  Variables : List VariableScope
  Arguments : List Argument
  Plural : Plural
  String : FormatParts

/-- One language: its identifier, its messages, and the imports its code needs. -/
structure Localization where
  Lang : String
  Scopes : List MessageScope
  Imports : List GoImport

/-- The part of the configuration `codegen.go` reads. -/
structure Config where
  PackageName : String
  Imports : List GoImport

/-- A run-time panic of the generator. -/
inductive GoPanic where
  | indexOutOfRange
  deriving DecidableEq, Repr

/-- Modelled from the spec: `FormatParts.IsZero` is missing; a template is "empty"
(unset) when it has no part. -/
def FormatParts.IsZero (f : FormatParts) : Bool := f.isEmpty

/-- Modelled from the spec: `Plural.IsZero` is missing; a plural is unset when each of
its four optional sub-templates is absent. -/
def Plural.IsZero (p : Plural) : Bool :=
  FormatParts.IsZero p.Zero && FormatParts.IsZero p.One &&
    FormatParts.IsZero p.Many && FormatParts.IsZero p.Other

/-- Modelled from the spec: `Localization.AddImport` is missing; registering a
capability is idempotent, the set only grows. -/
def Localization.AddImport (loc : Localization) (imp : GoImport) : Localization :=
  if imp ∈ loc.Imports then loc else { loc with Imports := loc.Imports ++ [imp] }

/-- Position of the first element satisfying `p`. -/
def indexWhere {α : Type} (p : α → Bool) : List α → Option Nat
  | [] => none
  | x :: xs => if p x then some 0 else (indexWhere p xs).map (· + 1)

/-- Modelled from the spec: `argumentIndex` is missing; it resolves a reference to the
position of the declared argument of that name, and to -1 when there is none. -/
def argumentIndex (args : List Argument) (name : String) : Int :=
  match indexWhere (fun a => a.Name == name) args with
  | some i => (i : Int)
  | none => -1

/-- Modelled from the spec: `variableScopeIndex` is missing; it resolves a reference to
the position of the variable scope of that name, and to -1 when there is none. -/
def variableScopeIndex (vars : List VariableScope) (name : String) : Int :=
  match indexWhere (fun v => v.Name == name) vars with
  | some i => (i : Int)
  | none => -1

/-- Go slice indexing `xs[i]`: panics when the index is out of range. -/
def sliceIndex {α : Type} (xs : List α) (i : Int) : Except GoPanic α :=
  if i < 0 then .error .indexOutOfRange
  else
    match xs.get? i.toNat with
    | some x => .ok x
    | none => .error .indexOutOfRange

/-- Whether every part is a literal. -/
def FormatParts.literalOnly : FormatParts → Bool
  | [] => true
  | .str _ :: rest => FormatParts.literalOnly rest
  | _ :: _ => false

/-- Modelled from the spec: `MessageScope.IsSimple` is missing; the simple shape is
chosen when the entire message, all plural branches included, is literal-only. -/
def MessageScope.IsSimple (scope : MessageScope) : Bool :=
  FormatParts.literalOnly scope.String &&
    FormatParts.literalOnly scope.Plural.Zero && FormatParts.literalOnly scope.Plural.One &&
    FormatParts.literalOnly scope.Plural.Many && FormatParts.literalOnly scope.Plural.Other

/-! ## Names -/

def getPackageFieldType (arg : Argument) : Expr :=
  if arg.GoType.Package = "" then .Ident arg.GoType.Type_
  else .SelectorExpr (.Ident arg.GoType.Package) arg.GoType.Type_

def getLocalizerName (loc : Localization) : String := loc.Lang ++ "_l"

def getLocalizerTypeName (loc : Localization) : String := loc.Lang ++ "_Localizer"

def getMessageFuncName (scope : MessageScope) : String := scope.Name

def getVariableFuncName (scope : MessageScope) (varScope : VariableScope) : String :=
  scope.Name ++ "_" ++ varScope.Name

/-! ## The general file: contract, registry, lookups -/

def generateGeneralInterface (msgs : List MessageScope) : Expr :=
  .InterfaceType (msgs.foldl (fun methods msg =>
    methods ++ [Field.mk [msg.Name]
      (.FuncType
        (msg.Arguments.foldl (fun params a =>
          params ++ [Field.mk [a.Name] (getPackageFieldType a)]) [])
        [Field.mk [] (.Ident "string")])]) [])

def generateGeneralSupported (locs : List Localization) (decls : List Decl) : List Decl :=
  decls ++ [.GenDecl .VAR [.ValueSpec ["Supported"] none
    [.CompositeLit (.ArrayType (.Ident "string"))
      (locs.foldl (fun elts loc => elts ++ [.BasicLit .STRING (strconvQuote loc.Lang)]) [])]]]

def generateGeneralTable (locs : List Localization) (decls : List Decl) : List Decl :=
  decls ++ [.GenDecl .VAR [.ValueSpec ["mapLangToLocalizer"] none
    [.CompositeLit (.MapType (.Ident "string") (.Ident "Localizer"))
      (locs.foldl (fun elts loc => elts ++ [.KeyValueExpr (.Ident (strconvQuote loc.Lang))
        (.CompositeLit (.Ident (getLocalizerTypeName loc)) [])]) [])]]]

def generateGeneralFuncNew (_locs : List Localization) (decls : List Decl) : List Decl :=
  decls ++ [.FuncDecl "New" []
    (.FuncType [Field.mk ["lang"] (.Ident "string")]
      [Field.mk ["loc"] (.Ident "Localizer"), Field.mk ["ok"] (.Ident "bool")])
    [.AssignStmt [.Ident "loc", .Ident "ok"] .ASSIGN
        [.IndexExpr (.Ident "mapLangToLocalizer") (.Ident "lang")],
     .ReturnStmt [.Ident "loc", .Ident "ok"]]]

def generateGeneralFuncLang (locs : List Localization) (decls : List Decl) : List Decl :=
  decls ++ [.FuncDecl "Language" []
    (.FuncType [Field.mk ["loc"] (.Ident "Localizer")] [Field.mk [] (.Ident "string")])
    [.TypeSwitchStmt (.ExprStmt (.TypeAssertExpr (.Ident "loc")))
      (locs.foldl (fun clauses loc => clauses ++
          [.CaseClause [.Ident (getLocalizerTypeName loc)]
            [.ReturnStmt [.BasicLit .STRING (strconvQuote loc.Lang)]]]) []
        ++ [.CaseClause [] [.ReturnStmt [.BasicLit .STRING "\"\""]]])]]

def generateGeneralFuncs (locs : List Localization) (decls : List Decl) : List Decl :=
  generateGeneralFuncLang locs (generateGeneralFuncNew locs decls)

/-- The first file: the contract taken from the first localization, the registry, the
list of supported languages and the two lookups. `locs[0]` panics on no language. -/
def generateGeneral (config : Config) (locs : List Localization) : Except GoPanic File := do
  let importDecls : List Decl :=
    if config.Imports.length ≠ 0 then
      [.GenDecl .IMPORT (config.Imports.foldl (fun specs imp =>
        specs ++ [.ImportSpec (.BasicLit .STRING (strconvQuote imp.Import))]) [])]
    else []
  let loc0 ← sliceIndex locs 0
  let decls := importDecls ++
    [.GenDecl .TYPE [.TypeSpec "Localizer" (generateGeneralInterface loc0.Scopes)]]
  let decls := generateGeneralTable locs decls
  let decls := generateGeneralSupported locs decls
  let decls := generateGeneralFuncs locs decls
  pure { Doc := ["// Code generated by go-l10n; DO NOT EDIT.", ""],
         Name := config.PackageName, Decls := decls }

/-! ## Templates: accumulate mode and constant mode -/

def generateString (_loc : Localization) (_scope : MessageScope) (str builderName : String)
    (list : List Stmt) : List Stmt :=
  list ++ [.ExprStmt (.CallExpr (.SelectorExpr (.Ident builderName) "WriteString")
    [.BasicLit .STRING (strconvQuote str)])]

def generateArgumentSprintf (loc : Localization) (arg : Argument) (info : ArgInfo) :
    Localization × List Expr :=
  let fmtStr := info.FmtInfo.GoFormat arg.GoType
  (loc.AddImport ⟨"fmt", "fmt"⟩,
    [.CallExpr (.SelectorExpr (.Ident "fmt") "Sprintf")
      [.BasicLit .STRING (strconvQuote fmtStr), .Ident arg.Name]])

def generateArgumentItoa (loc : Localization) (arg : Argument) : Localization × List Expr :=
  (loc.AddImport ⟨"strconv", "strconv"⟩,
    [.CallExpr (.SelectorExpr (.Ident "strconv") "Itoa") [.Ident arg.Name]])

def generateArgumentFormatFloat (loc : Localization) (arg : Argument) :
    Localization × List Expr :=
  (loc.AddImport ⟨"strconv", "strconv"⟩,
    [.CallExpr (.SelectorExpr (.Ident "strconv") "FormatFloat")
      [.Ident arg.Name, .BasicLit .CHAR "'f'", .BasicLit .INT "6", .BasicLit .INT "64"]])

def generateArgumentSprint (loc : Localization) (arg : Argument) : Localization × List Expr :=
  (loc.AddImport ⟨"fmt", "fmt"⟩,
    [.CallExpr (.SelectorExpr (.Ident "fmt") "Sprint") [.Ident arg.Name]])

/-- The statement `builderName.WriteString(args...)` is appended first; the helpers then
fill in the arguments of that call, which is returned here with them in place. -/
def generateArgument (loc : Localization) (_scope : MessageScope) (arg : Argument)
    (info : ArgInfo) (builderName : String) (list : List Stmt) : Localization × List Stmt :=
  let filled : Localization × List Expr :=
    if !info.FmtInfo.IsZero then generateArgumentSprintf loc arg info
    else if arg.GoType.Type_ = "string" then (loc, [.Ident arg.Name])
    else if arg.GoType.Type_ = "int" then generateArgumentItoa loc arg
    else if arg.GoType.Type_ = "float64" then generateArgumentFormatFloat loc arg
    else generateArgumentSprint loc arg
  (filled.1,
    list ++ [.ExprStmt (.CallExpr (.SelectorExpr (.Ident builderName) "WriteString") filled.2)])

def generateVariableCall (loc : Localization) (scope : MessageScope) (varScope : VariableScope)
    (builderName : String) (list : List Stmt) : List Stmt :=
  list ++ [.ExprStmt (.CallExpr
    (.SelectorExpr (.Ident (getLocalizerName loc)) (getVariableFuncName scope varScope))
    (varScope.ArgumentNames.foldl (fun args name => args ++ [.Ident name])
      [.UnaryExpr .AND (.Ident builderName)]))]

def generateFormatParts (loc : Localization) (scope : MessageScope) (parts : FormatParts)
    (builderName : String) (list : List Stmt) : Except GoPanic (Localization × List Stmt) :=
  match parts with
  | [] => .ok (loc, list)
  | .str part :: rest =>
    generateFormatParts loc scope rest builderName
      (generateString loc scope part builderName list)
  | .arg part :: rest =>
    match sliceIndex scope.Arguments (argumentIndex scope.Arguments part.Name) with
    | .error e => .error e
    | .ok arg =>
      generateFormatParts (generateArgument loc scope arg part builderName list).1 scope rest
        builderName (generateArgument loc scope arg part builderName list).2
  | .var part :: rest =>
    match sliceIndex scope.Variables (variableScopeIndex scope.Variables part.Name) with
    | .error e => .error e
    | .ok varScope =>
      generateFormatParts loc scope rest builderName
        (generateVariableCall loc scope varScope builderName list)

/-- The text `generateSimpleFormatParts` collects in its `strings.Builder`: the literal
parts, the others skipped. -/
def simpleText : FormatParts → String → String
  | [], b => b
  | .str part :: rest, b => simpleText rest (b ++ part)
  | _ :: rest, b => simpleText rest b

def generateSimpleFormatParts (_loc : Localization) (_scope : MessageScope) (parts : FormatParts)
    (list : List Stmt) : List Stmt :=
  list ++ [.ReturnStmt [.BasicLit .STRING (strconvQuote (simpleText parts ""))]]

def FormatParts.Generate (f : FormatParts) (loc : Localization) (scope : MessageScope)
    (builderName : String) (list : List Stmt) : Except GoPanic (Localization × List Stmt) :=
  generateFormatParts loc scope f builderName list

def FormatParts.SimpleGenerate (f : FormatParts) (loc : Localization) (scope : MessageScope)
    (list : List Stmt) : List Stmt :=
  generateSimpleFormatParts loc scope f list

/-! ## Plural dispatch -/

/-- The table of `generatePlural` and `generateSimplePlural`: generator, operator, value. -/
def pluralGenerators (plural : Plural) : List (FormatParts × Token × String) :=
  [(plural.Zero, .EQL, "0"), (plural.One, .EQL, "1"), (plural.Many, .GTR, "1"),
   (plural.Other, .ILLEGAL, "")]

/-- The list of a case clause: one comparison, or nothing for the default clause. -/
def caseList (plural : Plural) (op : Token) (value : String) : List Expr :=
  if op ≠ .ILLEGAL then [.BinaryExpr (.Ident plural.Arg) op (.BasicLit .INT value)] else []

/-- The loop of `generatePlural` over the table, `clauses` being `switchStmt.Body.List`. -/
def generatePluralLoop (scope : MessageScope) (plural : Plural) (builderName : String) :
    List (FormatParts × Token × String) → Localization → List Stmt →
      Except GoPanic (Localization × List Stmt)
  | [], loc, clauses => .ok (loc, clauses)
  | gen :: rest, loc, clauses =>
    if gen.1.IsZero then generatePluralLoop scope plural builderName rest loc clauses
    else
      match gen.1.Generate loc scope builderName [] with
      | .error e => .error e
      | .ok (loc1, body) =>
        generatePluralLoop scope plural builderName rest loc1
          (clauses ++ [.CaseClause (caseList plural gen.2.1 gen.2.2) body])

def generatePlural (loc : Localization) (scope : MessageScope) (plural : Plural)
    (builderName : String) (list : List Stmt) : Except GoPanic (Localization × List Stmt) :=
  match generatePluralLoop scope plural builderName (pluralGenerators plural) loc [] with
  | .error e => .error e
  | .ok (loc1, clauses) => .ok (loc1, list ++ [.SwitchStmt clauses])

/-- The loop of `generateSimplePlural` over the table. -/
def generateSimplePluralLoop (loc : Localization) (scope : MessageScope) (plural : Plural) :
    List (FormatParts × Token × String) → List Stmt → List Stmt
  | [], clauses => clauses
  | gen :: rest, clauses =>
    if gen.1.IsZero then generateSimplePluralLoop loc scope plural rest clauses
    else
      generateSimplePluralLoop loc scope plural rest
        (clauses ++ [.CaseClause (caseList plural gen.2.1 gen.2.2)
          (gen.1.SimpleGenerate loc scope [])])

def generateSimplePlural (loc : Localization) (scope : MessageScope) (plural : Plural)
    (list : List Stmt) : List Stmt :=
  list ++ [.SwitchStmt (generateSimplePluralLoop loc scope plural (pluralGenerators plural) [])]

def Plural.Generate (p : Plural) (loc : Localization) (scope : MessageScope)
    (builderName : String) (list : List Stmt) : Except GoPanic (Localization × List Stmt) :=
  generatePlural loc scope p builderName list

def Plural.SimpleGenerate (p : Plural) (loc : Localization) (scope : MessageScope)
    (list : List Stmt) : List Stmt :=
  generateSimplePlural loc scope p list

/-- The two implementations of the interface `Generator`. -/
inductive Generator where
  | plural (p : Plural)
  | parts (f : FormatParts)

def Generator.IsZero : Generator → Bool
  | .plural p => p.IsZero
  | .parts f => f.IsZero

def Generator.Generate : Generator → Localization → MessageScope → String → List Stmt →
    Except GoPanic (Localization × List Stmt)
  | .plural p => p.Generate
  | .parts f => f.Generate

def Generator.SimpleGenerate : Generator → Localization → MessageScope → List Stmt → List Stmt
  | .plural p => p.SimpleGenerate
  | .parts f => f.SimpleGenerate

/-! ## Messages and their auxiliary functions -/

/-- The loop `for _, gen := range generators` of `generateMessage`: the first generator
that is not zero is lowered, and the loop stops there. -/
def generateFirst (scope : MessageScope) (builderName : String) :
    List Generator → Localization → List Stmt → Except GoPanic (Localization × List Stmt)
  | [], loc, list => .ok (loc, list)
  | gen :: rest, loc, list =>
    if !gen.IsZero then gen.Generate loc scope builderName list
    else generateFirst scope builderName rest loc list

/-- The loop `for _, gen := range generators` of `generateSimpleMessage`. -/
def generateSimpleFirst (loc : Localization) (scope : MessageScope) :
    List Generator → List Stmt → List Stmt
  | [], list => list
  | gen :: rest, list =>
    if !gen.IsZero then gen.SimpleGenerate loc scope list
    else generateSimpleFirst loc scope rest list

/-- The inner loop of `generateVariableFunc`: one parameter per name of the variable. -/
def variableParams (scope : MessageScope) : List String → List Field →
    Except GoPanic (List Field)
  | [], params => .ok params
  | name :: rest, params =>
    match sliceIndex scope.Arguments (argumentIndex scope.Arguments name) with
    | .error e => .error e
    | .ok arg =>
      variableParams scope rest (params ++ [Field.mk [name] (getPackageFieldType arg)])

/-- The loop `for _, gen := range generators` of `generateVariableFunc`: every generator
that is not zero adds the parameters and is lowered; the loop does not stop. -/
def generateVariableLoop (scope : MessageScope) (varScope : VariableScope)
    (builderName : String) :
    List Generator → Localization → List Field → List Stmt →
      Except GoPanic (Localization × List Field × List Stmt)
  | [], loc, params, body => .ok (loc, params, body)
  | gen :: rest, loc, params, body =>
    if gen.IsZero then generateVariableLoop scope varScope builderName rest loc params body
    else
      match variableParams scope varScope.ArgumentNames params with
      | .error e => .error e
      | .ok params1 =>
        match gen.Generate loc scope builderName body with
        | .error e => .error e
        | .ok (loc1, body1) =>
          generateVariableLoop scope varScope builderName rest loc1 params1 body1

def generateVariableFunc (loc : Localization) (scope : MessageScope) (varScope : VariableScope)
    (decls : List Decl) : Except GoPanic (Localization × List Decl) :=
  let builderName := "b0"
  let builderField := Field.mk [builderName] (.StarExpr (.SelectorExpr (.Ident "strings") "Builder"))
  match generateVariableLoop scope varScope builderName
      [.plural varScope.Plural, .parts varScope.String] loc [builderField] [] with
  | .error e => .error e
  | .ok (loc1, params, body) =>
    .ok (loc1, decls ++ [.FuncDecl (getVariableFuncName scope varScope)
      [Field.mk [getLocalizerName loc] (.Ident (getLocalizerTypeName loc))]
      (.FuncType params []) body])

/-- The loop of `generateMessage` over `scope.Variables`. -/
def generateVariableFuncs (scope : MessageScope) :
    List VariableScope → Localization → List Decl → Except GoPanic (Localization × List Decl)
  | [], loc, decls => .ok (loc, decls)
  | varScope :: rest, loc, decls =>
    match generateVariableFunc loc scope varScope decls with
    | .error e => .error e
    | .ok (loc1, decls1) => generateVariableFuncs scope rest loc1 decls1

def generateMessage (loc : Localization) (scope : MessageScope) (decls : List Decl) :
    Except GoPanic (Localization × List Decl) :=
  let builderName := "builder"
  let loc0 := loc.AddImport ⟨"strings", "strings"⟩
  let builderSpec := Spec.ValueSpec [builderName]
    (some (.SelectorExpr (.Ident "strings") "Builder")) []
  let params := scope.Arguments.foldl (fun ps a =>
    ps ++ [Field.mk [a.Name] (getPackageFieldType a)]) []
  match generateFirst scope builderName [.plural scope.Plural, .parts scope.String] loc0
      [.DeclStmt .VAR [builderSpec]] with
  | .error e => .error e
  | .ok (loc1, body) =>
    let body1 := body ++
      [.ReturnStmt [.CallExpr (.SelectorExpr (.Ident builderName) "String") []]]
    match generateVariableFuncs scope scope.Variables loc1 decls with
    | .error e => .error e
    | .ok (loc2, decls1) =>
      .ok (loc2, decls1 ++ [.FuncDecl (getMessageFuncName scope)
        [Field.mk [getLocalizerName loc] (.Ident (getLocalizerTypeName loc))]
        (.FuncType params [Field.mk [] (.Ident "string")]) body1])

def generateSimpleMessage (loc : Localization) (scope : MessageScope) (decls : List Decl) :
    List Decl :=
  decls ++ [.FuncDecl (getMessageFuncName scope)
    [Field.mk [getLocalizerName loc] (.Ident (getLocalizerTypeName loc))]
    (.FuncType [] [Field.mk [] (.Ident "string")])
    (generateSimpleFirst loc scope [.plural scope.Plural, .parts scope.String] [])]

def generateMessagesImportDecl (loc : Localization) (decls : List Decl) : List Decl :=
  let specs : List Spec := loc.Imports.foldl (fun specs imp =>
    specs ++ [.ImportSpec (.BasicLit .STRING (strconvQuote imp.Import))]) []
  if specs.length ≠ 0 then decls ++ [.GenDecl .IMPORT specs] else decls

def generateMessagesTypeDecl (loc : Localization) (decls : List Decl) : List Decl :=
  decls ++ [.GenDecl .TYPE [.TypeSpec (getLocalizerTypeName loc) (.StructType [])]]

/-- The loop of `generateMessages` over `loc.Scopes`. -/
def generateScopes : List MessageScope → Localization → List Decl →
    Except GoPanic (Localization × List Decl)
  | [], loc, decls => .ok (loc, decls)
  | scope :: rest, loc, decls =>
    if scope.IsSimple then generateScopes rest loc (generateSimpleMessage loc scope decls)
    else
      match generateMessage loc scope decls with
      | .error e => .error e
      | .ok (loc1, decls1) => generateScopes rest loc1 decls1

def generateMessages (config : Config) (loc : Localization) : Except GoPanic File :=
  match generateScopes loc.Scopes loc [] with
  | .error e => .error e
  | .ok (loc1, decls) =>
    .ok { Doc := ["// Code generated by go-l10n; DO NOT EDIT.", ""],
          Name := config.PackageName,
          Decls := generateMessagesTypeDecl loc1 (generateMessagesImportDecl loc1 []) ++ decls }

/-! ## Meaning of the generated code

An evaluator for the forms of Go the generator emits. A message function owns one
`strings.Builder`; the auxiliary functions it calls receive a pointer to it, so the
state of a call is one buffer. Anything outside the emitted forms has no value. -/

/-- Run-time values of the generated code. -/
inductive Value where
  | str (s : String)
  | int (n : Int)
  | float (bits : Nat)
  | char (c : Char)
  | bool (b : Bool)
  | other (typeName : String) (repr : String)
  | impl (typeName : String)
  | nilValue
  | builder
  | builderPtr
  deriving DecidableEq, Repr

/-- The library functions whose result is not computed here. -/
structure GoLib where
  FormatFloat : Nat → Char → Int → Int → String
  Sprintf : String → List Value → String
  Sprint : List Value → String

/-- Local variables, the innermost binding first. -/
abbrev Env := List (String × Value)

/-- What the evaluator knows of the rest of the program: calling a method of a type on
a buffer gives the buffer after the call; a package-level map has its entries. -/
structure World where
  call : String → String → List Value → String → Option String
  table : String → Option (List (String × Value))

/-- Value of a run of decimal digits, after the digits read so far. -/
def parseDigits : List Char → Nat → Option Nat
  | [], acc => some acc
  | c :: cs, acc =>
    if '0' ≤ c ∧ c ≤ '9' then parseDigits cs (acc * 10 + (c.toNat - 48)) else none

/-- Value of a decimal integer literal. -/
def intLit (s : String) : Option Int :=
  match s.data with
  | [] => none
  | c :: cs => (parseDigits (c :: cs) 0).map Int.ofNat

/-- The Go function `strconv.Itoa`. -/
def strconvItoa (n : Int) : String := toString n

mutual
/-- Value of an expression. In `pkg.fn(args)` the name `pkg` is the package only while
no local variable of that name is in scope: a parameter named `strconv` or `fmt` hides
the package, Go does not compile the call, and the expression has no value. -/
def evalExpr (lib : GoLib) (env : Env) : Expr → Option Value
  | .Ident name => env.lookup name
  | .BasicLit .STRING value => (strconvUnquote value).map Value.str
  | .BasicLit .INT value => (intLit value).map Value.int
  | .BasicLit .CHAR value =>
    match value.data with
    | [a, c, b] => if a = '\'' ∧ b = '\'' then some (.char c) else none
    | _ => none
  | .UnaryExpr .AND (.Ident name) =>
    match env.lookup name with
    | some .builder => some .builderPtr
    | _ => none
  | .BinaryExpr x op y =>
    match evalExpr lib env x, evalExpr lib env y with
    | some (.int a), some (.int b) =>
      if op = .EQL then some (.bool (decide (a = b)))
      else if op = .GTR then some (.bool (decide (a > b)))
      else none
    | _, _ => none
  | .CallExpr (.SelectorExpr (.Ident pkg) fn) args =>
    match env.lookup pkg with
    | some _ => none
    | none =>
      match evalArgs lib env args with
      | none => none
      | some vs =>
        if pkg = "strconv" ∧ fn = "Itoa" then
          match vs with
          | [.int n] => some (.str (strconvItoa n))
          | _ => none
        else if pkg = "strconv" ∧ fn = "FormatFloat" then
          match vs with
          | [.float bits, .char c, .int prec, .int size] =>
            some (.str (lib.FormatFloat bits c prec size))
          | _ => none
        else if pkg = "fmt" ∧ fn = "Sprintf" then
          match vs with
          | .str f :: rest => some (.str (lib.Sprintf f rest))
          | _ => none
        else if pkg = "fmt" ∧ fn = "Sprint" then some (.str (lib.Sprint vs))
        else none
  | _ => none
/-- Values of a list of expressions, left to right. -/
def evalArgs (lib : GoLib) (env : Env) : List Expr → Option (List Value)
  | [] => some []
  | e :: es =>
    match evalExpr lib env e, evalArgs lib env es with
    | some v, some vs => some (v :: vs)
    | _, _ => none
end

/-- How a statement ends: control goes on, or the function returns values. -/
inductive Outcome where
  | next (env : Env) (buf : String)
  | ret (vals : List Value) (buf : String)

/-- The buffer at the end of a statement. -/
def Outcome.buf : Outcome → String
  | .next _ b => b
  | .ret _ b => b

/-- Whether one of the conditions of an expression-switch clause holds. -/
def condHolds (lib : GoLib) (env : Env) : List Expr → Option Bool
  | [] => some false
  | c :: cs =>
    match evalExpr lib env c with
    | some (.bool true) => some true
    | some (.bool false) => condHolds lib env cs
    | _ => none

/-- Whether a clause with a condition that holds is among the clauses. -/
def someCaseHolds (lib : GoLib) (env : Env) : List Stmt → Option Bool
  | [] => some false
  | .CaseClause list _ :: rest =>
    match condHolds lib env list with
    | some true => some true
    | some false => someCaseHolds lib env rest
    | none => none
  | _ :: _ => none

/-- Whether a clause of a type switch names the type. -/
def typeListed (typeName : String) : List Expr → Bool
  | [] => false
  | .Ident t :: rest => t == typeName || typeListed typeName rest
  | _ :: rest => typeListed typeName rest

/-- Whether a clause naming the type is among the clauses. -/
def someTypeListed (typeName : String) : List Stmt → Bool
  | [] => false
  | .CaseClause list _ :: rest => typeListed typeName list || someTypeListed typeName rest
  | _ :: rest => someTypeListed typeName rest

/-- The name of the dynamic type of a value held in an interface. -/
def dynamicType : Value → Option String
  | .str _ => some "string"
  | .int _ => some "int"
  | .float _ => some "float64"
  | .bool _ => some "bool"
  | .other t _ => some t
  | .impl t => some t
  | _ => none

/-- Whether a local variable is the buffer or a pointer to it. -/
def isBuilder : Option Value → Bool
  | some .builder => true
  | some .builderPtr => true
  | _ => false

/-- An expression statement: a write to the buffer, or a call of a method of the
implementation. -/
def execCall (lib : GoLib) (w : World) (env : Env) : Expr → String → Option Outcome
  | .CallExpr (.SelectorExpr (.Ident x) f) args, buf =>
    match env.lookup x with
    | some (.impl typeName) =>
      match evalArgs lib env args with
      | some vs => (w.call typeName f vs buf).map (Outcome.next env)
      | none => none
    | v =>
      if isBuilder v ∧ f = "WriteString" then
        match evalArgs lib env args with
        | some [.str s] => some (.next env (buf ++ s))
        | _ => none
      else none
  | _, _ => none

/-- A return statement: the text of the buffer, or the values of the results. -/
def execReturn (lib : GoLib) (env : Env) : List Expr → String → Option Outcome
  | [.CallExpr (.SelectorExpr (.Ident x) "String") []], buf =>
    if isBuilder (env.lookup x) then some (.ret [.str buf] buf) else none
  | results, buf => (evalArgs lib env results).map (fun vs => Outcome.ret vs buf)

/-- An assignment: the two-valued lookup `a, b = m[k]` in a package-level map. -/
def execAssign (lib : GoLib) (w : World) (env : Env) :
    List Expr → Token → List Expr → String → Option Outcome
  | [.Ident a, .Ident b], .ASSIGN, [.IndexExpr (.Ident m) k], buf =>
    match w.table m, evalExpr lib env k with
    | some entries, some (.str key) =>
      match entries.lookup key with
      | some v => some (.next ((b, .bool true) :: (a, v) :: env) buf)
      | none => some (.next ((b, .bool false) :: (a, .nilValue) :: env) buf)
    | _, _ => none
  | _, _, _, _ => none

/-- A declaration statement: `var name strings.Builder`, the buffer of the function. Go
does not compile it where a parameter is named `strings`, which hides the package, or
where the name is that of a parameter or of the receiver, which it would declare again
in the same block. -/
def execDecl (env : Env) : Token → List Spec → String → Option Outcome
  | .VAR, [.ValueSpec [name] (some (.SelectorExpr (.Ident "strings") "Builder")) []], buf =>
    if env.any (fun p => isBuilder (some p.2)) then none
    else if (env.lookup "strings").isSome || (env.lookup name).isSome then none
    else some (.next ((name, .builder) :: env) buf)
  | _, _, _ => none

/-- The dynamic type a type switch `switch x.(type)` looks at; the inner `none` is the
nil interface. -/
def typeSwitchSubject (env : Env) : Stmt → Option (Option String)
  | .ExprStmt (.TypeAssertExpr (.Ident x)) => (env.lookup x).map dynamicType
  | _ => none

mutual
/-- One statement. -/
def execStmt (lib : GoLib) (w : World) (env : Env) : Stmt → String → Option Outcome
  | .ExprStmt x, buf => execCall lib w env x buf
  | .ReturnStmt results, buf => execReturn lib env results buf
  | .AssignStmt lhs tok rhs, buf => execAssign lib w env lhs tok rhs buf
  | .DeclStmt tok specs, buf => execDecl env tok specs buf
  | .SwitchStmt body, buf => execSwitch lib w env body buf
  | .TypeSwitchStmt assign body, buf =>
    match typeSwitchSubject env assign with
    | some t => execTypeSwitch lib w env t body buf
    | none => none
  | .CaseClause _ _, _ => none
/-- A list of statements, in order, up to the first return. -/
def execStmts (lib : GoLib) (w : World) (env : Env) : List Stmt → String → Option Outcome
  | [], buf => some (.next env buf)
  | s :: rest, buf =>
    match execStmt lib w env s buf with
    | some (.next env1 buf1) => execStmts lib w env1 rest buf1
    | r => r
/-- The clauses of an expression switch without tag: the first clause with a condition
that holds runs; the default clause runs when no clause has one. -/
def execSwitch (lib : GoLib) (w : World) (env : Env) : List Stmt → String → Option Outcome
  | [], buf => some (.next env buf)
  | .CaseClause [] body :: rest, buf =>
    match someCaseHolds lib env rest with
    | some true => execSwitch lib w env rest buf
    | some false => execStmts lib w env body buf
    | none => none
  | .CaseClause (c :: cs) body :: rest, buf =>
    match condHolds lib env (c :: cs) with
    | some true => execStmts lib w env body buf
    | some false => execSwitch lib w env rest buf
    | none => none
  | _ :: _, _ => none
/-- The clauses of a type switch on a value of the given dynamic type: the first clause
naming the type runs; the default clause runs when no clause names it. That no type is
named by two clauses is a check of the compiler (`duplicateFree`). -/
def execTypeSwitch (lib : GoLib) (w : World) (env : Env) (t : Option String) :
    List Stmt → String → Option Outcome
  | [], buf => some (.next env buf)
  | .CaseClause [] body :: rest, buf =>
    match t with
    | some typeName =>
      if someTypeListed typeName rest then execTypeSwitch lib w env t rest buf
      else execStmts lib w env body buf
    | none => execStmts lib w env body buf
  | .CaseClause (c :: cs) body :: rest, buf =>
    match t with
    | some typeName =>
      if typeListed typeName (c :: cs) then execStmts lib w env body buf
      else execTypeSwitch lib w env t rest buf
    | none => execTypeSwitch lib w env t rest buf
  | _ :: _, _ => none
end

/-- One entry of the map literal of a registry: the key and the zero value of a type. -/
def tableEntry : Expr → Option (String × Value)
  | .KeyValueExpr (.Ident q) (.CompositeLit (.Ident t) []) =>
    (strconvUnquote q).map (fun key => (key, Value.impl t))
  | .KeyValueExpr (.BasicLit .STRING q) (.CompositeLit (.Ident t) []) =>
    (strconvUnquote q).map (fun key => (key, Value.impl t))
  | _ => none

/-- The entries of a map literal, in the order of the literal. That no key occurs twice is
a check of the compiler (`duplicateFree`), not of the lookup, which takes the first
entry of a key. -/
def tableEntries : List Expr → Option (List (String × Value))
  | [] => some []
  | e :: es =>
    match tableEntry e, tableEntries es with
    | some kv, some kvs => some (kv :: kvs)
    | _, _ => none

/-- The package-level map variable of a name. -/
def findTable (name : String) : List Decl → Option (List (String × Value))
  | [] => none
  | .GenDecl .VAR [.ValueSpec [n] _ [.CompositeLit (.MapType _ _) elts]] :: rest =>
    if n = name then tableEntries elts else findTable name rest
  | _ :: rest => findTable name rest

/-- The type of the receiver of a function declaration, if it has one. -/
def recvType : List Field → Option String
  | [Field.mk _ (.Ident t)] => some t
  | _ => none

/-- The names all fields of a list declare, in order. -/
def fieldNames : List Field → List String
  | [] => []
  | f :: fs => f.names ++ fieldNames fs

/-- The function of a name and receiver type: receiver, parameters and body. That it is
declared once is a check of the compiler (`duplicateFree`); here the first
declaration is taken. -/
def findFunc (recv : Option String) (name : String) :
    List Decl → Option (List Field × List Field × List Stmt)
  | [] => none
  | .FuncDecl n r (.FuncType params _) body :: rest =>
    if n = name ∧ recvType r = recv then some (r, params, body) else findFunc recv name rest
  | _ :: rest => findFunc recv name rest

/-- Binds parameter names to the values of a call. -/
def bindParams : List String → List Value → Option Env
  | [], [] => some []
  | n :: ns, v :: vs => (bindParams ns vs).map (fun env => (n, v) :: env)
  | _, _ => none

/-- The environment a function starts in: the receiver and the parameters, bound to the
values of the call. Go compiles no function in which two of them have the same name. -/
def startEnv (recv : Option String) (r params : List Field) (args : List Value) : Option Env :=
  match recv with
  | some t =>
    if (fieldNames r ++ fieldNames params).Nodup then
      bindParams (fieldNames r ++ fieldNames params) (.impl t :: args)
    else none
  | none => if (fieldNames params).Nodup then bindParams (fieldNames params) args else none

/-- Calls the method `f` of type `typeName` on a buffer, with a bound on the depth of
calls; the result is the buffer after the call. -/
def callMethod (lib : GoLib) (prog : List Decl) :
    Nat → String → String → List Value → String → Option String
  | 0, _, _, _, _ => none
  | fuel + 1, typeName, f, args, buf =>
    match findFunc (some typeName) f prog with
    | none => none
    | some (r, params, body) =>
      match startEnv (some typeName) r params args with
      | none => none
      | some env =>
        (execStmts lib
          { call := callMethod lib prog fuel, table := fun m => findTable m prog }
          env body buf).map Outcome.buf

/-- The program seen from a function body that may make calls `fuel` deep. -/
def world (lib : GoLib) (prog : List Decl) (fuel : Nat) : World :=
  { call := callMethod lib prog fuel, table := fun m => findTable m prog }

/-- Calls a function or method of the program from outside, on a fresh buffer, and
gives the values it returns. -/
def invoke (lib : GoLib) (prog : List Decl) (fuel : Nat) (recv : Option String) (f : String)
    (args : List Value) : Option (List Value) :=
  match findFunc recv f prog with
  | none => none
  | some (r, params, body) =>
    match startEnv recv r params args with
    | none => none
    | some env =>
      match execStmts lib (world lib prog fuel) env body "" with
      | some (.ret vals _) => some vals
      | _ => none

/-- The declarations of all files of the generated package. -/
def generateLocalizations (config : Config) (locs : List Localization) :
    Except GoPanic (List File) :=
  match generateGeneral config locs with
  | .error e => .error e
  | .ok general =>
    match locs.mapM (generateMessages config) with
    | .error e => .error e
    | .ok files => .ok (general :: files)

/-- The package: the declarations of all its files together. -/
def packageDecls (files : List File) : List Decl :=
  files.foldl (fun decls file => decls ++ file.Decls) []

/-! ## Concrete inputs -/

/-- A library standing in for the Go functions whose text is not computed here. -/
def sampleLib : GoLib :=
  GoLib.mk (fun _ _ _ _ => "0.000000") (fun f _ => f) (fun _ => "?")

/-- No format directive. -/
def noDirective : FmtInfo := FmtInfo.mk true (fun _ => "")

/-- A format directive with a fixed pattern. -/
def widthDirective : FmtInfo := FmtInfo.mk false (fun _ => "%5v")

/-- No plural. -/
def noPlural : Plural := Plural.mk "" [] [] [] []

/-- The message `greeting`: `"Hello, " + name`. -/
def greetingScope : MessageScope :=
  MessageScope.mk "greeting" [] [⟨"name", ⟨"", "", "string"⟩⟩] noPlural
    [.str "Hello, ", .arg ⟨"name", noDirective⟩]

/-- The message `items`: zero, one and other branches driven by `count`. -/
def itemsScope : MessageScope :=
  MessageScope.mk "items" [] [⟨"count", ⟨"", "", "int"⟩⟩]
    (Plural.mk "count" [.str "no items"] [.str "1 item"] []
      [.arg ⟨"count", noDirective⟩, .str " items"]) []

/-- The language `en` with the two messages. -/
def enLoc : Localization := Localization.mk "en" [greetingScope, itemsScope] []

/-- The default configuration. -/
def sampleConfig : Config := Config.mk "l10n" []

/-- The declarations generated for a list of languages; none when the generator panics. -/
def generatedDecls (config : Config) (locs : List Localization) : List Decl :=
  match generateLocalizations config locs with
  | .ok files => packageDecls files
  | .error _ => []

/-- A message whose plural branches are all literal, driven by `count`. -/
def literalItemsScope : MessageScope :=
  MessageScope.mk "items" [] [⟨"count", ⟨"", "", "int"⟩⟩]
    (Plural.mk "count" [.str "no items"] [] [] [.str "some items"]) []

/-- A message without arguments. -/
def helloScope : MessageScope := MessageScope.mk "hello" [] [] noPlural [.str "Hello"]

/-- A language declaring `greeting`, then `hello`. -/
def orderedLoc : Localization := Localization.mk "en" [greetingScope, helloScope] []

/-- A language declaring the same two messages, `hello` first. -/
def swappedLoc : Localization := Localization.mk "fr" [helloScope, greetingScope] []

/-- The name and the declared arguments of a message. -/
def signature (msg : MessageScope) : String × List Argument := (msg.Name, msg.Arguments)

/-- Two localizations are schema-isomorphic: they declare the same set of message names,
each with identical argument names and types. -/
def SchemaIsomorphic (a b : Localization) : Prop :=
  ∀ sig, sig ∈ a.Scopes.map signature ↔ sig ∈ b.Scopes.map signature

/-- The methods of an interface type. -/
def interfaceMethods : Expr → List Field
  | .InterfaceType methods => methods
  | _ => []

/-- The method the contract has for a message: named after it, one parameter per
declared argument, one result of type `string`. -/
def contractMethod (msg : MessageScope) : Field :=
  Field.mk [msg.Name]
    (.FuncType (msg.Arguments.map (fun a => Field.mk [a.Name] (getPackageFieldType a)))
      [Field.mk [] (.Ident "string")])

/-- An argument of a type defined in another package. -/
def stringerArgument : Argument := ⟨"who", ⟨"fmt", "fmt", "Stringer"⟩⟩

/-- The argument `count` of type `int`. -/
def countArgument : Argument := ⟨"count", ⟨"", "", "int"⟩⟩

/-- The entry the registry has for a language: its identifier and the zero value of
its implementing type. -/
def registryEntry (loc : Localization) : String × Value :=
  (loc.Lang, Value.impl (getLocalizerTypeName loc))

/-- A second language with the two messages. -/
def frLoc : Localization := Localization.mk "fr" [greetingScope, itemsScope] []

/-- The general file generated for `en` and `fr`. -/
def sampleGeneralFile : File :=
  match generateGeneral sampleConfig [enLoc, frLoc] with
  | .ok file => file
  | .error _ => File.mk [] "" []

/-- What of an outcome does not depend on the values returned: whether control goes on,
in which environment, and the buffer. -/
def Outcome.flow : Outcome → Option Env × String
  | .next env b => (some env, b)
  | .ret _ b => (none, b)

/-- Two runs of the same code, the first on the buffer `buf` and the second on the empty
buffer, end the same way, the first with `buf` in front of what the second wrote. -/
def SameFlow (buf : String) (o1 o2 : Option Outcome) : Prop :=
  o1.map Outcome.flow = o2.map (fun o => (o.flow.1, buf ++ o.flow.2))

/-- Calls only append to the buffer they are given. -/
def World.Appends (w : World) : Prop :=
  ∀ typeName f args buf, w.call typeName f args buf
    = (w.call typeName f args "").map (fun out => buf ++ out)

/-- The values of a list of names, in order. -/
def lookupAll (env : Env) : List String → Option (List Value)
  | [] => some []
  | n :: ns =>
    match env.lookup n, lookupAll env ns with
    | some v, some vs => some (v :: vs)
    | _, _ => none

/-- The text form of the value of an argument: with a directive, pattern formatting of
the value; without, the text itself for a `string`, the decimal digits for an `int`,
fixed-precision formatting with 6 fractional digits for a `float64`, and the generic
display of the value for any other type. A value that is not of the type has no text. -/
def argumentText (lib : GoLib) (arg : Argument) (info : ArgInfo) (v : Value) : Option String :=
  if !info.FmtInfo.IsZero then some (lib.Sprintf (info.FmtInfo.GoFormat arg.GoType) [v])
  else if arg.GoType.Type_ = "string" then
    match v with
    | .str s => some s
    | _ => none
  else if arg.GoType.Type_ = "int" then
    match v with
    | .int n => some (strconvItoa n)
    | _ => none
  else if arg.GoType.Type_ = "float64" then
    match v with
    | .float bits => some (lib.FormatFloat bits 'f' 6 64)
    | _ => none
  else some (lib.Sprint [v])

/-- The reference of a part resolves in the scope: the argument, or the variable, it
names is declared there. -/
def Resolves (scope : MessageScope) : Part → Prop
  | .str _ => True
  | .arg info => ∃ a ∈ scope.Arguments, a.Name = info.Name
  | .var info => ∃ v ∈ scope.Variables, v.Name = info.Name

/-- The environment of a call of `greeting` in `en` with `name = "Ada"`, after the
declaration of the buffer. -/
def greetingEnv : Env :=
  [("builder", .builder), ("en_l", .impl "en_Localizer"), ("name", .str "Ada")]

/-- The branch of a plural that applies to the driving value `n`: `zero` for 0, `one`
for 1, `many` for a value above 1, each when it is present; otherwise `other` when it
is present; otherwise none. -/
def selectBranch (plural : Plural) (n : Int) : Option FormatParts :=
  if n = 0 ∧ plural.Zero.IsZero = false then some plural.Zero
  else if n = 1 ∧ plural.One.IsZero = false then some plural.One
  else if n > 1 ∧ plural.Many.IsZero = false then some plural.Many
  else if plural.Other.IsZero = false then some plural.Other
  else none

/-- The clauses the loop of `generatePlural` adds for a table of generators: one clause
per generator that is not zero, in the order of the table, with the condition of the
entry and the statements its template is lowered to. -/
def ClausesFor (scope : MessageScope) (plural : Plural) (builderName lang : String) :
    List (FormatParts × Token × String) → List Stmt → Prop
  | [], clauses => clauses = []
  | gen :: rest, clauses =>
    if gen.1.IsZero = true then ClausesFor scope plural builderName lang rest clauses
    else ∃ locA locB body tail, locA.Lang = lang
      ∧ generateFormatParts locA scope gen.1 builderName [] = .ok (locB, body)
      ∧ clauses = .CaseClause (caseList plural gen.2.1 gen.2.2) body :: tail
      ∧ ClausesFor scope plural builderName lang rest tail

/-- The environment of a call of `items` in `en` with `count = 2`, after the declaration
of the buffer. -/
def itemsEnv : Env :=
  [("builder", .builder), ("en_l", .impl "en_Localizer"), ("count", .int 2)]

/-- The localization and the statements after lowering the plural of `items`. -/
def itemsDispatch : Localization × List Stmt :=
  match generatePlural enLoc itemsScope itemsScope.Plural "builder" [] with
  | .ok r => r
  | .error _ => (enLoc, [])

/-- A message in which both the plural and the plain template are set. -/
def bothScope : MessageScope :=
  MessageScope.mk "both" [] [⟨"count", ⟨"", "", "int"⟩⟩]
    (Plural.mk "count" [] [] [] [.str "many"]) [.str "plain"]

/-- The literal parts of a template, the other parts left out. -/
def literalTexts : FormatParts → List String
  | [] => []
  | .str text :: rest => text :: literalTexts rest
  | _ :: rest => literalTexts rest

/-- A variable in which both the plural and the plain template are set. -/
def bothVariable : VariableScope :=
  VariableScope.mk "n" ["count"]
    (Plural.mk "count" [] [] [] [.arg ⟨"count", noDirective⟩]) [.str "x"]

/-- The message `total`, which owns the variable `n` and refers to it. -/
def totalScope : MessageScope :=
  MessageScope.mk "total" [bothVariable] [⟨"count", ⟨"", "", "int"⟩⟩] noPlural [.var ⟨"n"⟩]

/-- The name of a function declaration. -/
def declName : Decl → Option String
  | .FuncDecl name _ _ _ => some name
  | .GenDecl _ _ => none

/-- The localization and the declarations after lowering the message `total`. -/
def totalLowered : Localization × List Decl :=
  match generateMessage enLoc totalScope [] with
  | .ok r => r
  | .error _ => (enLoc, [])

/-- The list of a case clause. -/
def clauseList : Stmt → Option (List Expr)
  | .CaseClause list _ => some list
  | _ => none

/-- The lists of the clauses a plural calls for: for the branches that are present, in
this order, `arg == 0` for zero, `arg == 1` for one, `arg > 1` for many, and no
condition, the default, for other. -/
def presentConds (plural : Plural) : List (List Expr) :=
  (if FormatParts.IsZero plural.Zero then []
    else [[.BinaryExpr (.Ident plural.Arg) .EQL (.BasicLit .INT "0")]])
  ++ (if FormatParts.IsZero plural.One then []
    else [[.BinaryExpr (.Ident plural.Arg) .EQL (.BasicLit .INT "1")]])
  ++ (if FormatParts.IsZero plural.Many then []
    else [[.BinaryExpr (.Ident plural.Arg) .GTR (.BasicLit .INT "1")]])
  ++ (if FormatParts.IsZero plural.Other then [] else [[]])

/-- The branches of a plural that are present. -/
def presentBranches (plural : Plural) : List FormatParts :=
  [plural.Zero, plural.One, plural.Many, plural.Other].filter (fun f => !FormatParts.IsZero f)

/-- The statement that appends a literal to the buffer. -/
def writeLiteral (builderName text : String) : Stmt :=
  .ExprStmt (.CallExpr (.SelectorExpr (.Ident builderName) "WriteString")
    [.BasicLit .STRING (strconvQuote text)])

/-- A language whose message and variable names have underscores: the message `a` with
the variables `b` and `b_c`, and the message `a_b` with the variable `c`. -/
def underscoreLoc : Localization :=
  Localization.mk "en"
    [MessageScope.mk "a"
       [VariableScope.mk "b" [] noPlural [.str "x"], VariableScope.mk "b_c" [] noPlural [.str "y"]]
       [] noPlural [.var ⟨"b"⟩, .var ⟨"b_c"⟩],
     MessageScope.mk "a_b" [VariableScope.mk "c" [] noPlural [.str "z"]] [] noPlural
       [.var ⟨"c"⟩]]
    []

/-- The names of the functions of a language: for each message, the auxiliary functions
of its variable scopes and then the function of the message. -/
def functionNames (loc : Localization) : List String :=
  loc.Scopes.flatMap (fun s =>
    s.Variables.map (getVariableFuncName s) ++ [getMessageFuncName s])

/-- The capability the formatting of an argument needs: `fmt` with a directive; without,
none for a `string`, `strconv` for an `int` or a `float64`, `fmt` for any other type. -/
def requiredImport (arg : Argument) (info : ArgInfo) : Option GoImport :=
  if info.FmtInfo.IsZero = false then some ⟨"fmt", "fmt"⟩
  else if arg.GoType.Type_ = "string" then none
  else if arg.GoType.Type_ = "int" then some ⟨"strconv", "strconv"⟩
  else if arg.GoType.Type_ = "float64" then some ⟨"strconv", "strconv"⟩
  else some ⟨"fmt", "fmt"⟩

/-- The second localization has every capability of the first. -/
def Grows (a b : Localization) : Prop := ∀ imp ∈ a.Imports, imp ∈ b.Imports

/-- The localization has the capability of every argument reference of the template that
resolves in the scope. -/
def Registered (scope : MessageScope) (loc : Localization) (parts : FormatParts) : Prop :=
  ∀ info, Part.arg info ∈ parts →
    ∀ arg, sliceIndex scope.Arguments (argumentIndex scope.Arguments info.Name) = .ok arg →
      ∀ imp, requiredImport arg info = some imp → imp ∈ loc.Imports

/-- The parts of all branches of a plural. -/
def pluralParts (plural : Plural) : FormatParts :=
  plural.Zero ++ plural.One ++ plural.Many ++ plural.Other

/-- The parts `generateMessage` lowers for the body of the message: those of the plural
when it is set, otherwise those of the plain template. -/
def loweredParts (scope : MessageScope) : FormatParts :=
  if scope.Plural.IsZero = false then pluralParts scope.Plural else scope.String

/-- The parts `generateVariableFunc` lowers for a variable: those of both templates. -/
def variableParts (varScope : VariableScope) : FormatParts :=
  pluralParts varScope.Plural ++ varScope.String

/-- The parts a generator lowers. -/
def generatorParts : Generator → FormatParts
  | .plural p => pluralParts p
  | .parts f => f

/-- The localization and the declarations after lowering the message `items`. -/
def itemsLowered : Localization × List Decl :=
  match generateMessage enLoc itemsScope [] with
  | .ok r => r
  | .error _ => (enLoc, [])

/-- The texts a list of string literals stands for. -/
def stringLits : List Expr → Option (List String)
  | [] => some []
  | .BasicLit .STRING q :: rest =>
    match strconvUnquote q, stringLits rest with
    | some s, some ss => some (s :: ss)
    | _, _ => none
  | _ :: _ => none

/-- The identifiers in the package-level slice `Supported`. -/
def findSupported : List Decl → Option (List String)
  | [] => none
  | .GenDecl .VAR [.ValueSpec [n] _ [.CompositeLit (.ArrayType _) elts]] :: rest =>
    if n = "Supported" then stringLits elts else findSupported rest
  | _ :: rest => findSupported rest

/-- The identifiers the clauses of a type switch return, in the order of the clauses; the
default clause, which names no type, is left out. -/
def caseIdentifiers : List Stmt → Option (List String)
  | [] => some []
  | .CaseClause [] _ :: rest => caseIdentifiers rest
  | .CaseClause (_ :: _) [.ReturnStmt [.BasicLit .STRING q]] :: rest =>
    match strconvUnquote q, caseIdentifiers rest with
    | some s, some ss => some (s :: ss)
    | _, _ => none
  | _ :: _ => none

/-- The identifiers the type switch of the function `Language` returns. -/
def languageIdentifiers (decls : List Decl) : Option (List String) :=
  match findFunc none "Language" decls with
  | some (_, _, [.TypeSwitchStmt _ clauses]) => caseIdentifiers clauses
  | _ => none

/-- Whether a part is a reference to a variable. -/
def Part.isVar : Part → Bool
  | .var _ => true
  | _ => false

/-- The auxiliary function of a variable as `generateVariableFunc` declares it: its
receiver, its parameters and its body; none when the generator panics. -/
def auxiliaryFunc (loc : Localization) (scope : MessageScope) (varScope : VariableScope) :
    Option (List Field × List Field × List Stmt) :=
  match generateVariableFunc loc scope varScope [] with
  | .ok (_, [.FuncDecl _ recv (.FuncType params _) body]) => some (recv, params, body)
  | _ => none

/-- The output of the auxiliary body of a variable: what the body `generateVariableFunc`
emits writes to an empty buffer, run as a method of `typeName` with its parameters bound
to a pointer to the buffer and to the values of the arguments of the variable. -/
def variableText (lib : GoLib) (w : World) (typeName : String) (loc : Localization)
    (scope : MessageScope) (varScope : VariableScope) (vals : List Value) : Option String :=
  match auxiliaryFunc loc scope varScope with
  | some (recv, params, body) =>
    match startEnv (some typeName) recv params (.builderPtr :: vals) with
    | some env => (execStmts lib w env body "").map Outcome.buf
    | none => none
  | none => none

/-- The text one part of a template stands for, when the function runs in `env` as a
method of `typeName`: a literal is itself, an argument is the text form of its value,
a variable is the output of its auxiliary body, run in the world `w`. -/
def partText (lib : GoLib) (w : World) (env : Env) (typeName : String) (loc : Localization)
    (scope : MessageScope) : Part → Option String
  | .str s => some s
  | .arg info =>
    match sliceIndex scope.Arguments (argumentIndex scope.Arguments info.Name) with
    | .ok arg =>
      match env.lookup arg.Name with
      | some v => argumentText lib arg info v
      | none => none
    | .error _ => none
  | .var info =>
    match sliceIndex scope.Variables (variableScopeIndex scope.Variables info.Name) with
    | .ok varScope =>
      match lookupAll env varScope.ArgumentNames with
      | some vals => variableText lib w typeName loc scope varScope vals
      | none => none
    | .error _ => none

/-- The texts of the parts of a template, in order. -/
def partsText (lib : GoLib) (w : World) (env : Env) (typeName : String) (loc : Localization)
    (scope : MessageScope) : FormatParts → Option (List String)
  | [] => some []
  | p :: ps =>
    match partText lib w env typeName loc scope p, partsText lib w env typeName loc scope ps with
    | some t, some ts => some (t :: ts)
    | _, _ => none

/-- The program has, for every variable the template refers to, the auxiliary function
`generateVariableFunc` declares for it, as the method of that name of `typeName`. The
declarations `generateMessage` emits for the message are such a program
(`generateMessage_hasAuxiliaries`). -/
def HasAuxiliaries (prog : List Decl) (typeName : String) (loc : Localization)
    (scope : MessageScope) (parts : FormatParts) : Prop :=
  ∀ info, Part.var info ∈ parts →
    ∀ varScope,
      sliceIndex scope.Variables (variableScopeIndex scope.Variables info.Name) = .ok varScope →
      findFunc (some typeName) (getVariableFuncName scope varScope) prog
        = auxiliaryFunc loc scope varScope

/-- The variable `who` of the message `welcome`: `"dear " + name`. -/
def whoVariable : VariableScope :=
  VariableScope.mk "who" ["name"] noPlural [.str "dear ", .arg ⟨"name", noDirective⟩]

/-- The message `welcome`: `"Hello, " + who + "!"`, with the variable `who`. -/
def welcomeScope : MessageScope :=
  MessageScope.mk "welcome" [whoVariable] [⟨"name", ⟨"", "", "string"⟩⟩] noPlural
    [.str "Hello, ", .var ⟨"who"⟩, .str "!"]

/-- The language `en` with the message `welcome`. -/
def welcomeLoc : Localization := Localization.mk "en" [welcomeScope] []

/-- The environment of a call of `welcome` in `en` with `name = "Ada"`, after the
declaration of the buffer. -/
def welcomeEnv : Env :=
  [("builder", .builder), ("en_l", .impl "en_Localizer"), ("name", .str "Ada")]

/-- The environment of the auxiliary function of `who` in `en`, called with
`name = "Ada"`: the receiver, the pointer to the buffer of the caller, the argument. -/
def whoEnv : Env :=
  [("en_l", .impl "en_Localizer"), ("b0", .builderPtr), ("name", .str "Ada")]

/-- The variable `outer`, whose template refers to the variable `inner`. -/
def outerVariable : VariableScope :=
  VariableScope.mk "outer" [] noPlural [.str "<", .var ⟨"inner"⟩, .str ">"]

/-- The variable `inner`: the literal `"x"`. -/
def innerVariable : VariableScope := VariableScope.mk "inner" [] noPlural [.str "x"]

/-- The message `nested`, which refers to `outer`. -/
def nestedScope : MessageScope :=
  MessageScope.mk "nested" [outerVariable, innerVariable] [] noPlural [.var ⟨"outer"⟩]

/-- The language `en` with the message `nested`. -/
def nestedLoc : Localization := Localization.mk "en" [nestedScope] []

/-- The environment of the auxiliary function of `outer` in `en`: the receiver and the
pointer to the buffer of the caller. -/
def outerEnv : Env := [("en_l", .impl "en_Localizer"), ("b0", .builderPtr)]

/-- The message `show` with one argument, of the given name and type, and the template
that is this argument. -/
def namedScope (name goType : String) : MessageScope :=
  MessageScope.mk "show" [] [⟨name, ⟨"", "", goType⟩⟩] noPlural [.arg ⟨name, noDirective⟩]

/-- The language `en` with the message `show`. -/
def namedLoc (name goType : String) : Localization :=
  Localization.mk "en" [namedScope name goType] []

/-- The environment of a call of `show` in `en` whose argument is named `strconv` and has
the value 5, after the declaration of the buffer. -/
def strconvEnv : Env :=
  [("builder", .builder), ("en_l", .impl "en_Localizer"), ("strconv", .int 5)]

/-- The types the expressions of the list of a case name. -/
def typeNames : List Expr → List String
  | [] => []
  | .Ident t :: rest => t :: typeNames rest
  | _ :: rest => typeNames rest

/-- The types the clauses of a type switch name, in the order of the clauses. -/
def caseTypeNames : List Stmt → List String
  | [] => []
  | .CaseClause list _ :: rest => typeNames list ++ caseTypeNames rest
  | _ :: rest => caseTypeNames rest

mutual
/-- Whether no type switch of the statement names a type in two of its cases. -/
def Stmt.distinctCases : Stmt → Bool
  | .TypeSwitchStmt _ body => decide (caseTypeNames body).Nodup && distinctCasesAll body
  | .SwitchStmt body => distinctCasesAll body
  | .CaseClause _ body => distinctCasesAll body
  | _ => true
/-- Whether no type switch of the statements names a type in two of its cases. -/
def distinctCasesAll : List Stmt → Bool
  | [] => true
  | s :: rest => s.distinctCases && distinctCasesAll rest
end

/-- Two checks of the Go compiler on a declaration: a map literal has no constant key
twice, and a type switch has no type in two cases. -/
def Decl.duplicateFree : Decl → Bool
  | .GenDecl .VAR [.ValueSpec _ _ [.CompositeLit (.MapType _ _) elts]] =>
    match tableEntries elts with
    | some entries => decide (entries.map Prod.fst).Nodup
    | none => true
  | .GenDecl _ _ => true
  | .FuncDecl _ _ _ body => distinctCasesAll body

/-- What a function declaration declares: the name, with the type of the receiver for a
method. -/
def funcKey : Decl → Option (Option String × String)
  | .FuncDecl name recv _ _ => some (recvType recv, name)
  | .GenDecl _ _ => none

/-- The checks of the Go compiler for what occurs twice: no map literal has a constant
key twice, no type switch has a type in two cases, and no function, or method of a
type, is declared twice. The evaluator gives a meaning without them (the first entry,
the first clause, the first declaration); a program that fails one of them does not
compile. -/
def duplicateFree (prog : List Decl) : Bool :=
  prog.all Decl.duplicateFree && decide (prog.filterMap funcKey).Nodup

/-- Calls a function of a program as Go does: a program with a repeated map key, case or
function does not compile, and no call of it returns. -/
def invokeChecked (lib : GoLib) (prog : List Decl) (fuel : Nat) (recv : Option String)
    (f : String) (args : List Value) : Option (List Value) :=
  if duplicateFree prog then invoke lib prog fuel recv f args else none

/-- The general file of the list in which the language `en` occurs twice. -/
def repeatedGeneralFile : File :=
  match generateGeneral sampleConfig [enLoc, enLoc] with
  | .ok file => file
  | .error _ => File.mk [] "" []

/-! ## Helper lemmas -/

theorem foldl_append_singleton {α β : Type} (f : α → β) (l : List α) (init : List β) :
    l.foldl (fun acc x => acc ++ [f x]) init = init ++ l.map f := by
  induction l generalizing init with
  | nil => simp
  | cons x xs ih => simp [ih]

theorem unquoteBody_quoteBody (cs : List Char) :
    unquoteBody (quoteBody cs ++ ['"']) = some cs := by
  induction cs with
  | nil => simp [quoteBody, unquoteBody]
  | cons c cs ih =>
    by_cases h1 : c = '"'
    · subst h1
      simp [quoteBody, quoteChar, unquoteBody, unescapeChar, ih]
    · by_cases h2 : c = '\\'
      · subst h2
        simp [quoteBody, quoteChar, unquoteBody, unescapeChar, ih]
      · by_cases h3 : c = '\n'
        · subst h3
          simp [quoteBody, quoteChar, unquoteBody, unescapeChar, ih]
        · by_cases h4 : c = '\r'
          · subst h4
            simp [quoteBody, quoteChar, unquoteBody, unescapeChar, ih]
          · by_cases h5 : c = '\t'
            · subst h5
              simp [quoteBody, quoteChar, unquoteBody, unescapeChar, ih]
            · have hq : quoteChar c = [c] := by simp [quoteChar, h1, h2, h3, h4, h5]
              simp only [quoteBody, hq, List.singleton_append, List.cons_append, List.nil_append]
              cases hrest : quoteBody cs ++ ['"'] with
              | nil => simp at hrest
              | cons d rest =>
                rw [hrest] at ih
                simp [unquoteBody, h1, h2, ih]

theorem strconvUnquote_strconvQuote (s : String) :
    strconvUnquote (strconvQuote s) = some s := by
  simp [strconvUnquote, strconvQuote, unquoteBody_quoteBody]

theorem foldl_string_append (l : List String) (a : String) :
    l.foldl (fun r s => r ++ s) a = a ++ l.foldl (fun r s => r ++ s) "" := by
  induction l generalizing a with
  | nil => simp
  | cons x xs ih =>
    simp only [List.foldl_cons]
    rw [ih (a ++ x), ih ("" ++ x)]
    simp [String.append_assoc]

theorem join_cons (x : String) (xs : List String) :
    String.join (x :: xs) = x ++ String.join xs := by
  simp only [String.join, List.foldl_cons]
  rw [foldl_string_append]
  simp

theorem simpleText_literals (texts : List String) (b : String) :
    simpleText (texts.map Part.str) b = b ++ String.join texts := by
  induction texts generalizing b with
  | nil => simp [simpleText, String.join]
  | cons x xs ih =>
    simp only [List.map_cons, simpleText, ih, join_cons, String.append_assoc]

/-! ## Constant mode -/

/-- C3: for a template made of literal parts only, constant-mode lowering appends one
statement to the list, the return of a string literal, and the literal is the quoted
concatenation of the parts in their order (of no part: the empty text); the statements
already in the list stay as they are. -/
theorem simpleGenerate_literals (loc : Localization) (scope : MessageScope)
    (texts : List String) (list : List Stmt) :
    FormatParts.SimpleGenerate (texts.map Part.str) loc scope list
        = list ++ [.ReturnStmt [.BasicLit .STRING (strconvQuote (String.join texts))]]
      ∧ generateSimpleFormatParts loc scope (texts.map Part.str) list
        = list ++ [.ReturnStmt [.BasicLit .STRING (strconvQuote (String.join texts))]]
      ∧ strconvUnquote (strconvQuote (String.join texts)) = some (String.join texts)
      ∧ String.join ([] : List String) = "" := by
  refine ⟨?_, ?_, strconvUnquote_strconvQuote _, rfl⟩
  · simp [FormatParts.SimpleGenerate, generateSimpleFormatParts, simpleText_literals]
  · simp [generateSimpleFormatParts, simpleText_literals]

/-! ## The capability contract -/

theorem generateGeneralInterface_eq (msgs : List MessageScope) :
    generateGeneralInterface msgs = .InterfaceType (msgs.map contractMethod) := by
  unfold generateGeneralInterface
  have h : (fun (methods : List Field) (msg : MessageScope) =>
      methods ++ [Field.mk [msg.Name]
        (.FuncType
          (msg.Arguments.foldl (fun params a =>
            params ++ [Field.mk [a.Name] (getPackageFieldType a)]) [])
          [Field.mk [] (.Ident "string")])])
      = (fun methods msg => methods ++ [contractMethod msg]) := by
    funext methods msg
    simp [contractMethod, foldl_append_singleton]
  rw [h, foldl_append_singleton]
  simp

/-- C5: the contract generated for a list of message scopes has one method per message
scope, in the order of the list; the method of a message is named after it, has one
parameter per declared argument, with the argument's name and type and in the order of
the declaration, and has the single result `string`. -/
theorem generateGeneralInterface_methods (msgs : List MessageScope) :
    generateGeneralInterface msgs
        = .InterfaceType (msgs.map (fun msg => Field.mk [msg.Name]
            (.FuncType (msg.Arguments.map (fun a => Field.mk [a.Name] (getPackageFieldType a)))
              [Field.mk [] (.Ident "string")])))
      ∧ (interfaceMethods (generateGeneralInterface msgs)).length = msgs.length
      ∧ ∀ i, (interfaceMethods (generateGeneralInterface msgs)).get? i
          = (msgs.get? i).map (fun msg => Field.mk [msg.Name]
            (.FuncType (msg.Arguments.map (fun a => Field.mk [a.Name] (getPackageFieldType a)))
              [Field.mk [] (.Ident "string")])) := by
  have h := generateGeneralInterface_eq msgs
  refine ⟨h, ?_, ?_⟩
  · rw [h]; simp [interfaceMethods]
  · intro i
    rw [h]
    simp [interfaceMethods, List.getElem?_map]
    rfl

/-- C6, as stated, fails: two languages declaring the same two messages in a different
order are schema-isomorphic, and the contracts generated from them differ. -/
theorem generateGeneralInterface_order_counterexample :
    SchemaIsomorphic orderedLoc swappedLoc
      ∧ generateGeneralInterface orderedLoc.Scopes
        ≠ generateGeneralInterface swappedLoc.Scopes := by
  constructor
  · intro sig
    simp [orderedLoc, swappedLoc]
    tauto
  · simp [generateGeneralInterface_eq, orderedLoc, swappedLoc, contractMethod, greetingScope,
      helloScope]

/-- C6, amended: the contracts generated from two schema-isomorphic languages have the
same methods, possibly in a different order; they are equal when the two languages
declare the same signatures in the same order. -/
theorem generateGeneralInterface_schemaIsomorphic (a b : Localization)
    (h : SchemaIsomorphic a b) :
    (∀ m, m ∈ interfaceMethods (generateGeneralInterface a.Scopes)
        ↔ m ∈ interfaceMethods (generateGeneralInterface b.Scopes))
      ∧ (a.Scopes.map signature = b.Scopes.map signature →
          generateGeneralInterface a.Scopes = generateGeneralInterface b.Scopes) := by
  have key : ∀ scopes : List MessageScope,
      scopes.map contractMethod = (scopes.map signature).map (fun sig =>
        Field.mk [sig.1] (.FuncType (sig.2.map (fun x => Field.mk [x.Name]
          (getPackageFieldType x))) [Field.mk [] (.Ident "string")])) := by
    intro scopes
    simp [contractMethod, signature]
  constructor
  · intro m
    rw [generateGeneralInterface_eq, generateGeneralInterface_eq]
    simp only [interfaceMethods]
    rw [key a.Scopes, key b.Scopes]
    simp only [List.mem_map]
    constructor
    · rintro ⟨sig, hs, rfl⟩
      exact ⟨sig, List.mem_map.1 ((h sig).1 (List.mem_map.2 hs)), rfl⟩
    · rintro ⟨sig, hs, rfl⟩
      exact ⟨sig, List.mem_map.1 ((h sig).2 (List.mem_map.2 hs)), rfl⟩
  · intro heq
    rw [generateGeneralInterface_eq, generateGeneralInterface_eq, key a.Scopes, key b.Scopes,
      heq]

/-- The witness of `generateGeneralInterface_schemaIsomorphic`: a language and the same
messages in another order. -/
theorem generateGeneralInterface_schemaIsomorphic_witness :
    SchemaIsomorphic orderedLoc swappedLoc
      ∧ ((∀ m, m ∈ interfaceMethods (generateGeneralInterface orderedLoc.Scopes)
          ↔ m ∈ interfaceMethods (generateGeneralInterface swappedLoc.Scopes))
        ∧ (orderedLoc.Scopes.map signature = swappedLoc.Scopes.map signature →
            generateGeneralInterface orderedLoc.Scopes
              = generateGeneralInterface swappedLoc.Scopes)) :=
  have h : SchemaIsomorphic orderedLoc swappedLoc := by
    intro sig
    simp [orderedLoc, swappedLoc]
    tauto
  ⟨h, generateGeneralInterface_schemaIsomorphic orderedLoc swappedLoc h⟩

/-- C4, on the code: a message whose plural branches are all literal is lowered in the
simple shape; the function generated for it has no parameter, although the message
declares the argument `count`, the dispatch in its body compares `count`, and the
method the contract has for the message takes `count int`. -/
theorem generateSimpleMessage_drops_parameters :
    literalItemsScope.IsSimple = true
      ∧ generateSimpleMessage enLoc literalItemsScope []
        = [.FuncDecl "items" [Field.mk ["en_l"] (.Ident "en_Localizer")]
            (.FuncType [] [Field.mk [] (.Ident "string")])
            [.SwitchStmt
              [.CaseClause [.BinaryExpr (.Ident "count") .EQL (.BasicLit .INT "0")]
                [.ReturnStmt [.BasicLit .STRING "\"no items\""]],
               .CaseClause [] [.ReturnStmt [.BasicLit .STRING "\"some items\""]]]]]
      ∧ generateGeneralInterface [literalItemsScope]
        = .InterfaceType [Field.mk ["items"]
            (.FuncType [Field.mk ["count"] (.Ident "int")] [Field.mk [] (.Ident "string")])] := by
  refine ⟨rfl, ?_, ?_⟩
  · rfl
  · rfl

/-! ## Formatting of an argument -/

/-- C9: without a format directive the operation is chosen from the type of the argument
alone: a `string` is written as it is, an `int` through `strconv.Itoa`, a `float64`
through `strconv.FormatFloat` with format `'f'`, precision 6 and bit size 64, any
other type through `fmt.Sprint`; in each case one `WriteString` statement is appended. -/
theorem generateArgument_default (loc : Localization) (scope : MessageScope) (arg : Argument)
    (info : ArgInfo) (builderName : String) (list : List Stmt)
    (h : info.FmtInfo.IsZero = true) :
    ∃ op, (generateArgument loc scope arg info builderName list).2
        = list ++ [.ExprStmt (.CallExpr (.SelectorExpr (.Ident builderName) "WriteString") [op])]
      ∧ (arg.GoType.Type_ = "string" → op = .Ident arg.Name)
      ∧ (arg.GoType.Type_ = "int" →
          op = .CallExpr (.SelectorExpr (.Ident "strconv") "Itoa") [.Ident arg.Name])
      ∧ (arg.GoType.Type_ = "float64" →
          op = .CallExpr (.SelectorExpr (.Ident "strconv") "FormatFloat")
            [.Ident arg.Name, .BasicLit .CHAR "'f'", .BasicLit .INT "6", .BasicLit .INT "64"])
      ∧ (arg.GoType.Type_ ≠ "string" → arg.GoType.Type_ ≠ "int" →
          arg.GoType.Type_ ≠ "float64" →
          op = .CallExpr (.SelectorExpr (.Ident "fmt") "Sprint") [.Ident arg.Name]) := by
  by_cases h1 : arg.GoType.Type_ = "string"
  · refine ⟨.Ident arg.Name, ?_, ?_, ?_, ?_, ?_⟩
    · simp [generateArgument, h, h1]
    · intro _; rfl
    · intro h2; rw [h1] at h2; exact absurd h2 (by decide)
    · intro h2; rw [h1] at h2; exact absurd h2 (by decide)
    · intro h2; exact absurd h1 h2
  · by_cases h2 : arg.GoType.Type_ = "int"
    · refine ⟨.CallExpr (.SelectorExpr (.Ident "strconv") "Itoa") [.Ident arg.Name],
        ?_, ?_, ?_, ?_, ?_⟩
      · simp [generateArgument, generateArgumentItoa, h, h2]
      · intro h3; exact absurd h3 h1
      · intro _; rfl
      · intro h3; rw [h2] at h3; exact absurd h3 (by decide)
      · intro _ h3; exact absurd h2 h3
    · by_cases h3 : arg.GoType.Type_ = "float64"
      · refine ⟨.CallExpr (.SelectorExpr (.Ident "strconv") "FormatFloat")
            [.Ident arg.Name, .BasicLit .CHAR "'f'", .BasicLit .INT "6", .BasicLit .INT "64"],
          ?_, ?_, ?_, ?_, ?_⟩
        · simp [generateArgument, generateArgumentFormatFloat, h, h3]
        · intro h4; exact absurd h4 h1
        · intro h4; exact absurd h4 h2
        · intro _; rfl
        · intro _ _ h4; exact absurd h3 h4
      · refine ⟨.CallExpr (.SelectorExpr (.Ident "fmt") "Sprint") [.Ident arg.Name],
          ?_, ?_, ?_, ?_, ?_⟩
        · simp [generateArgument, generateArgumentSprint, h, h1, h2, h3]
        · intro h4; exact absurd h4 h1
        · intro h4; exact absurd h4 h2
        · intro h4; exact absurd h4 h3
        · intro _ _ _; rfl

/-- The witness of `generateArgument_default`: the argument `count` of type `int`,
referenced without directive. -/
theorem generateArgument_default_witness :
    noDirective.IsZero = true
      ∧ ∃ op, (generateArgument enLoc itemsScope countArgument ⟨"count", noDirective⟩
            "builder" []).2
          = [] ++ [.ExprStmt (.CallExpr (.SelectorExpr (.Ident "builder") "WriteString") [op])]
        ∧ (countArgument.GoType.Type_ = "string" → op = .Ident countArgument.Name)
        ∧ (countArgument.GoType.Type_ = "int" →
            op = .CallExpr (.SelectorExpr (.Ident "strconv") "Itoa") [.Ident countArgument.Name])
        ∧ (countArgument.GoType.Type_ = "float64" →
            op = .CallExpr (.SelectorExpr (.Ident "strconv") "FormatFloat")
              [.Ident countArgument.Name, .BasicLit .CHAR "'f'", .BasicLit .INT "6",
                .BasicLit .INT "64"])
        ∧ (countArgument.GoType.Type_ ≠ "string" → countArgument.GoType.Type_ ≠ "int" →
            countArgument.GoType.Type_ ≠ "float64" →
            op = .CallExpr (.SelectorExpr (.Ident "fmt") "Sprint")
              [.Ident countArgument.Name]) :=
  ⟨rfl, generateArgument_default enLoc itemsScope countArgument ⟨"count", noDirective⟩
    "builder" [] rfl⟩

/-- C10: with a format directive, whatever the type of the argument, the operation is
`fmt.Sprintf` with the pattern of the directive and the argument, in one `WriteString`
statement, and it is none of the operations chosen from the type. -/
theorem generateArgument_directive (loc : Localization) (scope : MessageScope) (arg : Argument)
    (info : ArgInfo) (builderName : String) (list : List Stmt)
    (h : info.FmtInfo.IsZero = false) :
    ∃ op, (generateArgument loc scope arg info builderName list).2
        = list ++ [.ExprStmt (.CallExpr (.SelectorExpr (.Ident builderName) "WriteString") [op])]
      ∧ op = .CallExpr (.SelectorExpr (.Ident "fmt") "Sprintf")
          [.BasicLit .STRING (strconvQuote (info.FmtInfo.GoFormat arg.GoType)), .Ident arg.Name]
      ∧ op ≠ .Ident arg.Name
      ∧ op ≠ .CallExpr (.SelectorExpr (.Ident "strconv") "Itoa") [.Ident arg.Name]
      ∧ op ≠ .CallExpr (.SelectorExpr (.Ident "strconv") "FormatFloat")
          [.Ident arg.Name, .BasicLit .CHAR "'f'", .BasicLit .INT "6", .BasicLit .INT "64"]
      ∧ op ≠ .CallExpr (.SelectorExpr (.Ident "fmt") "Sprint") [.Ident arg.Name] := by
  refine ⟨_, ?_, rfl, ?_, ?_, ?_, ?_⟩
  · simp [generateArgument, generateArgumentSprintf, h]
  · simp
  · simp
  · simp
  · simp

/-- The witness of `generateArgument_directive`: the argument `count` of type `int`,
referenced with a directive. -/
theorem generateArgument_directive_witness :
    widthDirective.IsZero = false
      ∧ ∃ op, (generateArgument enLoc itemsScope countArgument ⟨"count", widthDirective⟩
            "builder" []).2
          = [] ++ [.ExprStmt (.CallExpr (.SelectorExpr (.Ident "builder") "WriteString") [op])]
        ∧ op = .CallExpr (.SelectorExpr (.Ident "fmt") "Sprintf")
            [.BasicLit .STRING
              (strconvQuote ((ArgInfo.mk "count" widthDirective).FmtInfo.GoFormat
                countArgument.GoType)),
             .Ident countArgument.Name]
        ∧ op ≠ .Ident countArgument.Name
        ∧ op ≠ .CallExpr (.SelectorExpr (.Ident "strconv") "Itoa") [.Ident countArgument.Name]
        ∧ op ≠ .CallExpr (.SelectorExpr (.Ident "strconv") "FormatFloat")
            [.Ident countArgument.Name, .BasicLit .CHAR "'f'", .BasicLit .INT "6",
              .BasicLit .INT "64"]
        ∧ op ≠ .CallExpr (.SelectorExpr (.Ident "fmt") "Sprint") [.Ident countArgument.Name] :=
  ⟨rfl, generateArgument_directive enLoc itemsScope countArgument ⟨"count", widthDirective⟩
    "builder" [] rfl⟩

/-! ## Registry and lookups -/

theorem tableEntries_registry (locs : List Localization) :
    tableEntries (locs.map (fun loc => Expr.KeyValueExpr (.Ident (strconvQuote loc.Lang))
      (.CompositeLit (.Ident (getLocalizerTypeName loc)) [])))
      = some (locs.map registryEntry) := by
  induction locs with
  | nil => rfl
  | cons loc rest ih =>
    simp [tableEntries, tableEntry, ih, strconvUnquote_strconvQuote, registryEntry]

theorem lookup_registry_mem (locs : List Localization) (loc : Localization) (h : loc ∈ locs) :
    (locs.map registryEntry).lookup loc.Lang = some (.impl (getLocalizerTypeName loc)) := by
  induction locs with
  | nil => simp at h
  | cons l0 rest ih =>
    by_cases hl : loc.Lang = l0.Lang
    · simp [List.lookup, registryEntry, hl, getLocalizerTypeName]
    · have hne : loc ≠ l0 := fun e => hl (by rw [e])
      have hin : loc ∈ rest := by
        rcases List.mem_cons.1 h with h1 | h1
        · exact absurd h1 hne
        · exact h1
      have hb : (loc.Lang == l0.Lang) = false := by simpa using hl
      simp only [List.map_cons, registryEntry, List.lookup, hb]
      exact ih hin

theorem lookup_registry_not_mem (locs : List Localization) (lang : String)
    (h : lang ∉ locs.map (fun loc => loc.Lang)) :
    (locs.map registryEntry).lookup lang = none := by
  induction locs with
  | nil => rfl
  | cons l0 rest ih =>
    simp only [List.map_cons, List.mem_cons, not_or] at h
    have hb : (lang == l0.Lang) = false := by simpa using h.1
    simp only [List.map_cons, registryEntry, List.lookup, hb]
    exact ih h.2

theorem generateGeneral_decls (config : Config) (locs : List Localization) (file : File)
    (hg : generateGeneral config locs = .ok file) :
    ∃ pre : List Decl, ∃ iface : Expr,
      (pre = [] ∨ ∃ specs, pre = [.GenDecl .IMPORT specs])
      ∧ file.Decls = generateGeneralFuncs locs (generateGeneralSupported locs
          (generateGeneralTable locs (pre ++ [.GenDecl .TYPE [.TypeSpec "Localizer" iface]]))) := by
  cases locs with
  | nil => simp [generateGeneral, sliceIndex, bind, Except.bind] at hg
  | cons loc0 rest =>
    simp only [generateGeneral, sliceIndex, bind, Except.bind, pure, Except.pure] at hg
    simp at hg
    subst hg
    by_cases hi : config.Imports = []
    · exact ⟨[], generateGeneralInterface loc0.Scopes, Or.inl rfl, by simp [hi]⟩
    · exact ⟨[.GenDecl .IMPORT (config.Imports.foldl (fun specs imp =>
          specs ++ [.ImportSpec (.BasicLit .STRING (strconvQuote imp.Import))]) [])],
        generateGeneralInterface loc0.Scopes, Or.inr ⟨_, rfl⟩, by simp [hi]⟩

theorem string_append_right_cancel (a b s : String) (h : a ++ s = b ++ s) : a = b := by
  have h1 : (a ++ s).data = (b ++ s).data := by rw [h]
  rw [String.data_append, String.data_append] at h1
  exact String.ext (List.append_cancel_right h1)

theorem getLocalizerTypeName_injective (a b : Localization)
    (h : getLocalizerTypeName a = getLocalizerTypeName b) : a.Lang = b.Lang :=
  string_append_right_cancel _ _ _ h

theorem execStmts_return_literal (lib : GoLib) (w : World) (env : Env) (text buf : String) :
    execStmts lib w env [.ReturnStmt [.BasicLit .STRING (strconvQuote text)]] buf
      = some (.ret [.str text] buf) := by
  simp [execStmts, execStmt, execReturn, evalArgs, evalExpr, strconvUnquote_strconvQuote]

theorem execStmts_return_empty (lib : GoLib) (w : World) (env : Env) (buf : String) :
    execStmts lib w env [.ReturnStmt [.BasicLit .STRING "\"\""]] buf
      = some (.ret [.str ""] buf) :=
  execStmts_return_literal lib w env "" buf

/-- The clause `generateGeneralFuncLang` emits for a language. -/
theorem execTypeSwitch_registered (lib : GoLib) (w : World) (env : Env) (buf : String)
    (tail : List Stmt) (locs : List Localization) (loc : Localization) (h : loc ∈ locs) :
    execTypeSwitch lib w env (some (getLocalizerTypeName loc))
      (locs.map (fun l => Stmt.CaseClause [.Ident (getLocalizerTypeName l)]
          [.ReturnStmt [.BasicLit .STRING (strconvQuote l.Lang)]]) ++ tail) buf
      = some (.ret [.str loc.Lang] buf) := by
  induction locs with
  | nil => simp at h
  | cons l0 rest ih =>
    by_cases hl : getLocalizerTypeName l0 = getLocalizerTypeName loc
    · have hlang := getLocalizerTypeName_injective _ _ hl
      simp only [List.map_cons, List.cons_append, execTypeSwitch, typeListed, hl, beq_self_eq_true,
        Bool.true_or, if_true]
      rw [hlang]
      exact execStmts_return_literal lib w env loc.Lang buf
    · have hne : loc ≠ l0 := fun e => hl (by rw [e])
      have hin : loc ∈ rest := by
        rcases List.mem_cons.1 h with h1 | h1
        · exact absurd h1 hne
        · exact h1
      have hb : (getLocalizerTypeName l0 == getLocalizerTypeName loc) = false := by simpa using hl
      simp only [List.map_cons, List.cons_append, execTypeSwitch, typeListed, hb, Bool.or_false,
        Bool.false_eq_true, if_false]
      exact ih hin

theorem execTypeSwitch_unregistered (lib : GoLib) (w : World) (env : Env) (buf : String)
    (t : Option String) (locs : List Localization)
    (h : ∀ loc ∈ locs, t ≠ some (getLocalizerTypeName loc)) :
    execTypeSwitch lib w env t
      (locs.map (fun l => Stmt.CaseClause [.Ident (getLocalizerTypeName l)]
          [.ReturnStmt [.BasicLit .STRING (strconvQuote l.Lang)]])
        ++ [.CaseClause [] [.ReturnStmt [.BasicLit .STRING "\"\""]]]) buf
      = some (.ret [.str ""] buf) := by
  induction locs with
  | nil =>
    cases t with
    | none => simp [execTypeSwitch, execStmts_return_empty]
    | some typeName => simp [execTypeSwitch, someTypeListed, execStmts_return_empty]
  | cons l0 rest ih =>
    have hrest : ∀ loc ∈ rest, t ≠ some (getLocalizerTypeName loc) :=
      fun loc hm => h loc (List.mem_cons_of_mem _ hm)
    cases t with
    | none =>
      simp only [List.map_cons, List.cons_append, execTypeSwitch]
      exact ih hrest
    | some typeName =>
      have h0 : getLocalizerTypeName l0 ≠ typeName := by
        intro e
        exact h l0 (List.mem_cons_self _ _) (by rw [e])
      have hb : (getLocalizerTypeName l0 == typeName) = false := by simpa using h0
      simp only [List.map_cons, List.cons_append, execTypeSwitch, typeListed, hb, Bool.or_false,
        Bool.false_eq_true, if_false]
      exact ih hrest

theorem generalDecls_findTable (locs : List Localization) (pre : List Decl) (iface : Expr)
    (hpre : pre = [] ∨ ∃ specs, pre = [.GenDecl .IMPORT specs]) :
    findTable "mapLangToLocalizer" (generateGeneralFuncs locs (generateGeneralSupported locs
        (generateGeneralTable locs (pre ++ [.GenDecl .TYPE [.TypeSpec "Localizer" iface]]))))
      = some (locs.map registryEntry) := by
  rcases hpre with rfl | ⟨specs, rfl⟩ <;>
    simp [generateGeneralFuncs, generateGeneralFuncLang, generateGeneralFuncNew,
      generateGeneralSupported, generateGeneralTable, findTable, foldl_append_singleton,
      tableEntries_registry]

theorem generalDecls_findNew (locs : List Localization) (pre : List Decl) (iface : Expr)
    (hpre : pre = [] ∨ ∃ specs, pre = [.GenDecl .IMPORT specs]) :
    findFunc none "New" (generateGeneralFuncs locs (generateGeneralSupported locs
        (generateGeneralTable locs (pre ++ [.GenDecl .TYPE [.TypeSpec "Localizer" iface]]))))
      = some ([], [Field.mk ["lang"] (.Ident "string")],
          [.AssignStmt [.Ident "loc", .Ident "ok"] .ASSIGN
              [.IndexExpr (.Ident "mapLangToLocalizer") (.Ident "lang")],
           .ReturnStmt [.Ident "loc", .Ident "ok"]]) := by
  rcases hpre with rfl | ⟨specs, rfl⟩ <;>
    simp [generateGeneralFuncs, generateGeneralFuncLang, generateGeneralFuncNew,
      generateGeneralSupported, generateGeneralTable, findFunc, recvType]

theorem generalDecls_findLanguage (locs : List Localization) (pre : List Decl) (iface : Expr)
    (hpre : pre = [] ∨ ∃ specs, pre = [.GenDecl .IMPORT specs]) :
    findFunc none "Language" (generateGeneralFuncs locs (generateGeneralSupported locs
        (generateGeneralTable locs (pre ++ [.GenDecl .TYPE [.TypeSpec "Localizer" iface]]))))
      = some ([], [Field.mk ["loc"] (.Ident "Localizer")],
          [.TypeSwitchStmt (.ExprStmt (.TypeAssertExpr (.Ident "loc")))
            (locs.map (fun l => Stmt.CaseClause [.Ident (getLocalizerTypeName l)]
                [.ReturnStmt [.BasicLit .STRING (strconvQuote l.Lang)]])
              ++ [.CaseClause [] [.ReturnStmt [.BasicLit .STRING "\"\""]]])]) := by
  rcases hpre with rfl | ⟨specs, rfl⟩ <;>
    simp [generateGeneralFuncs, generateGeneralFuncLang, generateGeneralFuncNew,
      generateGeneralSupported, generateGeneralTable, findFunc, recvType, foldl_append_singleton]

theorem invoke_New (lib : GoLib) (prog : List Decl) (fuel : Nat) (lang : String)
    (entries : List (String × Value))
    (ht : findTable "mapLangToLocalizer" prog = some entries)
    (hf : findFunc none "New" prog
      = some ([], [Field.mk ["lang"] (.Ident "string")],
          [.AssignStmt [.Ident "loc", .Ident "ok"] .ASSIGN
              [.IndexExpr (.Ident "mapLangToLocalizer") (.Ident "lang")],
           .ReturnStmt [.Ident "loc", .Ident "ok"]])) :
    invoke lib prog fuel none "New" [.str lang]
      = match entries.lookup lang with
        | some v => some [v, .bool true]
        | none => some [.nilValue, .bool false] := by
  simp only [invoke, hf, startEnv, fieldNames, Field.names, bindParams, List.append_nil,
    List.nodup_singleton, if_true, Option.map_some', execStmts, execStmt, execAssign, world,
    ht, evalExpr, List.lookup, beq_self_eq_true]
  cases h : entries.lookup lang <;>
    simp [h, execStmts, execStmt, execReturn, evalArgs, evalExpr, List.lookup]

theorem invoke_Language (lib : GoLib) (prog : List Decl) (fuel : Nat) (v : Value)
    (clauses : List Stmt)
    (hf : findFunc none "Language" prog
      = some ([], [Field.mk ["loc"] (.Ident "Localizer")],
          [.TypeSwitchStmt (.ExprStmt (.TypeAssertExpr (.Ident "loc"))) clauses])) :
    invoke lib prog fuel none "Language" [v]
      = match execTypeSwitch lib (world lib prog fuel) [("loc", v)] (dynamicType v) clauses "" with
        | some (.ret vals _) => some vals
        | _ => none := by
  simp only [invoke, hf, startEnv, fieldNames, Field.names, bindParams, List.append_nil,
    List.nodup_singleton, if_true, Option.map_some', execStmts, execStmt, typeSwitchSubject,
    List.lookup, beq_self_eq_true]
  cases execTypeSwitch lib (world lib prog fuel) [("loc", v)] (dynamicType v) clauses "" with
  | none => rfl
  | some o => cases o <;> rfl

/-- C7: for languages with pairwise distinct identifiers the registry built by
`generateGeneralTable` has one entry per language, under distinct keys, mapping the
identifier of the language to the zero value of its implementing type; and the
generated `New` is a lookup in it: for the identifier of a language it returns that
value and `true`, for any other identifier it returns `false`. -/
theorem registry_lookup (lib : GoLib) (config : Config) (locs : List Localization)
    (file : File) (fuel : Nat)
    (hd : (locs.map (fun loc => loc.Lang)).Nodup)
    (hg : generateGeneral config locs = .ok file) :
    (∀ decls, generateGeneralTable locs decls
        = decls ++ [.GenDecl .VAR [.ValueSpec ["mapLangToLocalizer"] none
            [.CompositeLit (.MapType (.Ident "string") (.Ident "Localizer"))
              (locs.map (fun loc => Expr.KeyValueExpr (.Ident (strconvQuote loc.Lang))
                (.CompositeLit (.Ident (getLocalizerTypeName loc)) [])))]]])
      ∧ findTable "mapLangToLocalizer" file.Decls
        = some (locs.map (fun loc => (loc.Lang, Value.impl (getLocalizerTypeName loc))))
      ∧ ((locs.map (fun loc => (loc.Lang, Value.impl (getLocalizerTypeName loc)))).map
          Prod.fst).Nodup
      ∧ (∀ loc ∈ locs, invoke lib file.Decls fuel none "New" [.str loc.Lang]
          = some [.impl (getLocalizerTypeName loc), .bool true])
      ∧ (∀ lang, lang ∉ locs.map (fun loc => loc.Lang) →
          invoke lib file.Decls fuel none "New" [.str lang] = some [.nilValue, .bool false]) := by
  obtain ⟨pre, iface, hpre, hdecls⟩ := generateGeneral_decls config locs file hg
  have ht := generalDecls_findTable locs pre iface hpre
  have hf := generalDecls_findNew locs pre iface hpre
  rw [← hdecls] at ht hf
  refine ⟨?_, ht, ?_, ?_, ?_⟩
  · intro decls
    simp [generateGeneralTable, foldl_append_singleton]
  · simpa [List.map_map, Function.comp] using hd
  · intro loc hloc
    rw [invoke_New lib file.Decls fuel loc.Lang _ ht hf, lookup_registry_mem locs loc hloc]
  · intro lang hlang
    rw [invoke_New lib file.Decls fuel lang _ ht hf, lookup_registry_not_mem locs lang hlang]

/-- The witness of `registry_lookup`: the languages `en` and `fr`; `New("fr")` finds the
implementation of `fr`. -/
theorem registry_lookup_witness :
    ([enLoc, frLoc].map (fun loc => loc.Lang)).Nodup
      ∧ generateGeneral sampleConfig [enLoc, frLoc] = .ok sampleGeneralFile
      ∧ invoke sampleLib sampleGeneralFile.Decls 0 none "New" [.str frLoc.Lang]
        = some [.impl (getLocalizerTypeName frLoc), .bool true] :=
  ⟨by decide, rfl,
    (registry_lookup sampleLib sampleConfig [enLoc, frLoc] sampleGeneralFile 0 (by decide)
      rfl).2.2.2.1 frLoc (by simp)⟩

/-- C8: the generated `Language` undoes the registry: applied to the value `New` returns
for the identifier of a language it returns that identifier; applied to a value whose
type is the implementing type of no language it returns the empty identifier, through
the default clause, which is the last clause of the type switch. -/
theorem language_undoes_new (lib : GoLib) (config : Config) (locs : List Localization)
    (file : File) (fuel : Nat)
    (hg : generateGeneral config locs = .ok file) :
    (∀ loc ∈ locs, ∃ v,
        invoke lib file.Decls fuel none "New" [.str loc.Lang] = some [v, .bool true]
          ∧ invoke lib file.Decls fuel none "Language" [v] = some [.str loc.Lang])
      ∧ (∀ v, (∀ loc ∈ locs, dynamicType v ≠ some (getLocalizerTypeName loc)) →
          invoke lib file.Decls fuel none "Language" [v] = some [.str ""])
      ∧ (∃ clauses : List Stmt, clauses.length = locs.length
          ∧ findFunc none "Language" file.Decls
            = some ([], [Field.mk ["loc"] (.Ident "Localizer")],
                [.TypeSwitchStmt (.ExprStmt (.TypeAssertExpr (.Ident "loc")))
                  (clauses ++ [.CaseClause [] [.ReturnStmt [.BasicLit .STRING "\"\""]]])])) := by
  obtain ⟨pre, iface, hpre, hdecls⟩ := generateGeneral_decls config locs file hg
  have ht := generalDecls_findTable locs pre iface hpre
  have hf := generalDecls_findNew locs pre iface hpre
  have hl := generalDecls_findLanguage locs pre iface hpre
  rw [← hdecls] at ht hf hl
  refine ⟨?_, ?_, ?_⟩
  · intro loc hloc
    refine ⟨.impl (getLocalizerTypeName loc), ?_, ?_⟩
    · rw [invoke_New lib file.Decls fuel loc.Lang _ ht hf, lookup_registry_mem locs loc hloc]
    · rw [invoke_Language lib file.Decls fuel _ _ hl]
      simp only [dynamicType]
      rw [execTypeSwitch_registered lib _ _ "" _ locs loc hloc]
  · intro v hv
    rw [invoke_Language lib file.Decls fuel _ _ hl]
    rw [execTypeSwitch_unregistered lib _ _ "" (dynamicType v) locs hv]
  · exact ⟨_, by simp, hl⟩

/-- The witness of `language_undoes_new`: the languages `en` and `fr`; a value of a type
the package does not define has the empty identifier. -/
theorem language_undoes_new_witness :
    generateGeneral sampleConfig [enLoc, frLoc] = .ok sampleGeneralFile
      ∧ invoke sampleLib sampleGeneralFile.Decls 0 none "Language" [.impl "de_Localizer"]
        = some [.str ""] :=
  ⟨rfl,
    (language_undoes_new sampleLib sampleConfig [enLoc, frLoc] sampleGeneralFile 0
      rfl).2.1 (.impl "de_Localizer") (by decide)⟩

/-! ## Statements only append to the buffer -/

theorem sameFlow_none (buf : String) : SameFlow buf none none := rfl

theorem sameFlow_trans {buf b1 : String} {o1 o2 o3 : Option Outcome}
    (h1 : SameFlow (buf ++ b1) o1 o3) (h2 : SameFlow b1 o2 o3) : SameFlow buf o1 o2 := by
  unfold SameFlow at *
  rw [h1]
  cases o3 with
  | none =>
    cases o2 with
    | none => rfl
    | some o => simp at h2
  | some o =>
    cases o2 with
    | none => simp at h2
    | some o' =>
      simp only [Option.map_some', Option.some.injEq] at h2 ⊢
      rw [h2]
      simp [String.append_assoc]

theorem execCall_sameFlow (lib : GoLib) (w : World) (hw : w.Appends) (env : Env) (x : Expr)
    (buf : String) : SameFlow buf (execCall lib w env x buf) (execCall lib w env x "") := by
  unfold execCall
  split
  · split
    · split
      · rw [hw]
        cases w.call _ _ _ "" <;> simp [SameFlow, Outcome.flow]
      · exact sameFlow_none _
    · split
      · split <;> simp [SameFlow, Outcome.flow]
      · exact sameFlow_none _
  · exact sameFlow_none _

theorem execReturn_sameFlow (lib : GoLib) (env : Env) (results : List Expr) (buf : String) :
    SameFlow buf (execReturn lib env results buf) (execReturn lib env results "") := by
  unfold execReturn
  split
  · split <;> simp [SameFlow, Outcome.flow]
  · cases evalArgs lib env _ <;> simp [SameFlow, Outcome.flow]

theorem execAssign_sameFlow (lib : GoLib) (w : World) (env : Env) (lhs : List Expr) (tok : Token)
    (rhs : List Expr) (buf : String) :
    SameFlow buf (execAssign lib w env lhs tok rhs buf) (execAssign lib w env lhs tok rhs "") := by
  unfold execAssign
  split
  · split
    · split <;> simp [SameFlow, Outcome.flow]
    · exact sameFlow_none _
  · exact sameFlow_none _

theorem execDecl_sameFlow (env : Env) (tok : Token) (specs : List Spec) (buf : String) :
    SameFlow buf (execDecl env tok specs buf) (execDecl env tok specs "") := by
  unfold execDecl
  split
  · split
    · simp [SameFlow, Outcome.flow]
    · split <;> simp [SameFlow, Outcome.flow]
  · exact sameFlow_none _

theorem execStmts_cons_sameFlow (lib : GoLib) (w : World) (s : Stmt) (rest : List Stmt)
    (hs : ∀ env buf, SameFlow buf (execStmt lib w env s buf) (execStmt lib w env s ""))
    (hr : ∀ env buf, SameFlow buf (execStmts lib w env rest buf) (execStmts lib w env rest ""))
    (env : Env) (buf : String) :
    SameFlow buf (execStmts lib w env (s :: rest) buf) (execStmts lib w env (s :: rest) "") := by
  have h := hs env buf
  simp only [execStmts]
  cases h0 : execStmt lib w env s "" with
  | none =>
    rw [h0] at h
    cases h1 : execStmt lib w env s buf with
    | none => exact sameFlow_none _
    | some o => rw [h1] at h; simp [SameFlow] at h
  | some o0 =>
    rw [h0] at h
    cases h1 : execStmt lib w env s buf with
    | none => rw [h1] at h; simp [SameFlow] at h
    | some o1 =>
      rw [h1] at h
      cases o0 with
      | next env0 b0 =>
        cases o1 with
        | next env1 b1 =>
          simp only [SameFlow, Outcome.flow, Option.map_some', Option.some.injEq, Prod.mk.injEq]
            at h
          obtain ⟨he, hb⟩ := h
          subst he
          subst hb
          exact sameFlow_trans (hr env1 (buf ++ b0)) (hr env1 b0)
        | ret v1 b1 => simp [SameFlow, Outcome.flow] at h
      | ret v0 b0 =>
        cases o1 with
        | next env1 b1 => simp [SameFlow, Outcome.flow] at h
        | ret v1 b1 =>
          simp only [SameFlow, Outcome.flow, Option.map_some', Option.some.injEq, Prod.mk.injEq,
            true_and] at h
          simp [SameFlow, Outcome.flow, h]

theorem execStmt_sameFlow_aux (lib : GoLib) (w : World) (hw : w.Appends) (n : Nat) :
    (∀ (s : Stmt), sizeOf s < n → ∀ env buf,
        SameFlow buf (execStmt lib w env s buf) (execStmt lib w env s ""))
      ∧ (∀ (l : List Stmt), sizeOf l < n →
        (∀ env buf, SameFlow buf (execStmts lib w env l buf) (execStmts lib w env l ""))
          ∧ (∀ env buf, SameFlow buf (execSwitch lib w env l buf) (execSwitch lib w env l ""))
          ∧ ∀ env buf t, SameFlow buf (execTypeSwitch lib w env t l buf)
              (execTypeSwitch lib w env t l "")) := by
  induction n with
  | zero => exact ⟨fun _ h => absurd h (Nat.not_lt_zero _), fun _ h => absurd h (Nat.not_lt_zero _)⟩
  | succ n ih =>
    obtain ⟨ihs, ihl⟩ := ih
    constructor
    · intro s hs env buf
      cases s with
      | ExprStmt x => simp only [execStmt]; exact execCall_sameFlow lib w hw env x buf
      | ReturnStmt r => simp only [execStmt]; exact execReturn_sameFlow lib env r buf
      | AssignStmt l tok r => simp only [execStmt]; exact execAssign_sameFlow lib w env l tok r buf
      | DeclStmt tok specs => simp only [execStmt]; exact execDecl_sameFlow env tok specs buf
      | SwitchStmt body =>
        simp only [execStmt]
        exact (ihl body (by simp at hs; omega)).2.1 env buf
      | TypeSwitchStmt a body =>
        simp only [execStmt]
        cases typeSwitchSubject env a with
        | none => exact sameFlow_none _
        | some t => exact (ihl body (by simp at hs; omega)).2.2 env buf t
      | CaseClause l b => simp only [execStmt]; exact sameFlow_none _
    · intro l hl
      cases l with
      | nil =>
        refine ⟨?_, ?_, ?_⟩
        · intro env buf; simp [execStmts, SameFlow, Outcome.flow]
        · intro env buf; simp [execSwitch, SameFlow, Outcome.flow]
        · intro env buf t; simp [execTypeSwitch, SameFlow, Outcome.flow]
      | cons s rest =>
        have hsz : sizeOf s < n ∧ sizeOf rest < n := by
          simp at hl
          omega
        have hrest := ihl rest hsz.2
        refine ⟨?_, ?_, ?_⟩
        · exact execStmts_cons_sameFlow lib w s rest (ihs s hsz.1) hrest.1
        · intro env buf
          cases s with
          | CaseClause conds body =>
            have hbody := (ihl body (by simp at hl; omega)).1
            cases conds with
            | nil =>
              simp only [execSwitch]
              cases someCaseHolds lib env rest with
              | none => exact sameFlow_none _
              | some b =>
                cases b with
                | true => exact hrest.2.1 env buf
                | false => exact hbody env buf
            | cons c cs =>
              simp only [execSwitch]
              cases condHolds lib env (c :: cs) with
              | none => exact sameFlow_none _
              | some b =>
                cases b with
                | true => exact hbody env buf
                | false => exact hrest.2.1 env buf
          | _ => simp only [execSwitch]; exact sameFlow_none _
        · intro env buf t
          cases s with
          | CaseClause conds body =>
            have hbody := (ihl body (by simp at hl; omega)).1
            cases conds with
            | nil =>
              simp only [execTypeSwitch]
              cases t with
              | none => exact hbody env buf
              | some typeName =>
                simp only []
                split
                · exact hrest.2.2 env buf _
                · exact hbody env buf
            | cons c cs =>
              simp only [execTypeSwitch]
              cases t with
              | none => exact hrest.2.2 env buf _
              | some typeName =>
                simp only []
                split
                · exact hbody env buf
                · exact hrest.2.2 env buf _
          | _ => simp only [execTypeSwitch]; exact sameFlow_none _

theorem execStmts_sameFlow (lib : GoLib) (w : World) (hw : w.Appends) (l : List Stmt) (env : Env)
    (buf : String) :
    SameFlow buf (execStmts lib w env l buf) (execStmts lib w env l "") :=
  ((execStmt_sameFlow_aux lib w hw (sizeOf l + 1)).2 l (Nat.lt_succ_self _)).1 env buf

theorem execStmt_sameFlow (lib : GoLib) (w : World) (hw : w.Appends) (s : Stmt) (env : Env)
    (buf : String) :
    SameFlow buf (execStmt lib w env s buf) (execStmt lib w env s "") :=
  (execStmt_sameFlow_aux lib w hw (sizeOf s + 1)).1 s (Nat.lt_succ_self _) env buf

theorem callMethod_appends (lib : GoLib) (prog : List Decl) (fuel : Nat) :
    (world lib prog fuel).Appends := by
  induction fuel with
  | zero => intro typeName f args buf; simp [world, callMethod]
  | succ n ih =>
    intro typeName f args buf
    simp only [world, callMethod]
    cases findFunc (some typeName) f prog with
    | none => rfl
    | some found =>
      obtain ⟨r, params, body⟩ := found
      simp only []
      cases startEnv (some typeName) r params args with
      | none => rfl
      | some env =>
        simp only []
        have h := execStmts_sameFlow lib (world lib prog n) ih body env buf
        simp only [world] at h
        simp only [SameFlow] at h
        cases h0 : execStmts lib { call := callMethod lib prog n, table := fun m => findTable m prog }
            env body "" with
        | none =>
          rw [h0] at h
          cases h1 : execStmts lib
              { call := callMethod lib prog n, table := fun m => findTable m prog } env body buf with
          | none => rfl
          | some o => rw [h1] at h; simp at h
        | some o0 =>
          rw [h0] at h
          cases h1 : execStmts lib
              { call := callMethod lib prog n, table := fun m => findTable m prog } env body buf with
          | none => rw [h1] at h; simp at h
          | some o1 =>
            rw [h1] at h
            simp only [Option.map_some', Option.some.injEq] at h ⊢
            have h2 := congrArg Prod.snd h
            cases o0 <;> cases o1 <;> simpa [Outcome.flow, Outcome.buf] using h2

/-! ## Accumulate mode -/

theorem indexWhere_some {α : Type} (p : α → Bool) (l : List α) (h : ∃ x ∈ l, p x = true) :
    ∃ i x, indexWhere p l = some i ∧ l.get? i = some x ∧ p x = true := by
  induction l with
  | nil => obtain ⟨x, hx, _⟩ := h; simp at hx
  | cons y ys ih =>
    by_cases hy : p y = true
    · exact ⟨0, y, by simp [indexWhere, hy], rfl, hy⟩
    · have h2 : ∃ x ∈ ys, p x = true := by
        obtain ⟨x, hx, hpx⟩ := h
        rcases List.mem_cons.1 hx with h1 | h1
        · subst h1; exact absurd hpx hy
        · exact ⟨x, h1, hpx⟩
      obtain ⟨i, x, hi, hget, hpx⟩ := ih h2
      exact ⟨i + 1, x, by simp [indexWhere, hy, hi], by simpa using hget, hpx⟩

theorem sliceIndex_ofNat {α : Type} (l : List α) (i : Nat) (x : α) (h : l.get? i = some x) :
    sliceIndex l (i : Int) = .ok x := by
  have h0 : ¬ ((i : Int) < 0) := by omega
  have h1 : l[i]? = some x := by simpa using h
  simp [sliceIndex, h0, h1]

theorem argument_resolves (args : List Argument) (name : String)
    (h : ∃ a ∈ args, a.Name = name) :
    ∃ arg, sliceIndex args (argumentIndex args name) = .ok arg := by
  have h2 : ∃ a ∈ args, (fun a : Argument => a.Name == name) a = true := by
    obtain ⟨a, ha, hn⟩ := h
    exact ⟨a, ha, by simp [hn]⟩
  obtain ⟨i, x, hi, hget, _⟩ := indexWhere_some _ args h2
  exact ⟨x, by simp only [argumentIndex, hi]; exact sliceIndex_ofNat args i x hget⟩

theorem variable_resolves (vars : List VariableScope) (name : String)
    (h : ∃ v ∈ vars, v.Name = name) :
    ∃ v, sliceIndex vars (variableScopeIndex vars name) = .ok v := by
  have h2 : ∃ v ∈ vars, (fun v : VariableScope => v.Name == name) v = true := by
    obtain ⟨v, hv, hn⟩ := h
    exact ⟨v, hv, by simp [hn]⟩
  obtain ⟨i, x, hi, hget, _⟩ := indexWhere_some _ vars h2
  exact ⟨x, by simp only [variableScopeIndex, hi]; exact sliceIndex_ofNat vars i x hget⟩

theorem evalArgs_idents (lib : GoLib) (env : Env) (names : List String) :
    evalArgs lib env (names.map Expr.Ident) = lookupAll env names := by
  induction names with
  | nil => rfl
  | cons n ns ih => simp only [List.map_cons, evalArgs, evalExpr, ih, lookupAll]

theorem AddImport_Lang (loc : Localization) (imp : GoImport) :
    (loc.AddImport imp).Lang = loc.Lang := by
  unfold Localization.AddImport
  split <;> rfl

theorem generateArgument_Lang (loc : Localization) (scope : MessageScope) (arg : Argument)
    (info : ArgInfo) (builderName : String) (list : List Stmt) :
    (generateArgument loc scope arg info builderName list).1.Lang = loc.Lang := by
  unfold generateArgument
  simp only []
  split
  · exact AddImport_Lang _ _
  · split
    · rfl
    · split
      · exact AddImport_Lang _ _
      · split
        · exact AddImport_Lang _ _
        · exact AddImport_Lang _ _

theorem generateArgument_append (loc : Localization) (scope : MessageScope) (arg : Argument)
    (info : ArgInfo) (builderName : String) (list : List Stmt) :
    (generateArgument loc scope arg info builderName list).2
      = list ++ (generateArgument loc scope arg info builderName []).2 := by
  simp [generateArgument]

theorem getLocalizerName_congr (a b : Localization) (h : a.Lang = b.Lang) :
    getLocalizerName a = getLocalizerName b := by
  simp [getLocalizerName, h]

theorem execCall_write (lib : GoLib) (w : World) (env : Env) (builderName buf : String)
    (args : List Expr) (hb : isBuilder (env.lookup builderName) = true) :
    execCall lib w env (.CallExpr (.SelectorExpr (.Ident builderName) "WriteString") args) buf
      = match evalArgs lib env args with
        | some [.str s] => some (.next env (buf ++ s))
        | _ => none := by
  cases h : env.lookup builderName with
  | none => simp [h, isBuilder] at hb
  | some v =>
    cases v <;> simp [h, isBuilder] at hb <;> simp only [execCall, h, isBuilder] <;>
      (cases evalArgs lib env args with
        | none => rfl
        | some vs =>
          cases vs with
          | nil => rfl
          | cons a rest => cases a <;> cases rest <;> simp)

theorem execCall_literal (lib : GoLib) (w : World) (env : Env) (builderName text buf : String)
    (hb : isBuilder (env.lookup builderName) = true) :
    execCall lib w env (.CallExpr (.SelectorExpr (.Ident builderName) "WriteString")
        [.BasicLit .STRING (strconvQuote text)]) buf
      = some (.next env (buf ++ text)) := by
  rw [execCall_write lib w env builderName buf _ hb]
  simp [evalArgs, evalExpr, strconvUnquote_strconvQuote]

theorem intLit_6 : intLit "6" = some 6 := by decide

theorem intLit_64 : intLit "64" = some 64 := by decide

theorem execCall_argument (lib : GoLib) (w : World) (env : Env) (loc : Localization)
    (scope : MessageScope) (arg : Argument) (info : ArgInfo) (builderName buf : String)
    (hb : isBuilder (env.lookup builderName) = true)
    (hs : env.lookup "strconv" = none) (hf : env.lookup "fmt" = none) :
    execStmts lib w env (generateArgument loc scope arg info builderName []).2 buf
      = match env.lookup arg.Name with
        | some v => (argumentText lib arg info v).map (fun t => Outcome.next env (buf ++ t))
        | none => none := by
  have hw := execCall_write lib w env builderName buf
  cases hv : env.lookup arg.Name with
  | none =>
    by_cases h0 : info.FmtInfo.IsZero = true
    · by_cases h1 : arg.GoType.Type_ = "string"
      · simp [generateArgument, h0, h1, execStmts, execStmt, hw _ hb, evalArgs,
          evalExpr, hv]
      · by_cases h2 : arg.GoType.Type_ = "int"
        · simp [generateArgument, generateArgumentItoa, h0, h2, execStmts, execStmt,
            hw _ hb, evalArgs, evalExpr, hv, hs]
        · by_cases h3 : arg.GoType.Type_ = "float64"
          · simp [generateArgument, generateArgumentFormatFloat, h0, h3, execStmts, execStmt,
              hw _ hb, evalArgs, evalExpr, hv, hs]
          · simp [generateArgument, generateArgumentSprint, h0, h1, h2, h3, execStmts, execStmt,
              hw _ hb, evalArgs, evalExpr, hv, hf]
    · simp [generateArgument, generateArgumentSprintf, h0, execStmts, execStmt,
        hw _ hb, evalArgs, evalExpr, hv, hf, strconvUnquote_strconvQuote]
  | some v =>
    by_cases h0 : info.FmtInfo.IsZero = true
    · by_cases h1 : arg.GoType.Type_ = "string"
      · cases v <;>
          simp [generateArgument, h0, h1, execStmts, execStmt, hw _ hb, evalArgs,
            evalExpr, hv, argumentText]
      · by_cases h2 : arg.GoType.Type_ = "int"
        · cases v <;>
            simp [generateArgument, generateArgumentItoa, h0, h2, execStmts, execStmt,
              hw _ hb, evalArgs, evalExpr, hv, hs, argumentText]
        · by_cases h3 : arg.GoType.Type_ = "float64"
          · cases v <;>
              simp [generateArgument, generateArgumentFormatFloat, h0, h1, h2, h3, execStmts,
                execStmt, hw _ hb, evalArgs, evalExpr, hv, hs, argumentText,
                intLit_6, intLit_64]
          · simp [generateArgument, generateArgumentSprint, h0, h1, h2, h3, execStmts, execStmt,
              hw _ hb, evalArgs, evalExpr, hv, hf, argumentText]
    · simp [generateArgument, generateArgumentSprintf, h0, execStmts, execStmt,
        hw _ hb, evalArgs, evalExpr, hv, hf, strconvUnquote_strconvQuote,
        argumentText]

theorem execCall_variable (lib : GoLib) (w : World) (env : Env) (loc : Localization)
    (scope : MessageScope) (varScope : VariableScope) (builderName typeName buf : String)
    (hb : env.lookup builderName = some .builder)
    (hr : env.lookup (getLocalizerName loc) = some (.impl typeName)) :
    execStmts lib w env (generateVariableCall loc scope varScope builderName []) buf
      = match lookupAll env varScope.ArgumentNames with
        | some vals =>
          (w.call typeName (getVariableFuncName scope varScope) (.builderPtr :: vals) buf).map
            (Outcome.next env)
        | none => none := by
  simp only [generateVariableCall, List.nil_append, foldl_append_singleton, execStmts, execStmt,
    execCall, hr, List.singleton_append, evalArgs, evalExpr, hb, evalArgs_idents]
  cases lookupAll env varScope.ArgumentNames with
  | none => rfl
  | some vals =>
    simp only []
    cases w.call typeName (getVariableFuncName scope varScope) (.builderPtr :: vals) buf with
    | none => rfl
    | some out => rfl

theorem execStmts_cons_single (lib : GoLib) (w : World) (env : Env) (op : Stmt)
    (rest : List Stmt) (buf : String) :
    execStmts lib w env (op :: rest) buf
      = match execStmts lib w env [op] buf with
        | some (.next env1 b1) => execStmts lib w env1 rest b1
        | r => r := by
  simp only [execStmts]
  cases execStmt lib w env op buf with
  | none => rfl
  | some o => cases o <;> rfl

/-- A call of the auxiliary function of a variable runs the body `generateVariableFunc`
emits, in a program that has it. -/
theorem call_auxiliary (lib : GoLib) (prog : List Decl) (fuel : Nat) (typeName : String)
    (loc : Localization) (scope : MessageScope) (varScope : VariableScope) (vals : List Value)
    (h : findFunc (some typeName) (getVariableFuncName scope varScope) prog
      = auxiliaryFunc loc scope varScope) :
    (world lib prog (fuel + 1)).call typeName (getVariableFuncName scope varScope)
        (.builderPtr :: vals) ""
      = variableText lib (world lib prog fuel) typeName loc scope varScope vals := by
  simp only [world, callMethod, h, variableText]
  cases auxiliaryFunc loc scope varScope with
  | none => rfl
  | some f =>
    obtain ⟨recv, params, body⟩ := f
    simp only []
    cases startEnv (some typeName) recv params (.builderPtr :: vals) with
    | none => rfl
    | some env => rfl

theorem generateFormatParts_run (lib : GoLib) (w w0 : World) (hw : w.Appends)
    (scope : MessageScope) (builderName : String) (env : Env) (typeName : String)
    (loc0 : Localization)
    (hb : isBuilder (env.lookup builderName) = true)
    (hr : env.lookup (getLocalizerName loc0) = some (.impl typeName))
    (hs : env.lookup "strconv" = none) (hf : env.lookup "fmt" = none) :
    ∀ (parts : FormatParts) (loc : Localization) (list : List Stmt),
      (∀ p ∈ parts, Resolves scope p) →
      loc.Lang = loc0.Lang →
      (env.lookup builderName = some .builder ∨ ∀ p ∈ parts, p.isVar = false) →
      (∀ info, Part.var info ∈ parts → ∀ varScope,
        sliceIndex scope.Variables (variableScopeIndex scope.Variables info.Name) = .ok varScope →
        ∀ vals, w.call typeName (getVariableFuncName scope varScope) (.builderPtr :: vals) ""
          = variableText lib w0 typeName loc0 scope varScope vals) →
      ∃ loc1 ops, generateFormatParts loc scope parts builderName list = .ok (loc1, list ++ ops)
        ∧ loc1.Lang = loc.Lang
        ∧ ops.length = parts.length
        ∧ (∀ i p, parts.get? i = some p → ∃ op locA locB, locA.Lang = loc.Lang
            ∧ ops.get? i = some op
            ∧ generateFormatParts locA scope [p] builderName [] = .ok (locB, [op]))
        ∧ ∀ buf, execStmts lib w env ops buf
            = (partsText lib w0 env typeName loc0 scope parts).map
                (fun ts => Outcome.next env (buf ++ String.join ts)) := by
  intro parts
  induction parts with
  | nil =>
    intro loc list _ _ _ _
    refine ⟨loc, [], by simp [generateFormatParts], rfl, rfl, ?_, ?_⟩
    · intro i p h; simp at h
    · intro buf; simp [execStmts, partsText, String.join]
  | cons p rest ih =>
    intro loc list hres hl hmode hcall
    have hrest : ∀ q ∈ rest, Resolves scope q := fun q hq => hres q (List.mem_cons_of_mem _ hq)
    have hp : Resolves scope p := hres p (List.mem_cons_self _ _)
    have hmode1 : env.lookup builderName = some .builder ∨ ∀ q ∈ rest, q.isVar = false :=
      hmode.imp id (fun h q hq => h q (List.mem_cons_of_mem _ hq))
    have hcall1 : ∀ info, Part.var info ∈ rest → ∀ varScope,
        sliceIndex scope.Variables (variableScopeIndex scope.Variables info.Name) = .ok varScope →
        ∀ vals, w.call typeName (getVariableFuncName scope varScope) (.builderPtr :: vals) ""
          = variableText lib w0 typeName loc0 scope varScope vals :=
      fun info hi => hcall info (List.mem_cons_of_mem _ hi)
    cases p with
    | str text =>
      obtain ⟨loc1, ops, hgen, hlang, hlen, hidx, hrun⟩ :=
        ih loc (generateString loc scope text builderName list) hrest hl hmode1 hcall1
      have happ : generateString loc scope text builderName list
          = list ++ [.ExprStmt (.CallExpr (.SelectorExpr (.Ident builderName) "WriteString")
              [.BasicLit .STRING (strconvQuote text)])] := rfl
      refine ⟨loc1, .ExprStmt (.CallExpr (.SelectorExpr (.Ident builderName) "WriteString")
              [.BasicLit .STRING (strconvQuote text)]) :: ops, ?_, hlang, ?_, ?_, ?_⟩
      · rw [happ] at hgen
        simp only [generateFormatParts, happ, hgen, List.append_assoc, List.singleton_append]
      · simp [hlen]
      · intro i q hq
        cases i with
        | zero =>
          simp only [List.get?_cons_zero, Option.some.injEq] at hq
          subst hq
          refine ⟨_, loc, loc, rfl, rfl, ?_⟩
          simp only [generateFormatParts, generateString, List.nil_append]
        | succ j =>
          obtain ⟨op2, locA, locB, h1, h2, h3⟩ := hidx j q (by simpa using hq)
          exact ⟨op2, locA, locB, h1, by simpa using h2, h3⟩
      · intro buf
        rw [execStmts_cons_single]
        simp only [execStmts, execStmt, execCall_literal lib w env builderName text buf hb, hrun,
          partsText, partText]
        cases partsText lib w0 env typeName loc0 scope rest with
        | none => rfl
        | some ts => simp [join_cons, String.append_assoc]
    | arg info =>
      obtain ⟨a, ha⟩ := argument_resolves scope.Arguments info.Name hp
      have hl1 : (generateArgument loc scope a info builderName list).1.Lang = loc0.Lang := by
        rw [generateArgument_Lang]; exact hl
      obtain ⟨loc1, ops, hgen, hlang, hlen, hidx, hrun⟩ :=
        ih (generateArgument loc scope a info builderName list).1
          (generateArgument loc scope a info builderName list).2 hrest hl1 hmode1 hcall1
      have hone : ∃ op, (generateArgument loc scope a info builderName []).2 = [op] := by
        exact ⟨_, by simp [generateArgument]; rfl⟩
      obtain ⟨op, hop⟩ := hone
      refine ⟨loc1, op :: ops, ?_, ?_, ?_, ?_, ?_⟩
      · simp only [generateFormatParts, ha, hgen]
        rw [generateArgument_append, hop]
        simp
      · rw [hlang]; exact generateArgument_Lang _ _ _ _ _ _
      · simp [hlen]
      · intro i q hq
        cases i with
        | zero =>
          simp only [List.get?_cons_zero, Option.some.injEq] at hq
          subst hq
          refine ⟨op, loc, (generateArgument loc scope a info builderName []).1, rfl, rfl, ?_⟩
          simp only [generateFormatParts, ha, hop]
        | succ j =>
          obtain ⟨op2, locA, locB, h1, h2, h3⟩ := hidx j q (by simpa using hq)
          exact ⟨op2, locA, locB, by rw [h1]; exact generateArgument_Lang _ _ _ _ _ _,
            by simpa using h2, h3⟩
      · intro buf
        rw [execStmts_cons_single, ← hop, execCall_argument lib w env loc scope a info builderName
          buf hb hs hf]
        simp only [partsText, partText, ha]
        cases env.lookup a.Name with
        | none => rfl
        | some v =>
          simp only []
          cases argumentText lib a info v with
          | none => rfl
          | some t =>
            simp only [Option.map_some', hrun]
            cases partsText lib w0 env typeName loc0 scope rest with
            | none => rfl
            | some ts => simp [join_cons, String.append_assoc]
    | var info =>
      have hbv : env.lookup builderName = some .builder := by
        rcases hmode with h | h
        · exact h
        · exact absurd (h (.var info) (List.mem_cons_self _ _)) (by simp [Part.isVar])
      have hrl : env.lookup (getLocalizerName loc) = some (.impl typeName) := by
        rw [getLocalizerName_congr loc loc0 hl]; exact hr
      obtain ⟨v, hv⟩ := variable_resolves scope.Variables info.Name hp
      obtain ⟨loc1, ops, hgen, hlang, hlen, hidx, hrun⟩ :=
        ih loc (generateVariableCall loc scope v builderName list) hrest hl hmode1 hcall1
      have hone : ∃ op, generateVariableCall loc scope v builderName [] = [op] :=
        ⟨_, by simp [generateVariableCall]; rfl⟩
      obtain ⟨op, hop⟩ := hone
      have happ : generateVariableCall loc scope v builderName list = list ++ [op] := by
        rw [← hop]; simp [generateVariableCall]
      refine ⟨loc1, op :: ops, ?_, hlang, ?_, ?_, ?_⟩
      · rw [happ] at hgen
        simp only [generateFormatParts, hv, happ, hgen, List.append_assoc, List.singleton_append]
      · simp [hlen]
      · intro i q hq
        cases i with
        | zero =>
          simp only [List.get?_cons_zero, Option.some.injEq] at hq
          subst hq
          refine ⟨op, loc, loc, rfl, rfl, ?_⟩
          simp only [generateFormatParts, hv, hop]
        | succ j =>
          obtain ⟨op2, locA, locB, h1, h2, h3⟩ := hidx j q (by simpa using hq)
          exact ⟨op2, locA, locB, h1, by simpa using h2, h3⟩
      · intro buf
        rw [execStmts_cons_single, ← hop, execCall_variable lib w env loc scope v builderName
          typeName buf hbv hrl]
        simp only [partsText, partText, hv]
        cases lookupAll env v.ArgumentNames with
        | none => rfl
        | some vals =>
          simp only []
          rw [hw, hcall info (List.mem_cons_self _ _) v hv vals]
          cases variableText lib w0 typeName loc0 scope v vals with
          | none => rfl
          | some out =>
            simp only [Option.map_some', hrun]
            cases partsText lib w0 env typeName loc0 scope rest with
            | none => rfl
            | some ts => simp [join_cons, String.append_assoc]

theorem generateFormatParts_ops (scope : MessageScope) (builderName : String) :
    ∀ (parts : FormatParts) (loc : Localization) (list : List Stmt),
      (∀ p ∈ parts, Resolves scope p) →
      ∃ loc1 ops, generateFormatParts loc scope parts builderName list = .ok (loc1, list ++ ops)
        ∧ loc1.Lang = loc.Lang
        ∧ ops.length = parts.length
        ∧ (∀ i p, parts.get? i = some p → ∃ op locA locB, locA.Lang = loc.Lang
            ∧ ops.get? i = some op
            ∧ generateFormatParts locA scope [p] builderName [] = .ok (locB, [op])) := by
  intro parts
  induction parts with
  | nil =>
    intro loc list _
    refine ⟨loc, [], by simp [generateFormatParts], rfl, rfl, ?_⟩
    intro i p h; simp at h
  | cons p rest ih =>
    intro loc list hres
    have hrest : ∀ q ∈ rest, Resolves scope q := fun q hq => hres q (List.mem_cons_of_mem _ hq)
    have hp : Resolves scope p := hres p (List.mem_cons_self _ _)
    cases p with
    | str text =>
      obtain ⟨loc1, ops, hgen, hlang, hlen, hidx⟩ :=
        ih loc (generateString loc scope text builderName list) hrest
      have happ : generateString loc scope text builderName list
          = list ++ [.ExprStmt (.CallExpr (.SelectorExpr (.Ident builderName) "WriteString")
              [.BasicLit .STRING (strconvQuote text)])] := rfl
      refine ⟨loc1, .ExprStmt (.CallExpr (.SelectorExpr (.Ident builderName) "WriteString")
              [.BasicLit .STRING (strconvQuote text)]) :: ops, ?_, hlang, ?_, ?_⟩
      · rw [happ] at hgen
        simp only [generateFormatParts, happ, hgen, List.append_assoc, List.singleton_append]
      · simp [hlen]
      · intro i q hq
        cases i with
        | zero =>
          simp only [List.get?_cons_zero, Option.some.injEq] at hq
          subst hq
          refine ⟨_, loc, loc, rfl, rfl, ?_⟩
          simp only [generateFormatParts, generateString, List.nil_append]
        | succ j =>
          obtain ⟨op2, locA, locB, h1, h2, h3⟩ := hidx j q (by simpa using hq)
          exact ⟨op2, locA, locB, h1, by simpa using h2, h3⟩
    | arg info =>
      obtain ⟨a, ha⟩ := argument_resolves scope.Arguments info.Name hp
      obtain ⟨loc1, ops, hgen, hlang, hlen, hidx⟩ :=
        ih (generateArgument loc scope a info builderName list).1
          (generateArgument loc scope a info builderName list).2 hrest
      have hone : ∃ op, (generateArgument loc scope a info builderName []).2 = [op] := by
        exact ⟨_, by simp [generateArgument]; rfl⟩
      obtain ⟨op, hop⟩ := hone
      refine ⟨loc1, op :: ops, ?_, ?_, ?_, ?_⟩
      · simp only [generateFormatParts, ha, hgen]
        rw [generateArgument_append, hop]
        simp
      · rw [hlang]; exact generateArgument_Lang _ _ _ _ _ _
      · simp [hlen]
      · intro i q hq
        cases i with
        | zero =>
          simp only [List.get?_cons_zero, Option.some.injEq] at hq
          subst hq
          refine ⟨op, loc, (generateArgument loc scope a info builderName []).1, rfl, rfl, ?_⟩
          simp only [generateFormatParts, ha, hop]
        | succ j =>
          obtain ⟨op2, locA, locB, h1, h2, h3⟩ := hidx j q (by simpa using hq)
          exact ⟨op2, locA, locB, by rw [h1]; exact generateArgument_Lang _ _ _ _ _ _,
            by simpa using h2, h3⟩
    | var info =>
      obtain ⟨v, hv⟩ := variable_resolves scope.Variables info.Name hp
      obtain ⟨loc1, ops, hgen, hlang, hlen, hidx⟩ :=
        ih loc (generateVariableCall loc scope v builderName list) hrest
      have hone : ∃ op, generateVariableCall loc scope v builderName [] = [op] :=
        ⟨_, by simp [generateVariableCall]; rfl⟩
      obtain ⟨op, hop⟩ := hone
      have happ : generateVariableCall loc scope v builderName list = list ++ [op] := by
        rw [← hop]; simp [generateVariableCall]
      refine ⟨loc1, op :: ops, ?_, hlang, ?_, ?_⟩
      · rw [happ] at hgen
        simp only [generateFormatParts, hv, happ, hgen, List.append_assoc, List.singleton_append]
      · simp [hlen]
      · intro i q hq
        cases i with
        | zero =>
          simp only [List.get?_cons_zero, Option.some.injEq] at hq
          subst hq
          refine ⟨op, loc, loc, rfl, rfl, ?_⟩
          simp only [generateFormatParts, hv, hop]
        | succ j =>
          obtain ⟨op2, locA, locB, h1, h2, h3⟩ := hidx j q (by simpa using hq)
          exact ⟨op2, locA, locB, h1, by simpa using h2, h3⟩

theorem namedScope_resolves (name goType : String) :
    ∀ p ∈ (namedScope name goType).String, Resolves (namedScope name goType) p := by
  intro p hp
  simp only [namedScope, List.mem_singleton] at hp
  subst hp
  exact ⟨⟨name, ⟨"", "", goType⟩⟩, List.mem_cons_self _ _, rfl⟩

/-- C1, as stated, fails: on templates whose references all resolve. The message `show`
has one argument and the template that is this argument. With the argument named
`strconv`, of type `int`, the template is lowered to the one statement
`builder.WriteString(strconv.Itoa(strconv))`, in which the parameter hides the package:
the statement has no run, while the text form of the value 5 is `"5"`. The message has
no result either when the argument is named `fmt` or `strings`, which hides a package
the body uses, or `builder` or `en_l`, which the buffer or the receiver declares again;
named `name`, it returns the text of its value. The variable `outer` refers to the
variable `inner`: in the auxiliary function of `outer` the buffer `b0` is already a
pointer, the call of `inner` is passed `&b0`, and the three statements have no run,
while the texts of the parts are `"<"`, `"x"` and `">"`. -/
theorem generateFormatParts_accumulates_counterexample :
    ((∀ p ∈ (namedScope "strconv" "int").String, Resolves (namedScope "strconv" "int") p)
      ∧ (∃ loc1, generateFormatParts (namedLoc "strconv" "int") (namedScope "strconv" "int")
            (namedScope "strconv" "int").String "builder" []
          = .ok (loc1, [.ExprStmt (.CallExpr (.SelectorExpr (.Ident "builder") "WriteString")
              [.CallExpr (.SelectorExpr (.Ident "strconv") "Itoa") [.Ident "strconv"]])]))
      ∧ partsText sampleLib
          (world sampleLib (generatedDecls sampleConfig [namedLoc "strconv" "int"]) 0)
          strconvEnv "en_Localizer" (namedLoc "strconv" "int") (namedScope "strconv" "int")
          (namedScope "strconv" "int").String = some ["5"]
      ∧ execStmts sampleLib
          (world sampleLib (generatedDecls sampleConfig [namedLoc "strconv" "int"]) 1)
          strconvEnv
          [.ExprStmt (.CallExpr (.SelectorExpr (.Ident "builder") "WriteString")
            [.CallExpr (.SelectorExpr (.Ident "strconv") "Itoa") [.Ident "strconv"]])] ""
          = none)
    ∧ (invoke sampleLib (generatedDecls sampleConfig [namedLoc "strconv" "int"]) 1
          (some "en_Localizer") "show" [.int 5] = none
      ∧ invoke sampleLib (generatedDecls sampleConfig [namedLoc "fmt" "error"]) 1
          (some "en_Localizer") "show" [.other "error" "EOF"] = none
      ∧ invoke sampleLib (generatedDecls sampleConfig [namedLoc "strings" "string"]) 1
          (some "en_Localizer") "show" [.str "Ada"] = none
      ∧ invoke sampleLib (generatedDecls sampleConfig [namedLoc "builder" "string"]) 1
          (some "en_Localizer") "show" [.str "Ada"] = none
      ∧ invoke sampleLib (generatedDecls sampleConfig [namedLoc "en_l" "string"]) 1
          (some "en_Localizer") "show" [.str "Ada"] = none
      ∧ invoke sampleLib (generatedDecls sampleConfig [namedLoc "name" "string"]) 1
          (some "en_Localizer") "show" [.str "Ada"] = some [.str "Ada"]
      ∧ invoke sampleLib (generatedDecls sampleConfig [namedLoc "n" "int"]) 1
          (some "en_Localizer") "show" [.int 5] = some [.str "5"])
    ∧ ((∀ p ∈ outerVariable.String, Resolves nestedScope p)
      ∧ (∃ loc1, generateFormatParts nestedLoc nestedScope outerVariable.String "b0" []
          = .ok (loc1,
            [.ExprStmt (.CallExpr (.SelectorExpr (.Ident "b0") "WriteString")
                [.BasicLit .STRING "\"<\""]),
             .ExprStmt (.CallExpr (.SelectorExpr (.Ident "en_l") "nested_inner")
                [.UnaryExpr .AND (.Ident "b0")]),
             .ExprStmt (.CallExpr (.SelectorExpr (.Ident "b0") "WriteString")
                [.BasicLit .STRING "\">\""])]))
      ∧ auxiliaryFunc nestedLoc nestedScope outerVariable
          = some ([Field.mk ["en_l"] (.Ident "en_Localizer")],
            [Field.mk ["b0"] (.StarExpr (.SelectorExpr (.Ident "strings") "Builder"))],
            [.ExprStmt (.CallExpr (.SelectorExpr (.Ident "b0") "WriteString")
                [.BasicLit .STRING "\"<\""]),
             .ExprStmt (.CallExpr (.SelectorExpr (.Ident "en_l") "nested_inner")
                [.UnaryExpr .AND (.Ident "b0")]),
             .ExprStmt (.CallExpr (.SelectorExpr (.Ident "b0") "WriteString")
                [.BasicLit .STRING "\">\""])])
      ∧ partsText sampleLib (world sampleLib (generatedDecls sampleConfig [nestedLoc]) 0)
          outerEnv "en_Localizer" nestedLoc nestedScope outerVariable.String
          = some ["<", "x", ">"]
      ∧ execStmts sampleLib (world sampleLib (generatedDecls sampleConfig [nestedLoc]) 1)
          outerEnv
          [.ExprStmt (.CallExpr (.SelectorExpr (.Ident "b0") "WriteString")
              [.BasicLit .STRING "\"<\""]),
           .ExprStmt (.CallExpr (.SelectorExpr (.Ident "en_l") "nested_inner")
              [.UnaryExpr .AND (.Ident "b0")]),
           .ExprStmt (.CallExpr (.SelectorExpr (.Ident "b0") "WriteString")
              [.BasicLit .STRING "\">\""])] "" = none
      ∧ invoke sampleLib (generatedDecls sampleConfig [nestedLoc]) 2 (some "en_Localizer")
          "nested" [] = none) := by
  refine ⟨⟨namedScope_resolves _ _, ⟨_, rfl⟩, rfl, rfl⟩, ⟨rfl, rfl, rfl, rfl, rfl, rfl, rfl⟩,
    ⟨?_, ⟨_, rfl⟩, rfl, rfl, rfl, rfl⟩⟩
  intro p hp
  simp only [outerVariable, List.mem_cons, List.mem_singleton, List.not_mem_nil,
    or_false] at hp
  rcases hp with rfl | rfl | rfl
  · trivial
  · exact ⟨innerVariable, by simp [nestedScope], rfl⟩
  · trivial

/-- C1, amended: for a template whose references all resolve in the scope,
accumulate-mode lowering succeeds and appends one statement per part, the statement at
a position being the one the part at that position is lowered to. The statements are
run on an empty buffer in a function body where the receiver is bound, every name is
declared once and no local name hides the packages `strings`, `strconv` and `fmt`; the
buffer is held by value (the body of a message function), or it is a pointer and the
template has no reference to a variable (the body of an auxiliary function); the
program declares nothing twice, and its method for each variable referred to is the
auxiliary function `generateVariableFunc` declares. The statements then leave in the
buffer the concatenation, in the order of the parts, of the literals, of the text forms
of the arguments and of the outputs of the auxiliary bodies of the variables. The
message `greeting` of `en`, called with `name = "Ada"`, returns `"Hello, Ada"`. -/
theorem generateFormatParts_accumulates (lib : GoLib) (loc : Localization)
    (scope : MessageScope) (parts : FormatParts) (builderName : String) (list : List Stmt)
    (hres : ∀ p ∈ parts, Resolves scope p) :
    (∃ loc1 ops, generateFormatParts loc scope parts builderName list = .ok (loc1, list ++ ops)
        ∧ ops.length = parts.length
        ∧ (∀ i p, parts.get? i = some p → ∃ op locA locB, locA.Lang = loc.Lang
            ∧ ops.get? i = some op
            ∧ generateFormatParts locA scope [p] builderName [] = .ok (locB, [op]))
        ∧ ∀ (prog : List Decl) (fuel : Nat) (env : Env) (typeName : String),
            (env.lookup builderName = some .builder
              ∨ (env.lookup builderName = some .builderPtr ∧ ∀ p ∈ parts, p.isVar = false)) →
            env.lookup (getLocalizerName loc) = some (.impl typeName) →
            env.lookup "strings" = none →
            env.lookup "strconv" = none →
            env.lookup "fmt" = none →
            (env.map Prod.fst).Nodup →
            duplicateFree prog = true →
            HasAuxiliaries prog typeName loc scope parts →
            execStmts lib (world lib prog (fuel + 1)) env ops ""
              = (partsText lib (world lib prog fuel) env typeName loc scope parts).map
                  (fun ts => Outcome.next env (String.join ts)))
      ∧ ∀ fuel, invoke lib (generatedDecls sampleConfig [enLoc]) fuel (some "en_Localizer")
          "greeting" [.str "Ada"] = some [.str "Hello, Ada"] := by
  constructor
  · have hgen : ∃ loc1 ops,
        generateFormatParts loc scope parts builderName list = .ok (loc1, list ++ ops)
          ∧ ops.length = parts.length
          ∧ (∀ i p, parts.get? i = some p → ∃ op locA locB, locA.Lang = loc.Lang
              ∧ ops.get? i = some op
              ∧ generateFormatParts locA scope [p] builderName [] = .ok (locB, [op])) := by
      obtain ⟨loc1, ops, hgen, _, hlen, hidx⟩ :=
        generateFormatParts_ops scope builderName parts loc list hres
      exact ⟨loc1, ops, hgen, hlen, hidx⟩
    obtain ⟨loc1, ops, hgen, hlen, hidx⟩ := hgen
    refine ⟨loc1, ops, hgen, hlen, hidx, ?_⟩
    intro prog fuel env typeName hb hr _ hs hf _ _ hprog
    have hbb : isBuilder (env.lookup builderName) = true := by
      rcases hb with h | ⟨h, _⟩ <;> simp [h, isBuilder]
    obtain ⟨loc2, ops2, hgen2, _, _, _, hrun⟩ :=
      generateFormatParts_run lib (world lib prog (fuel + 1)) (world lib prog fuel)
        (callMethod_appends lib prog (fuel + 1)) scope builderName env typeName loc hbb hr hs hf
        parts loc list hres rfl (hb.imp id (fun h => h.2))
        (fun info hi v hv vals =>
          call_auxiliary lib prog fuel typeName loc scope v vals (hprog info hi v hv))
    rw [hgen] at hgen2
    have hops : ops = ops2 := by
      have h := (Prod.mk.inj (Except.ok.inj hgen2)).2
      exact List.append_cancel_left h
    rw [hops, hrun ""]
    simp
  · intro fuel
    rfl

/-- The witness of `generateFormatParts_accumulates`: the template of `welcome`, which
refers to the variable `who`, run with `name = "Ada"` in the package generated for `en`;
and the template of `who`, run in its auxiliary function, where the buffer is a
pointer. -/
theorem generateFormatParts_accumulates_witness :
    (∀ p ∈ welcomeScope.String, Resolves welcomeScope p)
      ∧ welcomeEnv.lookup "builder" = some .builder
      ∧ welcomeEnv.lookup (getLocalizerName welcomeLoc) = some (.impl "en_Localizer")
      ∧ welcomeEnv.lookup "strings" = none
      ∧ welcomeEnv.lookup "strconv" = none
      ∧ welcomeEnv.lookup "fmt" = none
      ∧ (welcomeEnv.map Prod.fst).Nodup
      ∧ duplicateFree (generatedDecls sampleConfig [welcomeLoc]) = true
      ∧ HasAuxiliaries (generatedDecls sampleConfig [welcomeLoc]) "en_Localizer" welcomeLoc
          welcomeScope welcomeScope.String
      ∧ partsText sampleLib (world sampleLib (generatedDecls sampleConfig [welcomeLoc]) 0)
          welcomeEnv "en_Localizer" welcomeLoc welcomeScope welcomeScope.String
          = some ["Hello, ", "dear Ada", "!"]
      ∧ (∃ loc1 ops, generateFormatParts welcomeLoc welcomeScope welcomeScope.String "builder" []
            = .ok (loc1, [] ++ ops)
          ∧ ops.length = welcomeScope.String.length
          ∧ execStmts sampleLib (world sampleLib (generatedDecls sampleConfig [welcomeLoc]) 1)
              welcomeEnv ops "" = some (.next welcomeEnv "Hello, dear Ada!"))
      ∧ invoke sampleLib (generatedDecls sampleConfig [welcomeLoc]) 1 (some "en_Localizer")
          "welcome" [.str "Ada"] = some [.str "Hello, dear Ada!"]
      ∧ (∀ p ∈ whoVariable.String, Resolves welcomeScope p)
      ∧ (whoEnv.lookup "b0" = some .builderPtr ∧ ∀ p ∈ whoVariable.String, p.isVar = false)
      ∧ (whoEnv.map Prod.fst).Nodup
      ∧ (∃ loc1 ops, generateFormatParts welcomeLoc welcomeScope whoVariable.String "b0" []
            = .ok (loc1, [] ++ ops)
          ∧ ops.length = whoVariable.String.length
          ∧ execStmts sampleLib (world sampleLib (generatedDecls sampleConfig [welcomeLoc]) 1)
              whoEnv ops "" = some (.next whoEnv "dear Ada")) := by
  have hres : ∀ p ∈ welcomeScope.String, Resolves welcomeScope p := by
    intro p hp
    simp only [welcomeScope, List.mem_cons, List.mem_singleton, List.not_mem_nil,
      or_false] at hp
    rcases hp with rfl | rfl | rfl
    · trivial
    · exact ⟨whoVariable, by simp [welcomeScope], rfl⟩
    · trivial
  have haux : HasAuxiliaries (generatedDecls sampleConfig [welcomeLoc]) "en_Localizer"
      welcomeLoc welcomeScope welcomeScope.String := by
    intro info hi v hv
    have hinfo : info = ⟨"who"⟩ := by
      simpa [welcomeScope] using hi
    subst hinfo
    have h0 : sliceIndex welcomeScope.Variables
        (variableScopeIndex welcomeScope.Variables "who") = .ok whoVariable := rfl
    rw [h0] at hv
    cases hv
    rfl
  have hres2 : ∀ p ∈ whoVariable.String, Resolves welcomeScope p := by
    intro p hp
    simp only [whoVariable, List.mem_cons, List.mem_singleton, List.not_mem_nil,
      or_false] at hp
    rcases hp with rfl | rfl
    · trivial
    · exact ⟨⟨"name", ⟨"", "", "string"⟩⟩, by simp [welcomeScope], rfl⟩
  have hvar : ∀ p ∈ whoVariable.String, p.isVar = false := by
    intro p hp
    simp only [whoVariable, List.mem_cons, List.mem_singleton, List.not_mem_nil,
      or_false] at hp
    rcases hp with rfl | rfl <;> rfl
  have haux2 : HasAuxiliaries (generatedDecls sampleConfig [welcomeLoc]) "en_Localizer"
      welcomeLoc welcomeScope whoVariable.String := by
    intro info hi
    simp [whoVariable] at hi
  obtain ⟨loc1, ops, hgen, hlen, _, hrun⟩ :=
    (generateFormatParts_accumulates sampleLib welcomeLoc welcomeScope welcomeScope.String
      "builder" [] hres).1
  obtain ⟨loc2, ops2, hgen2, hlen2, _, hrun2⟩ :=
    (generateFormatParts_accumulates sampleLib welcomeLoc welcomeScope whoVariable.String
      "b0" [] hres2).1
  refine ⟨hres, rfl, rfl, rfl, rfl, rfl, by decide, rfl, haux, rfl,
    ⟨loc1, ops, hgen, hlen, ?_⟩, rfl, hres2, ⟨rfl, hvar⟩, by decide,
    ⟨loc2, ops2, hgen2, hlen2, ?_⟩⟩
  · rw [hrun (generatedDecls sampleConfig [welcomeLoc]) 0 welcomeEnv "en_Localizer"
      (Or.inl rfl) rfl rfl rfl rfl (by decide) rfl haux]
    rfl
  · rw [hrun2 (generatedDecls sampleConfig [welcomeLoc]) 0 whoEnv "en_Localizer"
      (Or.inr ⟨rfl, hvar⟩) rfl rfl rfl rfl (by decide) rfl haux2]
    rfl

/-! ## Plural dispatch -/

theorem generateFormatParts_Lang (scope : MessageScope) (builderName : String) :
    ∀ (parts : FormatParts) (loc loc1 : Localization) (list list1 : List Stmt),
      generateFormatParts loc scope parts builderName list = .ok (loc1, list1) →
      loc1.Lang = loc.Lang := by
  intro parts
  induction parts with
  | nil =>
    intro loc loc1 list list1 h
    simp only [generateFormatParts, Except.ok.injEq, Prod.mk.injEq] at h
    rw [← h.1]
  | cons p rest ih =>
    intro loc loc1 list list1 h
    cases p with
    | str text =>
      simp only [generateFormatParts] at h
      exact ih _ _ _ _ h
    | arg info =>
      simp only [generateFormatParts] at h
      cases ha : sliceIndex scope.Arguments (argumentIndex scope.Arguments info.Name) with
      | error e => rw [ha] at h; simp at h
      | ok a =>
        rw [ha] at h
        simp only [] at h
        rw [ih _ _ _ _ h]
        exact generateArgument_Lang _ _ _ _ _ _
    | var info =>
      simp only [generateFormatParts] at h
      cases hv : sliceIndex scope.Variables (variableScopeIndex scope.Variables info.Name) with
      | error e => rw [hv] at h; simp at h
      | ok v =>
        rw [hv] at h
        simp only [] at h
        exact ih _ _ _ _ h

theorem generatePluralLoop_clauses (scope : MessageScope) (plural : Plural)
    (builderName : String) :
    ∀ (gens : List (FormatParts × Token × String)) (loc loc1 : Localization)
      (clauses out : List Stmt),
      generatePluralLoop scope plural builderName gens loc clauses = .ok (loc1, out) →
      loc1.Lang = loc.Lang
        ∧ ∃ added, out = clauses ++ added
          ∧ ClausesFor scope plural builderName loc.Lang gens added := by
  intro gens
  induction gens with
  | nil =>
    intro loc loc1 clauses out h
    simp only [generatePluralLoop, Except.ok.injEq, Prod.mk.injEq] at h
    exact ⟨by rw [← h.1], [], by simp [h.2], rfl⟩
  | cons gen rest ih =>
    intro loc loc1 clauses out h
    by_cases hz : FormatParts.IsZero gen.1 = true
    · simp only [generatePluralLoop, hz, if_true] at h
      obtain ⟨h1, added, h2, h3⟩ := ih _ _ _ _ h
      exact ⟨h1, added, h2, by simp only [ClausesFor, hz, if_true]; exact h3⟩
    · simp only [generatePluralLoop, hz, Bool.false_eq_true, if_false, FormatParts.Generate] at h
      cases hg : generateFormatParts loc scope gen.1 builderName [] with
      | error e => rw [hg] at h; simp at h
      | ok r =>
        obtain ⟨locB, body⟩ := r
        rw [hg] at h
        simp only [] at h
        have hl := generateFormatParts_Lang scope builderName _ _ _ _ _ hg
        obtain ⟨h1, added, h2, h3⟩ := ih _ _ _ _ h
        refine ⟨by rw [h1, hl], .CaseClause (caseList plural gen.2.1 gen.2.2) body :: added,
          by simp [h2], ?_⟩
        simp only [ClausesFor, hz, Bool.false_eq_true, if_false]
        exact ⟨loc, locB, body, added, rfl, hg, rfl, by rw [← hl]; exact h3⟩

theorem intLit_0 : intLit "0" = some 0 := by decide

theorem intLit_1 : intLit "1" = some 1 := by decide

theorem condHolds_eq_zero (lib : GoLib) (env : Env) (arg : String) (n : Int)
    (hn : env.lookup arg = some (.int n)) :
    condHolds lib env [.BinaryExpr (.Ident arg) .EQL (.BasicLit .INT "0")]
      = some (decide (n = 0)) := by
  by_cases h : n = 0 <;> simp [condHolds, evalExpr, hn, intLit_0, h]

theorem condHolds_eq_one (lib : GoLib) (env : Env) (arg : String) (n : Int)
    (hn : env.lookup arg = some (.int n)) :
    condHolds lib env [.BinaryExpr (.Ident arg) .EQL (.BasicLit .INT "1")]
      = some (decide (n = 1)) := by
  by_cases h : n = 1 <;> simp [condHolds, evalExpr, hn, intLit_1, h]

theorem condHolds_gt_one (lib : GoLib) (env : Env) (arg : String) (n : Int)
    (hn : env.lookup arg = some (.int n)) :
    condHolds lib env [.BinaryExpr (.Ident arg) .GTR (.BasicLit .INT "1")]
      = some (decide (n > 1)) := by
  by_cases h : n > 1 <;> simp [condHolds, evalExpr, hn, intLit_1, h]

theorem execSwitch_cond (lib : GoLib) (w : World) (env : Env) (c : Expr) (body rest : List Stmt)
    (buf : String) (b : Bool) (h : condHolds lib env [c] = some b) :
    execSwitch lib w env (.CaseClause [c] body :: rest) buf
      = if b = true then execStmts lib w env body buf else execSwitch lib w env rest buf := by
  simp only [execSwitch, h]
  cases b <;> simp

theorem execSwitch_default_last (lib : GoLib) (w : World) (env : Env) (body : List Stmt)
    (buf : String) :
    execSwitch lib w env [.CaseClause [] body] buf = execStmts lib w env body buf := by
  simp [execSwitch, someCaseHolds]

theorem branch_runs (lib : GoLib) (w : World) (env : Env) (scope : MessageScope)
    (branch : FormatParts) (builderName lang : String) (sw : Stmt) (locA locB : Localization)
    (body : List Stmt)
    (hg : generateFormatParts locA scope branch builderName [] = .ok (locB, body))
    (hl : locA.Lang = lang)
    (he : ∀ buf, execStmt lib w env sw buf = execStmts lib w env body buf) :
    ∃ locA locB body, locA.Lang = lang
      ∧ generateFormatParts locA scope branch builderName [] = .ok (locB, body)
      ∧ ∀ buf, execStmt lib w env sw buf = execStmts lib w env body buf :=
  ⟨locA, locB, body, hl, hg, he⟩

theorem pluralClauses_dispatch (lib : GoLib) (w : World) (scope : MessageScope) (plural : Plural)
    (builderName lang : String) (env : Env) (n : Int) (clauses : List Stmt)
    (hc : ClausesFor scope plural builderName lang (pluralGenerators plural) clauses)
    (hn : env.lookup plural.Arg = some (.int n)) :
    match selectBranch plural n with
    | some branch => ∃ locA locB body, locA.Lang = lang
        ∧ generateFormatParts locA scope branch builderName [] = .ok (locB, body)
        ∧ ∀ buf, execStmt lib w env (.SwitchStmt clauses) buf = execStmts lib w env body buf
    | none => ∀ buf, execStmt lib w env (.SwitchStmt clauses) buf = some (.next env buf) := by
  have s0 : ∀ body rest buf, execSwitch lib w env
      (.CaseClause [.BinaryExpr (.Ident plural.Arg) .EQL (.BasicLit .INT "0")] body :: rest) buf
      = if decide (n = 0) = true then execStmts lib w env body buf
        else execSwitch lib w env rest buf :=
    fun body rest buf => execSwitch_cond lib w env _ body rest buf _
      (condHolds_eq_zero lib env plural.Arg n hn)
  have s1 : ∀ body rest buf, execSwitch lib w env
      (.CaseClause [.BinaryExpr (.Ident plural.Arg) .EQL (.BasicLit .INT "1")] body :: rest) buf
      = if decide (n = 1) = true then execStmts lib w env body buf
        else execSwitch lib w env rest buf :=
    fun body rest buf => execSwitch_cond lib w env _ body rest buf _
      (condHolds_eq_one lib env plural.Arg n hn)
  have s2 : ∀ body rest buf, execSwitch lib w env
      (.CaseClause [.BinaryExpr (.Ident plural.Arg) .GTR (.BasicLit .INT "1")] body :: rest) buf
      = if decide (n > 1) = true then execStmts lib w env body buf
        else execSwitch lib w env rest buf :=
    fun body rest buf => execSwitch_cond lib w env _ body rest buf _
      (condHolds_gt_one lib env plural.Arg n hn)
  have s3 : ∀ buf, execSwitch lib w env [] buf = some (.next env buf) := fun buf => rfl
  have c0 : caseList plural .EQL "0"
      = [.BinaryExpr (.Ident plural.Arg) .EQL (.BasicLit .INT "0")] := rfl
  have c1 : caseList plural .EQL "1"
      = [.BinaryExpr (.Ident plural.Arg) .EQL (.BasicLit .INT "1")] := rfl
  have c2 : caseList plural .GTR "1"
      = [.BinaryExpr (.Ident plural.Arg) .GTR (.BasicLit .INT "1")] := rfl
  have c3 : caseList plural .ILLEGAL "" = [] := rfl
  simp only [pluralGenerators, ClausesFor, c0, c1, c2, c3] at hc
  by_cases hz : FormatParts.IsZero plural.Zero = true <;>
  by_cases ho : FormatParts.IsZero plural.One = true <;>
  by_cases hm : FormatParts.IsZero plural.Many = true <;>
  by_cases hx : FormatParts.IsZero plural.Other = true <;>
  simp only [hz, ho, hm, hx, if_true, if_false, Bool.false_eq_true] at hc <;>
  (repeat (obtain ⟨_, _, _, _, _, _, rfl, hc⟩ := hc)) <;>
  by_cases h0 : n = 0 <;>
  by_cases h1 : n = 1 <;>
  by_cases h2 : n > 1 <;>
  (try omega) <;>
  first
    | (have hsel : selectBranch plural n = none := by
         simp [selectBranch, hz, ho, hm, hx, h0, h1, h2]
       simp only [hsel]
       intro buf
       simp [execStmt, s0, s1, s2, s3, execSwitch_default_last, h0, h1, h2])
    | (have hsel : selectBranch plural n = some plural.Zero := by
         simp [selectBranch, hz, ho, hm, hx, h0, h1, h2]
       simp only [hsel]
       refine branch_runs lib w env scope _ builderName lang _ _ _ _ (by assumption)
         (by assumption) ?_
       intro buf
       simp [execStmt, s0, s1, s2, s3, execSwitch_default_last, h0, h1, h2])
    | (have hsel : selectBranch plural n = some plural.One := by
         simp [selectBranch, hz, ho, hm, hx, h0, h1, h2]
       simp only [hsel]
       refine branch_runs lib w env scope _ builderName lang _ _ _ _ (by assumption)
         (by assumption) ?_
       intro buf
       simp [execStmt, s0, s1, s2, s3, execSwitch_default_last, h0, h1, h2])
    | (have hsel : selectBranch plural n = some plural.Many := by
         simp [selectBranch, hz, ho, hm, hx, h0, h1, h2]
       simp only [hsel]
       refine branch_runs lib w env scope _ builderName lang _ _ _ _ (by assumption)
         (by assumption) ?_
       intro buf
       simp [execStmt, s0, s1, s2, s3, execSwitch_default_last, h0, h1, h2])
    | (have hsel : selectBranch plural n = some plural.Other := by
         simp [selectBranch, hz, ho, hm, hx, h0, h1, h2]
       simp only [hsel]
       refine branch_runs lib w env scope _ builderName lang _ _ _ _ (by assumption)
         (by assumption) ?_
       intro buf
       simp [execStmt, s0, s1, s2, s3, execSwitch_default_last, h0, h1, h2])

/-- C2: the dispatch `generatePlural` appends is one switch statement, and running it
with the driving argument bound to the integer `n` is running the statements of
exactly one branch: `zero` when `n = 0` and it is present, `one` when `n = 1` and it is
present, `many` when `n > 1` and it is present, otherwise `other` when it is present;
when none applies it runs nothing. The message `items` of `en` with branches zero,
one and other returns "no items", "1 item", "2 items", "5 items" for 0, 1, 2, 5. -/
theorem generatePlural_dispatch (lib : GoLib) (prog : List Decl) (fuel : Nat)
    (loc : Localization) (scope : MessageScope) (plural : Plural) (builderName : String)
    (list : List Stmt) (env : Env) (n : Int) (loc1 : Localization) (list1 : List Stmt)
    (hgen : generatePlural loc scope plural builderName list = .ok (loc1, list1))
    (hn : env.lookup plural.Arg = some (.int n)) :
    (∃ clauses, list1 = list ++ [.SwitchStmt clauses]
        ∧ match selectBranch plural n with
          | some branch => ∃ locA locB body, locA.Lang = loc.Lang
              ∧ generateFormatParts locA scope branch builderName [] = .ok (locB, body)
              ∧ ∀ buf, execStmt lib (world lib prog fuel) env (.SwitchStmt clauses) buf
                  = execStmts lib (world lib prog fuel) env body buf
          | none => ∀ buf, execStmt lib (world lib prog fuel) env (.SwitchStmt clauses) buf
              = some (.next env buf))
      ∧ invoke lib (generatedDecls sampleConfig [enLoc]) fuel (some "en_Localizer") "items"
          [.int 0] = some [.str "no items"]
      ∧ invoke lib (generatedDecls sampleConfig [enLoc]) fuel (some "en_Localizer") "items"
          [.int 1] = some [.str "1 item"]
      ∧ invoke lib (generatedDecls sampleConfig [enLoc]) fuel (some "en_Localizer") "items"
          [.int 2] = some [.str "2 items"]
      ∧ invoke lib (generatedDecls sampleConfig [enLoc]) fuel (some "en_Localizer") "items"
          [.int 5] = some [.str "5 items"] := by
  refine ⟨?_, rfl, rfl, rfl, rfl⟩
  unfold generatePlural at hgen
  cases hloop : generatePluralLoop scope plural builderName (pluralGenerators plural) loc [] with
  | error e => rw [hloop] at hgen; simp at hgen
  | ok r =>
    obtain ⟨loc2, clauses⟩ := r
    rw [hloop] at hgen
    simp only [Except.ok.injEq, Prod.mk.injEq] at hgen
    obtain ⟨_, added, hadd, hfor⟩ := generatePluralLoop_clauses scope plural builderName _ _ _ _ _
      hloop
    simp only [List.nil_append] at hadd
    subst hadd
    exact ⟨clauses, hgen.2.symm,
      pluralClauses_dispatch lib (world lib prog fuel) scope plural builderName loc.Lang env n
        clauses hfor hn⟩

/-- The witness of `generatePlural_dispatch`: the plural of `items`, run with
`count = 2`, which selects the branch `other`. -/
theorem generatePlural_dispatch_witness :
    generatePlural enLoc itemsScope itemsScope.Plural "builder" []
        = .ok (itemsDispatch.1, itemsDispatch.2)
      ∧ itemsEnv.lookup itemsScope.Plural.Arg = some (.int 2)
      ∧ selectBranch itemsScope.Plural 2 = some itemsScope.Plural.Other
      ∧ ∃ clauses, itemsDispatch.2 = [] ++ [.SwitchStmt clauses]
        ∧ match selectBranch itemsScope.Plural 2 with
          | some branch => ∃ locA locB body, locA.Lang = enLoc.Lang
              ∧ generateFormatParts locA itemsScope branch "builder" [] = .ok (locB, body)
              ∧ ∀ buf, execStmt sampleLib (world sampleLib [] 0) itemsEnv (.SwitchStmt clauses) buf
                  = execStmts sampleLib (world sampleLib [] 0) itemsEnv body buf
          | none => ∀ buf, execStmt sampleLib (world sampleLib [] 0) itemsEnv
              (.SwitchStmt clauses) buf = some (.next itemsEnv buf) :=
  ⟨rfl, rfl, rfl,
    (generatePlural_dispatch sampleLib [] 0 enLoc itemsScope itemsScope.Plural "builder" []
      itemsEnv 2 itemsDispatch.1 itemsDispatch.2 rfl rfl).1⟩

/-- The general shape: the
function `generateMessage` declares for a message is the last declaration it appends,
and it has the name, the parameters and the result of the method of the contract. -/
theorem generateMessage_signature (loc loc1 : Localization) (scope : MessageScope)
    (decls decls1 : List Decl) (h : generateMessage loc scope decls = .ok (loc1, decls1)) :
    (contractMethod scope).names = [scope.Name]
      ∧ ∃ aux body, decls1 = aux ++ [.FuncDecl scope.Name
        [Field.mk [getLocalizerName loc] (.Ident (getLocalizerTypeName loc))]
        (contractMethod scope).type body] := by
  refine ⟨rfl, ?_⟩
  unfold generateMessage at h
  simp only [] at h
  cases h1 : generateFirst scope "builder" [.plural scope.Plural, .parts scope.String]
      (loc.AddImport ⟨"strings", "strings"⟩)
      [.DeclStmt .VAR [.ValueSpec ["builder"]
        (some (.SelectorExpr (.Ident "strings") "Builder")) []]] with
  | error e => rw [h1] at h; simp at h
  | ok r =>
    obtain ⟨loc2, body⟩ := r
    rw [h1] at h
    simp only [] at h
    cases h2 : generateVariableFuncs scope scope.Variables loc2 decls with
    | error e => rw [h2] at h; simp at h
    | ok r2 =>
      obtain ⟨loc3, decls2⟩ := r2
      rw [h2] at h
      simp only [Except.ok.injEq, Prod.mk.injEq] at h
      refine ⟨decls2, body ++
        [.ReturnStmt [.CallExpr (.SelectorExpr (.Ident "builder") "String") []]], ?_⟩
      rw [← h.2]
      simp [contractMethod, Field.names, Field.type, getMessageFuncName, foldl_append_singleton]

/-! ## One template per scope -/

theorem generatePlural_append (loc : Localization) (scope : MessageScope) (plural : Plural)
    (builderName : String) (list : List Stmt) :
    generatePlural loc scope plural builderName list
      = match generatePlural loc scope plural builderName [] with
        | .ok (loc1, stmts) => .ok (loc1, list ++ stmts)
        | .error e => .error e := by
  unfold generatePlural
  cases generatePluralLoop scope plural builderName (pluralGenerators plural) loc [] with
  | error e => rfl
  | ok r => obtain ⟨loc1, clauses⟩ := r; simp

/-- C11, as stated, fails: a message with both templates set is lowered without error in
both shapes; the function is emitted, with the operations of the plural template. -/
theorem bothTemplates_counterexample :
    bothScope.Plural.IsZero = false ∧ FormatParts.IsZero bothScope.String = false
      ∧ generateMessage enLoc bothScope []
        = .ok (Localization.mk "en" [greetingScope, itemsScope] [⟨"strings", "strings"⟩],
            [.FuncDecl "both" [Field.mk ["en_l"] (.Ident "en_Localizer")]
              (.FuncType [Field.mk ["count"] (.Ident "int")] [Field.mk [] (.Ident "string")])
              [.DeclStmt .VAR [.ValueSpec ["builder"]
                  (some (.SelectorExpr (.Ident "strings") "Builder")) []],
               .SwitchStmt [.CaseClause []
                 [.ExprStmt (.CallExpr (.SelectorExpr (.Ident "builder") "WriteString")
                   [.BasicLit .STRING "\"many\""])]],
               .ReturnStmt [.CallExpr (.SelectorExpr (.Ident "builder") "String") []]]])
      ∧ generateSimpleMessage enLoc bothScope []
        = [.FuncDecl "both" [Field.mk ["en_l"] (.Ident "en_Localizer")]
            (.FuncType [] [Field.mk [] (.Ident "string")])
            [.SwitchStmt [.CaseClause [] [.ReturnStmt [.BasicLit .STRING "\"many\""]]]]] := by
  refine ⟨rfl, rfl, rfl, rfl⟩

/-- C11, amended: when the plural template of a message is set, and so also when both
templates are, lowering does not abort on that account: both shapes lower the plural
template and leave the plain one out, whatever it holds. The
simple shape emits the function with the constant-mode dispatch as its body; the
general shape, when no index panics, emits it with the declaration of the buffer, the
accumulate-mode dispatch and the return of the buffer as its body. -/
theorem bothTemplates_plural_wins (loc : Localization) (scope : MessageScope)
    (decls : List Decl) (hp : scope.Plural.IsZero = false) :
    (∀ list, generateFirst scope "builder" [.plural scope.Plural, .parts scope.String] loc list
        = generatePlural loc scope scope.Plural "builder" list)
      ∧ generateSimpleMessage loc scope decls
        = decls ++ [.FuncDecl scope.Name
            [Field.mk [getLocalizerName loc] (.Ident (getLocalizerTypeName loc))]
            (.FuncType [] [Field.mk [] (.Ident "string")])
            (generateSimplePlural loc scope scope.Plural [])]
      ∧ ∀ loc1 decls1, generateMessage loc scope decls = .ok (loc1, decls1) →
          ∃ aux locB dispatch,
            generatePlural (loc.AddImport ⟨"strings", "strings"⟩) scope scope.Plural "builder" []
                = .ok (locB, dispatch)
              ∧ decls1 = aux ++ [.FuncDecl scope.Name
                  [Field.mk [getLocalizerName loc] (.Ident (getLocalizerTypeName loc))]
                  (contractMethod scope).type
                  ([.DeclStmt .VAR [.ValueSpec ["builder"]
                      (some (.SelectorExpr (.Ident "strings") "Builder")) []]]
                    ++ dispatch
                    ++ [.ReturnStmt [.CallExpr (.SelectorExpr (.Ident "builder") "String") []]])] := by
  have hfirst : ∀ (l : Localization) list,
      generateFirst scope "builder" [.plural scope.Plural, .parts scope.String] l list
        = generatePlural l scope scope.Plural "builder" list := by
    intro l list
    simp [generateFirst, Generator.IsZero, hp, Generator.Generate, Plural.Generate]
  refine ⟨hfirst loc, ?_, ?_⟩
  · simp [generateSimpleMessage, generateSimpleFirst, Generator.IsZero, hp,
      Generator.SimpleGenerate, Plural.SimpleGenerate, getMessageFuncName]
  · intro loc1 decls1 h
    unfold generateMessage at h
    simp only [hfirst] at h
    rw [generatePlural_append] at h
    cases hg : generatePlural (loc.AddImport ⟨"strings", "strings"⟩) scope scope.Plural
        "builder" [] with
    | error e => rw [hg] at h; simp at h
    | ok r =>
      obtain ⟨locB, dispatch⟩ := r
      rw [hg] at h
      simp only [] at h
      cases h2 : generateVariableFuncs scope scope.Variables locB decls with
      | error e => rw [h2] at h; simp at h
      | ok r2 =>
        obtain ⟨loc3, decls2⟩ := r2
        rw [h2] at h
        simp only [Except.ok.injEq, Prod.mk.injEq] at h
        refine ⟨decls2, locB, dispatch, rfl, ?_⟩
        rw [← h.2]
        simp [contractMethod, Field.type, getMessageFuncName, foldl_append_singleton]

/-- The witness of `bothTemplates_plural_wins`: the message `both`. -/
theorem bothTemplates_plural_wins_witness :
    bothScope.Plural.IsZero = false ∧ FormatParts.IsZero bothScope.String = false
      ∧ ∀ list, generateFirst bothScope "builder"
          [.plural bothScope.Plural, .parts bothScope.String] enLoc list
        = generatePlural enLoc bothScope bothScope.Plural "builder" list :=
  ⟨rfl, rfl, (bothTemplates_plural_wins enLoc bothScope [] rfl).1⟩

/-! ## Constant mode on any template -/

theorem simpleText_eq (parts : FormatParts) (b : String) :
    simpleText parts b = b ++ String.join (literalTexts parts) := by
  induction parts generalizing b with
  | nil => simp [simpleText, literalTexts, String.join]
  | cons p rest ih =>
    cases p with
    | str text => simp only [simpleText, literalTexts, ih, join_cons, String.append_assoc]
    | arg info => simp only [simpleText, literalTexts, ih]
    | var info => simp only [simpleText, literalTexts, ih]

/-- C13, as stated, fails: on the template `"Hello, " + name`, which has an argument
part, constant-mode lowering emits the return of the constant `"Hello, "`; the
argument is dropped. -/
theorem simpleGenerate_drops_argument_counterexample :
    (∃ info, Part.arg info ∈ greetingScope.String)
      ∧ FormatParts.SimpleGenerate greetingScope.String enLoc greetingScope []
        = [.ReturnStmt [.BasicLit .STRING "\"Hello, \""]] := by
  refine ⟨⟨⟨"name", noDirective⟩, by simp [greetingScope]⟩, rfl⟩

/-- C13, amended: constant-mode lowering has no check of its own. For every template it
appends one statement, the return of a string literal whose text is the concatenation
of the literal parts in their order; argument and variable parts are skipped. -/
theorem simpleGenerate_any (loc : Localization) (scope : MessageScope) (parts : FormatParts)
    (list : List Stmt) :
    FormatParts.SimpleGenerate parts loc scope list
        = list ++ [.ReturnStmt [.BasicLit .STRING (strconvQuote (String.join (literalTexts parts)))]]
      ∧ generateSimpleFormatParts loc scope parts list
        = list ++ [.ReturnStmt [.BasicLit .STRING (strconvQuote (String.join (literalTexts parts)))]]
      ∧ strconvUnquote (strconvQuote (String.join (literalTexts parts)))
        = some (String.join (literalTexts parts)) := by
  refine ⟨?_, ?_, strconvUnquote_strconvQuote _⟩
  · simp [FormatParts.SimpleGenerate, generateSimpleFormatParts, simpleText_eq]
  · simp [generateSimpleFormatParts, simpleText_eq]


/-! ## References that do not resolve -/

theorem indexWhere_none {α : Type} (p : α → Bool) (l : List α) (h : ∀ x ∈ l, p x = false) :
    indexWhere p l = none := by
  induction l with
  | nil => rfl
  | cons y ys ih =>
    have hy : p y = false := h y (List.mem_cons_self _ _)
    have hys : ∀ x ∈ ys, p x = false := fun x hx => h x (List.mem_cons_of_mem _ hx)
    simp [indexWhere, hy, ih hys]

theorem sliceIndex_neg {α : Type} (l : List α) :
    sliceIndex l (-1) = .error .indexOutOfRange := by
  simp [sliceIndex]

theorem argument_unresolved (args : List Argument) (name : String)
    (h : ¬ ∃ a ∈ args, a.Name = name) :
    sliceIndex args (argumentIndex args name) = .error .indexOutOfRange := by
  have h2 : ∀ a ∈ args, (fun a : Argument => a.Name == name) a = false := by
    intro a ha
    have hne : a.Name ≠ name := fun e => h ⟨a, ha, e⟩
    simpa using hne
  simp only [argumentIndex, indexWhere_none _ args h2]
  exact sliceIndex_neg args

theorem variable_unresolved (vars : List VariableScope) (name : String)
    (h : ¬ ∃ v ∈ vars, v.Name = name) :
    sliceIndex vars (variableScopeIndex vars name) = .error .indexOutOfRange := by
  have h2 : ∀ v ∈ vars, (fun v : VariableScope => v.Name == name) v = false := by
    intro v hv
    have hne : v.Name ≠ name := fun e => h ⟨v, hv, e⟩
    simpa using hne
  simp only [variableScopeIndex, indexWhere_none _ vars h2]
  exact sliceIndex_neg vars

theorem generateFormatParts_unresolved (scope : MessageScope) (builderName : String) :
    ∀ (parts : FormatParts) (loc : Localization) (list : List Stmt),
      (∃ p ∈ parts, ¬ Resolves scope p) →
      generateFormatParts loc scope parts builderName list = .error .indexOutOfRange := by
  intro parts
  induction parts with
  | nil => intro loc list h; obtain ⟨p, hp, _⟩ := h; simp at hp
  | cons q rest ih =>
    intro loc list h
    by_cases hq : Resolves scope q
    · have hrest : ∃ p ∈ rest, ¬ Resolves scope p := by
        obtain ⟨p, hp, hn⟩ := h
        rcases List.mem_cons.1 hp with h1 | h1
        · subst h1; exact absurd hq hn
        · exact ⟨p, h1, hn⟩
      cases q with
      | str text => simp only [generateFormatParts]; exact ih _ _ hrest
      | arg info =>
        obtain ⟨a, ha⟩ := argument_resolves scope.Arguments info.Name hq
        simp only [generateFormatParts, ha]
        exact ih _ _ hrest
      | var info =>
        obtain ⟨v, hv⟩ := variable_resolves scope.Variables info.Name hq
        simp only [generateFormatParts, hv]
        exact ih _ _ hrest
    · cases q with
      | str text => exact absurd trivial hq
      | arg info => simp only [generateFormatParts, argument_unresolved _ _ hq]
      | var info => simp only [generateFormatParts, variable_unresolved _ _ hq]

theorem generateFormatParts_resolved (scope : MessageScope) (builderName : String) :
    ∀ (parts : FormatParts) (loc : Localization) (list : List Stmt),
      (∀ p ∈ parts, Resolves scope p) →
      ∃ loc1 ops, generateFormatParts loc scope parts builderName list = .ok (loc1, list ++ ops)
        ∧ ops.length = parts.length := by
  intro parts
  induction parts with
  | nil => intro loc list _; exact ⟨loc, [], by simp [generateFormatParts], rfl⟩
  | cons q rest ih =>
    intro loc list h
    have hq : Resolves scope q := h q (List.mem_cons_self _ _)
    have hrest : ∀ p ∈ rest, Resolves scope p := fun p hp => h p (List.mem_cons_of_mem _ hp)
    cases q with
    | str text =>
      obtain ⟨loc1, ops, hgen, hlen⟩ := ih loc (generateString loc scope text builderName list) hrest
      refine ⟨loc1, generateString loc scope text builderName [] ++ ops, ?_, ?_⟩
      · simp only [generateFormatParts, hgen]
        simp [generateString]
      · simp [generateString, hlen]
    | arg info =>
      obtain ⟨a, ha⟩ := argument_resolves scope.Arguments info.Name hq
      obtain ⟨loc1, ops, hgen, hlen⟩ := ih (generateArgument loc scope a info builderName list).1
        (generateArgument loc scope a info builderName list).2 hrest
      refine ⟨loc1, (generateArgument loc scope a info builderName []).2 ++ ops, ?_, ?_⟩
      · simp only [generateFormatParts, ha, hgen]
        rw [generateArgument_append]
        simp
      · simp [generateArgument, hlen]
    | var info =>
      obtain ⟨v, hv⟩ := variable_resolves scope.Variables info.Name hq
      obtain ⟨loc1, ops, hgen, hlen⟩ := ih loc (generateVariableCall loc scope v builderName list)
        hrest
      refine ⟨loc1, generateVariableCall loc scope v builderName [] ++ ops, ?_, ?_⟩
      · simp only [generateFormatParts, hv, hgen]
        simp [generateVariableCall]
      · simp [generateVariableCall, hlen]

theorem variableParams_resolved (scope : MessageScope) :
    ∀ (names : List String) (params : List Field),
      (∀ n ∈ names, ∃ a ∈ scope.Arguments, a.Name = n) →
      ∃ fields, variableParams scope names params = .ok (params ++ fields)
        ∧ fields.length = names.length := by
  intro names
  induction names with
  | nil => intro params _; exact ⟨[], by simp [variableParams], rfl⟩
  | cons n rest ih =>
    intro params h
    obtain ⟨a, ha⟩ := argument_resolves scope.Arguments n (h n (List.mem_cons_self _ _))
    obtain ⟨fields, hf, hlen⟩ := ih (params ++ [Field.mk [n] (getPackageFieldType a)])
      (fun m hm => h m (List.mem_cons_of_mem _ hm))
    exact ⟨Field.mk [n] (getPackageFieldType a) :: fields,
      by simp only [variableParams, ha, hf]; simp, by simp [hlen]⟩

theorem variableParams_unresolved (scope : MessageScope) :
    ∀ (names : List String) (params : List Field),
      (∃ n ∈ names, ¬ ∃ a ∈ scope.Arguments, a.Name = n) →
      variableParams scope names params = .error .indexOutOfRange := by
  intro names
  induction names with
  | nil => intro params h; obtain ⟨n, hn, _⟩ := h; simp at hn
  | cons m rest ih =>
    intro params h
    by_cases hm : ∃ a ∈ scope.Arguments, a.Name = m
    · obtain ⟨a, ha⟩ := argument_resolves scope.Arguments m hm
      have hrest : ∃ n ∈ rest, ¬ ∃ a ∈ scope.Arguments, a.Name = n := by
        obtain ⟨n, hn, hnot⟩ := h
        rcases List.mem_cons.1 hn with h1 | h1
        · subst h1; exact absurd hm hnot
        · exact ⟨n, h1, hnot⟩
      simp only [variableParams, ha]
      exact ih _ hrest
    · simp only [variableParams, argument_unresolved _ _ hm]

/-- C12: a template with a reference to an argument or a variable the scope does not
declare makes accumulate-mode lowering abort: the index of the reference is out of
range and no statement is returned. When every reference resolves, the indexes into
`scope.Arguments` and `scope.Variables` are in range and lowering returns its
statements; the same holds for the names of a variable in `generateVariableFunc`. -/
theorem generateFormatParts_resolution (loc : Localization) (scope : MessageScope)
    (parts : FormatParts) (builderName : String) (list : List Stmt) (names : List String)
    (params : List Field) :
    ((∃ p ∈ parts, ¬ Resolves scope p) →
        generateFormatParts loc scope parts builderName list = .error .indexOutOfRange)
      ∧ ((∀ p ∈ parts, Resolves scope p) →
        ∃ loc1 ops, generateFormatParts loc scope parts builderName list = .ok (loc1, list ++ ops)
          ∧ ops.length = parts.length)
      ∧ ((∃ n ∈ names, ¬ ∃ a ∈ scope.Arguments, a.Name = n) →
        variableParams scope names params = .error .indexOutOfRange)
      ∧ ((∀ n ∈ names, ∃ a ∈ scope.Arguments, a.Name = n) →
        ∃ fields, variableParams scope names params = .ok (params ++ fields)
          ∧ fields.length = names.length) :=
  ⟨generateFormatParts_unresolved scope builderName parts loc list,
    generateFormatParts_resolved scope builderName parts loc list,
    variableParams_unresolved scope names params,
    variableParams_resolved scope names params⟩

/-- The witness of `generateFormatParts_resolution`: the template of `greeting` lowered
in the scope of `items`, which does not declare `name`. -/
theorem generateFormatParts_resolution_witness :
    (∃ p ∈ greetingScope.String, ¬ Resolves itemsScope p)
      ∧ generateFormatParts enLoc itemsScope greetingScope.String "builder" []
        = .error .indexOutOfRange :=
  have h : ∃ p ∈ greetingScope.String, ¬ Resolves itemsScope p :=
    ⟨.arg ⟨"name", noDirective⟩, by simp [greetingScope], by
      simp [Resolves, itemsScope]⟩
  ⟨h, (generateFormatParts_resolution enLoc itemsScope greetingScope.String "builder" [] []
    []).1 h⟩


/-! ## Auxiliary functions -/

/-- C14, on the code: for a variable with both templates set, `generateVariableFunc`
adds the parameters once per template, so the auxiliary function takes the buffer and
`count` twice, while the call `generateVariableCall` emits passes the buffer and
`count` once: three parameters, two arguments. -/
theorem generateVariableFunc_parameters_twice :
    ∃ loc1 recv params body args,
      generateVariableFunc enLoc totalScope bothVariable []
          = .ok (loc1, [.FuncDecl "total_n" recv (.FuncType params []) body])
        ∧ fieldNames params = ["b0", "count", "count"]
        ∧ generateVariableCall enLoc totalScope bothVariable "builder" []
          = [.ExprStmt (.CallExpr (.SelectorExpr (.Ident "en_l") "total_n") args)]
        ∧ args = [.UnaryExpr .AND (.Ident "builder"), .Ident "count"]
        ∧ bothVariable.ArgumentNames = ["count"] :=
  ⟨_, _, _, _, _, rfl, rfl, rfl, rfl, rfl⟩

theorem generateVariableFunc_appends (loc loc1 : Localization) (scope : MessageScope)
    (varScope : VariableScope) (decls decls1 : List Decl)
    (h : generateVariableFunc loc scope varScope decls = .ok (loc1, decls1)) :
    ∃ decl, decls1 = decls ++ [decl]
      ∧ declName decl = some (getVariableFuncName scope varScope) := by
  unfold generateVariableFunc at h
  simp only [] at h
  cases hl : generateVariableLoop scope varScope "b0"
      [.plural varScope.Plural, .parts varScope.String] loc
      [Field.mk ["b0"] (.StarExpr (.SelectorExpr (.Ident "strings") "Builder"))] [] with
  | error e => rw [hl] at h; simp at h
  | ok r =>
    obtain ⟨loc2, params, body⟩ := r
    rw [hl] at h
    simp only [Except.ok.injEq, Prod.mk.injEq] at h
    exact ⟨_, h.2.symm, rfl⟩

theorem generateVariableFuncs_appends (scope : MessageScope) :
    ∀ (vars : List VariableScope) (loc loc1 : Localization) (decls decls1 : List Decl),
      generateVariableFuncs scope vars loc decls = .ok (loc1, decls1) →
      ∃ added, decls1 = decls ++ added
        ∧ added.map declName = vars.map (fun v => some (getVariableFuncName scope v)) := by
  intro vars
  induction vars with
  | nil =>
    intro loc loc1 decls decls1 h
    simp only [generateVariableFuncs, Except.ok.injEq, Prod.mk.injEq] at h
    exact ⟨[], by simp [h.2], rfl⟩
  | cons v rest ih =>
    intro loc loc1 decls decls1 h
    simp only [generateVariableFuncs] at h
    cases hv : generateVariableFunc loc scope v decls with
    | error e => rw [hv] at h; simp at h
    | ok r =>
      obtain ⟨loc2, decls2⟩ := r
      rw [hv] at h
      simp only [] at h
      obtain ⟨decl, hd, hn⟩ := generateVariableFunc_appends _ _ _ _ _ _ hv
      obtain ⟨added, ha, hm⟩ := ih _ _ _ _ h
      exact ⟨decl :: added, by rw [ha, hd]; simp, by simp [hn, hm]⟩

/-- C15: in the general shape `generateMessage` appends one declaration per variable
scope of the message, the auxiliary function named by `getVariableFuncName`, in the
order of the variable scopes, and then the function of the message: one more
declaration than the message has variable scopes. A reference to a variable adds one
statement, a call of the auxiliary function, whatever the list it is added to. -/
theorem generateMessage_declarations (loc loc1 : Localization) (scope : MessageScope)
    (decls decls1 : List Decl) (h : generateMessage loc scope decls = .ok (loc1, decls1)) :
    (∃ added, decls1 = decls ++ added
        ∧ added.length = scope.Variables.length + 1
        ∧ added.map declName
          = scope.Variables.map (fun v => some (getVariableFuncName scope v))
            ++ [some (getMessageFuncName scope)])
      ∧ ∀ (l : Localization) (v : VariableScope) (builderName : String) (list : List Stmt),
          ∃ args, generateVariableCall l scope v builderName list
            = list ++ [.ExprStmt (.CallExpr
                (.SelectorExpr (.Ident (getLocalizerName l)) (getVariableFuncName scope v))
                args)] := by
  constructor
  · unfold generateMessage at h
    simp only [] at h
    cases h1 : generateFirst scope "builder" [.plural scope.Plural, .parts scope.String]
        (loc.AddImport ⟨"strings", "strings"⟩)
        [.DeclStmt .VAR [.ValueSpec ["builder"]
          (some (.SelectorExpr (.Ident "strings") "Builder")) []]] with
    | error e => rw [h1] at h; simp at h
    | ok r =>
      obtain ⟨loc2, body⟩ := r
      rw [h1] at h
      simp only [] at h
      cases h2 : generateVariableFuncs scope scope.Variables loc2 decls with
      | error e => rw [h2] at h; simp at h
      | ok r2 =>
        obtain ⟨loc3, decls2⟩ := r2
        rw [h2] at h
        simp only [Except.ok.injEq, Prod.mk.injEq] at h
        obtain ⟨added, ha, hm⟩ := generateVariableFuncs_appends scope _ _ _ _ _ h2
        have hlen : added.length = scope.Variables.length := by
          have := congrArg List.length hm
          simpa using this
        refine ⟨added ++ [.FuncDecl (getMessageFuncName scope)
            [Field.mk [getLocalizerName loc] (.Ident (getLocalizerTypeName loc))]
            (.FuncType
              (scope.Arguments.foldl (fun ps a =>
                ps ++ [Field.mk [a.Name] (getPackageFieldType a)]) [])
              [Field.mk [] (.Ident "string")])
            (body ++ [.ReturnStmt [.CallExpr (.SelectorExpr (.Ident "builder") "String") []]])],
          ?_, ?_, ?_⟩
        · rw [← h.2, ha]; simp
        · simp [hlen]
        · simp [hm, declName]
  · intro l v builderName list
    exact ⟨_, rfl⟩

/-- The witness of `generateMessage_declarations`: the message `total`, which has one
variable scope. -/
theorem generateMessage_declarations_witness :
    generateMessage enLoc totalScope [] = .ok (totalLowered.1, totalLowered.2)
      ∧ ∃ added, totalLowered.2 = [] ++ added
        ∧ added.length = totalScope.Variables.length + 1
        ∧ added.map declName
          = totalScope.Variables.map (fun v => some (getVariableFuncName totalScope v))
            ++ [some (getMessageFuncName totalScope)] :=
  ⟨rfl, (generateMessage_declarations enLoc totalLowered.1 totalScope []
    totalLowered.2 rfl).1⟩

/-- C18, on the code: the loop of `generateVariableFunc` has no `break`. For a variable
with both templates set it declares the parameter `count` once per template and puts
the operations of both templates in the body, the dispatch of the plural and then the
literal of the plain template. -/
theorem generateVariableFunc_lowers_both :
    bothVariable.Plural.IsZero = false ∧ FormatParts.IsZero bothVariable.String = false
      ∧ generateVariableFunc enLoc totalScope bothVariable []
        = .ok (Localization.mk "en" [greetingScope, itemsScope] [⟨"strconv", "strconv"⟩],
            [.FuncDecl "total_n" [Field.mk ["en_l"] (.Ident "en_Localizer")]
              (.FuncType
                [Field.mk ["b0"] (.StarExpr (.SelectorExpr (.Ident "strings") "Builder")),
                 Field.mk ["count"] (.Ident "int"), Field.mk ["count"] (.Ident "int")] [])
              [.SwitchStmt [.CaseClause []
                 [.ExprStmt (.CallExpr (.SelectorExpr (.Ident "b0") "WriteString")
                   [.CallExpr (.SelectorExpr (.Ident "strconv") "Itoa") [.Ident "count"]])]],
               .ExprStmt (.CallExpr (.SelectorExpr (.Ident "b0") "WriteString")
                 [.BasicLit .STRING "\"x\""])]]) := by
  refine ⟨rfl, rfl, rfl⟩

/-! ## The clauses of a dispatch -/

theorem clausesFor_conds (scope : MessageScope) (plural : Plural) (builderName lang : String)
    (clauses : List Stmt)
    (hc : ClausesFor scope plural builderName lang (pluralGenerators plural) clauses) :
    clauses.map clauseList = (presentConds plural).map some := by
  simp only [pluralGenerators, ClausesFor] at hc
  by_cases hz : FormatParts.IsZero plural.Zero = true <;>
  by_cases ho : FormatParts.IsZero plural.One = true <;>
  by_cases hm : FormatParts.IsZero plural.Many = true <;>
  by_cases hx : FormatParts.IsZero plural.Other = true <;>
  simp only [hz, ho, hm, hx, if_true, if_false, Bool.false_eq_true] at hc <;>
  (repeat (obtain ⟨_, _, _, _, _, _, rfl, hc⟩ := hc)) <;>
  simp [presentConds, clauseList, caseList, hz, ho, hm, hx]

theorem simplePlural_conds (loc : Localization) (scope : MessageScope) (plural : Plural) :
    (generateSimplePluralLoop loc scope plural (pluralGenerators plural) []).map clauseList
      = (presentConds plural).map some := by
  by_cases hz : FormatParts.IsZero plural.Zero = true <;>
  by_cases ho : FormatParts.IsZero plural.One = true <;>
  by_cases hm : FormatParts.IsZero plural.Many = true <;>
  by_cases hx : FormatParts.IsZero plural.Other = true <;>
  simp [generateSimplePluralLoop, pluralGenerators, presentConds, clauseList, caseList, hz, ho,
    hm, hx]

theorem presentConds_length (plural : Plural) :
    (presentConds plural).length = (presentBranches plural).length := by
  by_cases hz : FormatParts.IsZero plural.Zero = true <;>
  by_cases ho : FormatParts.IsZero plural.One = true <;>
  by_cases hm : FormatParts.IsZero plural.Many = true <;>
  by_cases hx : FormatParts.IsZero plural.Other = true <;>
  simp [presentConds, presentBranches, List.filter, hz, ho, hm, hx]

theorem presentConds_other_last (plural : Plural)
    (h : FormatParts.IsZero plural.Other = false) :
    (presentConds plural).getLast? = some [] := by
  simp [presentConds, h]

/-- C17: `generatePlural`, when no index panics, and `generateSimplePlural` append one
switch statement. Its clauses are those of the branches that are present, in the
order zero, one, many, other, with the lists `arg == 0`, `arg == 1`, `arg > 1` and,
for other, the empty list of the default clause; there are as many clauses as
branches present, and the clause of other, when present, is the last. -/
theorem generatePlural_clauses (loc : Localization) (scope : MessageScope) (plural : Plural)
    (builderName : String) (list : List Stmt) :
    (∀ loc1 list1, generatePlural loc scope plural builderName list = .ok (loc1, list1) →
        ∃ clauses, list1 = list ++ [.SwitchStmt clauses]
          ∧ clauses.map clauseList = (presentConds plural).map some
          ∧ clauses.length = (presentBranches plural).length)
      ∧ (∃ clauses, generateSimplePlural loc scope plural list = list ++ [.SwitchStmt clauses]
          ∧ clauses.map clauseList = (presentConds plural).map some
          ∧ clauses.length = (presentBranches plural).length)
      ∧ (FormatParts.IsZero plural.Other = false → (presentConds plural).getLast? = some [])
      ∧ (FormatParts.IsZero plural.Other = true → [] ∉ presentConds plural) := by
  have hlen : ∀ clauses : List Stmt,
      clauses.map clauseList = (presentConds plural).map some →
      clauses.length = (presentBranches plural).length := by
    intro clauses hm
    have := congrArg List.length hm
    simpa [presentConds_length] using this
  refine ⟨?_, ?_, presentConds_other_last plural, ?_⟩
  · intro loc1 list1 hgen
    unfold generatePlural at hgen
    cases hloop : generatePluralLoop scope plural builderName (pluralGenerators plural) loc []
      with
    | error e => rw [hloop] at hgen; simp at hgen
    | ok r =>
      obtain ⟨loc2, clauses⟩ := r
      rw [hloop] at hgen
      simp only [Except.ok.injEq, Prod.mk.injEq] at hgen
      obtain ⟨_, added, hadd, hfor⟩ :=
        generatePluralLoop_clauses scope plural builderName _ _ _ _ _ hloop
      simp only [List.nil_append] at hadd
      subst hadd
      have hm := clausesFor_conds scope plural builderName loc.Lang clauses hfor
      exact ⟨clauses, hgen.2.symm, hm, hlen clauses hm⟩
  · have hm := simplePlural_conds loc scope plural
    exact ⟨_, rfl, hm, hlen _ hm⟩
  · intro h
    by_cases hz : FormatParts.IsZero plural.Zero = true <;>
    by_cases ho : FormatParts.IsZero plural.One = true <;>
    by_cases hm : FormatParts.IsZero plural.Many = true <;>
    simp [presentConds, h, hz, ho, hm]

/-- The witness of `generatePlural_clauses`: the plural of `items`, with the branches
zero, one and other. -/
theorem generatePlural_clauses_witness :
    generatePlural enLoc itemsScope itemsScope.Plural "builder" []
        = .ok (itemsDispatch.1, itemsDispatch.2)
      ∧ ∃ clauses, itemsDispatch.2 = [] ++ [.SwitchStmt clauses]
        ∧ clauses.map clauseList = (presentConds itemsScope.Plural).map some
        ∧ clauses.length = (presentBranches itemsScope.Plural).length :=
  ⟨rfl, (generatePlural_clauses enLoc itemsScope itemsScope.Plural "builder" []).1
    itemsDispatch.1 itemsDispatch.2 rfl⟩

/-! ## The mode of a dispatch -/

theorem generateFormatParts_literals (loc : Localization) (scope : MessageScope)
    (builderName : String) (texts : List String) (list : List Stmt) :
    generateFormatParts loc scope (texts.map Part.str) builderName list
      = .ok (loc, list ++ texts.map (writeLiteral builderName)) := by
  induction texts generalizing list with
  | nil => simp [generateFormatParts]
  | cons text rest ih =>
    simp only [List.map_cons, generateFormatParts, ih]
    simp [generateString, writeLiteral]

theorem clausesFor_bodies (scope : MessageScope) (plural : Plural) (builderName lang : String) :
    ∀ (gens : List (FormatParts × Token × String)) (clauses : List Stmt),
      ClausesFor scope plural builderName lang gens clauses →
      ∀ c ∈ clauses, ∃ g ∈ gens, ∃ locA locB body,
        c = .CaseClause (caseList plural g.2.1 g.2.2) body
          ∧ generateFormatParts locA scope g.1 builderName [] = .ok (locB, body) := by
  intro gens
  induction gens with
  | nil =>
    intro clauses h c hc
    simp only [ClausesFor] at h
    subst h
    simp at hc
  | cons g rest ih =>
    intro clauses h c hc
    by_cases hz : FormatParts.IsZero g.1 = true
    · simp only [ClausesFor, hz, if_true] at h
      obtain ⟨g2, hg2, r⟩ := ih clauses h c hc
      exact ⟨g2, List.mem_cons_of_mem _ hg2, r⟩
    · simp only [ClausesFor, hz, Bool.false_eq_true, if_false] at h
      obtain ⟨locA, locB, body, tail, _, hgen, rfl, htail⟩ := h
      rcases List.mem_cons.1 hc with h1 | h1
      · exact ⟨g, List.mem_cons_self _ _, locA, locB, body, h1, hgen⟩
      · obtain ⟨g2, hg2, r⟩ := ih tail htail c h1
        exact ⟨g2, List.mem_cons_of_mem _ hg2, r⟩

theorem simplePluralLoop_bodies (loc : Localization) (scope : MessageScope) (plural : Plural) :
    ∀ (gens : List (FormatParts × Token × String)) (acc : List Stmt),
      ∀ c ∈ generateSimplePluralLoop loc scope plural gens acc,
        c ∈ acc ∨ ∃ g ∈ gens, c = .CaseClause (caseList plural g.2.1 g.2.2)
          [.ReturnStmt [.BasicLit .STRING (strconvQuote (String.join (literalTexts g.1)))]] := by
  intro gens
  induction gens with
  | nil => intro acc c hc; exact Or.inl (by simpa [generateSimplePluralLoop] using hc)
  | cons g rest ih =>
    intro acc c hc
    by_cases hz : FormatParts.IsZero g.1 = true
    · simp only [generateSimplePluralLoop, hz, if_true] at hc
      rcases ih acc c hc with h1 | ⟨g2, hg2, r⟩
      · exact Or.inl h1
      · exact Or.inr ⟨g2, List.mem_cons_of_mem _ hg2, r⟩
    · simp only [generateSimplePluralLoop, hz, Bool.false_eq_true, if_false] at hc
      rcases ih _ c hc with h1 | ⟨g2, hg2, r⟩
      · rcases List.mem_append.1 h1 with h2 | h2
        · exact Or.inl h2
        · refine Or.inr ⟨g, List.mem_cons_self _ _, ?_⟩
          simp only [List.mem_singleton] at h2
          rw [h2]
          simp [FormatParts.SimpleGenerate, generateSimpleFormatParts, simpleText_eq]
      · exact Or.inr ⟨g2, List.mem_cons_of_mem _ hg2, r⟩

/-- C19, as stated, fails: the plural of `items` has the literal-only branch zero and the
branch other with an argument; the dispatch `generatePlural` emits lowers zero in
accumulate mode, to an append to the buffer, not to the return of a constant. -/
theorem generatePlural_mode_counterexample :
    FormatParts.literalOnly itemsScope.Plural.Zero = true
      ∧ (∃ info, Part.arg info ∈ itemsScope.Plural.Other)
      ∧ generatePlural enLoc itemsScope itemsScope.Plural "builder" []
        = .ok (Localization.mk "en" [greetingScope, itemsScope] [⟨"strconv", "strconv"⟩],
            [.SwitchStmt
              [.CaseClause [.BinaryExpr (.Ident "count") .EQL (.BasicLit .INT "0")]
                 [.ExprStmt (.CallExpr (.SelectorExpr (.Ident "builder") "WriteString")
                   [.BasicLit .STRING "\"no items\""])],
               .CaseClause [.BinaryExpr (.Ident "count") .EQL (.BasicLit .INT "1")]
                 [.ExprStmt (.CallExpr (.SelectorExpr (.Ident "builder") "WriteString")
                   [.BasicLit .STRING "\"1 item\""])],
               .CaseClause []
                 [.ExprStmt (.CallExpr (.SelectorExpr (.Ident "builder") "WriteString")
                   [.CallExpr (.SelectorExpr (.Ident "strconv") "Itoa") [.Ident "count"]]),
                  .ExprStmt (.CallExpr (.SelectorExpr (.Ident "builder") "WriteString")
                   [.BasicLit .STRING "\" items\""])]]]) := by
  refine ⟨rfl, ⟨⟨"count", noDirective⟩, by simp [itemsScope]⟩, rfl⟩

/-- C19, amended: the mode is that of the dispatch, not of the branch. In the dispatch of
`generatePlural` the body of every clause is the accumulate-mode lowering of a branch
of the plural, and the accumulate-mode lowering of a literal-only branch is one append
to the buffer per literal; in the dispatch of `generateSimplePlural` the body of every
clause is the return of the constant made of the literals of a branch. -/
theorem generatePlural_mode (loc : Localization) (scope : MessageScope) (plural : Plural)
    (builderName : String) (list : List Stmt) :
    (∀ loc1 list1, generatePlural loc scope plural builderName list = .ok (loc1, list1) →
        ∃ clauses, list1 = list ++ [.SwitchStmt clauses]
          ∧ ∀ c ∈ clauses, ∃ g ∈ pluralGenerators plural, ∃ locA locB body,
              c = .CaseClause (caseList plural g.2.1 g.2.2) body
                ∧ generateFormatParts locA scope g.1 builderName [] = .ok (locB, body))
      ∧ (∀ (l : Localization) (texts : List String),
          generateFormatParts l scope (texts.map Part.str) builderName []
            = .ok (l, texts.map (writeLiteral builderName)))
      ∧ (∃ clauses, generateSimplePlural loc scope plural list = list ++ [.SwitchStmt clauses]
          ∧ ∀ c ∈ clauses, ∃ g ∈ pluralGenerators plural,
              c = .CaseClause (caseList plural g.2.1 g.2.2)
                [.ReturnStmt [.BasicLit .STRING
                  (strconvQuote (String.join (literalTexts g.1)))]]) := by
  refine ⟨?_, ?_, ?_⟩
  · intro loc1 list1 hgen
    unfold generatePlural at hgen
    cases hloop : generatePluralLoop scope plural builderName (pluralGenerators plural) loc []
      with
    | error e => rw [hloop] at hgen; simp at hgen
    | ok r =>
      obtain ⟨loc2, clauses⟩ := r
      rw [hloop] at hgen
      simp only [Except.ok.injEq, Prod.mk.injEq] at hgen
      obtain ⟨_, added, hadd, hfor⟩ :=
        generatePluralLoop_clauses scope plural builderName _ _ _ _ _ hloop
      simp only [List.nil_append] at hadd
      subst hadd
      exact ⟨clauses, hgen.2.symm,
        clausesFor_bodies scope plural builderName loc.Lang _ clauses hfor⟩
  · intro l texts
    simpa using generateFormatParts_literals l scope builderName texts []
  · refine ⟨_, rfl, ?_⟩
    intro c hc
    rcases simplePluralLoop_bodies loc scope plural _ [] c hc with h1 | h1
    · simp at h1
    · exact h1

/-- The witness of `generatePlural_mode`: the plural of `items`. -/
theorem generatePlural_mode_witness :
    generatePlural enLoc itemsScope itemsScope.Plural "builder" []
        = .ok (itemsDispatch.1, itemsDispatch.2)
      ∧ ∃ clauses, itemsDispatch.2 = [] ++ [.SwitchStmt clauses]
        ∧ ∀ c ∈ clauses, ∃ g ∈ pluralGenerators itemsScope.Plural, ∃ locA locB body,
            c = .CaseClause (caseList itemsScope.Plural g.2.1 g.2.2) body
              ∧ generateFormatParts locA itemsScope g.1 "builder" [] = .ok (locB, body) :=
  ⟨rfl, (generatePlural_mode enLoc itemsScope itemsScope.Plural "builder" []).1
    itemsDispatch.1 itemsDispatch.2 rfl⟩

/-! ## Names of the generated functions -/

theorem split_at_first {c : Char} :
    ∀ (l1 l2 r1 r2 : List Char), c ∉ l1 → c ∉ l2 → l1 ++ c :: r1 = l2 ++ c :: r2 →
      l1 = l2 ∧ r1 = r2 := by
  intro l1
  induction l1 with
  | nil =>
    intro l2 r1 r2 _ h2 h
    cases l2 with
    | nil => simpa using h
    | cons d l2 =>
      simp only [List.nil_append, List.cons_append, List.cons.injEq] at h
      exact absurd (by rw [h.1]; exact List.mem_cons_self _ _) h2
  | cons a l1 ih =>
    intro l2 r1 r2 h1 h2 h
    cases l2 with
    | nil =>
      simp only [List.nil_append, List.cons_append, List.cons.injEq] at h
      exact absurd (by rw [← h.1]; exact List.mem_cons_self _ _) h1
    | cons d l2 =>
      simp only [List.cons_append, List.cons.injEq] at h
      obtain ⟨e1, e2⟩ := ih l2 r1 r2 (fun hm => h1 (List.mem_cons_of_mem _ hm))
        (fun hm => h2 (List.mem_cons_of_mem _ hm)) h.2
      exact ⟨by rw [h.1, e1], e2⟩

theorem getVariableFuncName_data (s : MessageScope) (v : VariableScope) :
    (getVariableFuncName s v).data = s.Name.data ++ '_' :: v.Name.data := by
  simp [getVariableFuncName, String.data_append]

theorem getVariableFuncName_injective (s1 s2 : MessageScope) (v1 v2 : VariableScope)
    (h1 : '_' ∉ s1.Name.data) (h2 : '_' ∉ s2.Name.data)
    (h : getVariableFuncName s1 v1 = getVariableFuncName s2 v2) :
    s1.Name = s2.Name ∧ v1.Name = v2.Name := by
  have hd := congrArg String.data h
  rw [getVariableFuncName_data, getVariableFuncName_data] at hd
  obtain ⟨e1, e2⟩ := split_at_first _ _ _ _ h1 h2 hd
  exact ⟨String.ext e1, String.ext e2⟩

theorem getVariableFuncName_ne_message (s1 s2 : MessageScope) (v1 : VariableScope)
    (h2 : '_' ∉ s2.Name.data) : getVariableFuncName s1 v1 ≠ getMessageFuncName s2 := by
  intro h
  have hd := congrArg String.data h
  rw [getVariableFuncName_data] at hd
  apply h2
  simp only [getMessageFuncName] at hd
  rw [← hd]
  simp

/-- C20, as stated, fails: in a language with the messages `a` and `a_b`, whose names are
distinct, and distinct variable names within each, the variable `b_c` of `a` and the
variable `c` of `a_b` get the same function name, and the variable `b` of `a` gets the
name of the function of the message `a_b`. -/
theorem functionNames_collision_counterexample :
    (underscoreLoc.Scopes.map (fun s => s.Name)).Nodup
      ∧ (∀ s ∈ underscoreLoc.Scopes, (s.Variables.map (fun v => v.Name)).Nodup)
      ∧ functionNames underscoreLoc = ["a_b", "a_b_c", "a", "a_b_c", "a_b"]
      ∧ ¬ (functionNames underscoreLoc).Nodup := by
  refine ⟨by decide, ?_, rfl, ?_⟩
  · intro s hs
    simp only [underscoreLoc, List.mem_cons, List.mem_singleton, List.not_mem_nil,
      or_false] at hs
    rcases hs with rfl | rfl <;> decide
  · have h : functionNames underscoreLoc = ["a_b", "a_b_c", "a", "a_b_c", "a_b"] := rfl
    rw [h]
    decide

/-- C20, amended: when, in addition, no message name contains an underscore, the names
are pairwise distinct: two auxiliary functions with the same name belong to the same
message and the same variable, no auxiliary function has the name of the function of
a message, and the list of the names of all functions has no duplicate. -/
theorem functionNames_nodup (loc : Localization)
    (hm : (loc.Scopes.map (fun s => s.Name)).Nodup)
    (hv : ∀ s ∈ loc.Scopes, (s.Variables.map (fun v => v.Name)).Nodup)
    (hu : ∀ s ∈ loc.Scopes, '_' ∉ s.Name.data) :
    (∀ s1 ∈ loc.Scopes, ∀ v1 ∈ s1.Variables, ∀ s2 ∈ loc.Scopes, ∀ v2 ∈ s2.Variables,
        getVariableFuncName s1 v1 = getVariableFuncName s2 v2 →
        s1.Name = s2.Name ∧ v1.Name = v2.Name)
      ∧ (∀ s1 ∈ loc.Scopes, ∀ v1 ∈ s1.Variables, ∀ s2 ∈ loc.Scopes,
        getVariableFuncName s1 v1 ≠ getMessageFuncName s2)
      ∧ (functionNames loc).Nodup := by
  refine ⟨?_, ?_, ?_⟩
  · intro s1 hs1 v1 _ s2 hs2 v2 _ h
    exact getVariableFuncName_injective s1 s2 v1 v2 (hu s1 hs1) (hu s2 hs2) h
  · intro s1 _ v1 _ s2 hs2
    exact getVariableFuncName_ne_message s1 s2 v1 (hu s2 hs2)
  · have hmem : ∀ (s : MessageScope) (x : String),
        x ∈ s.Variables.map (getVariableFuncName s) ++ [getMessageFuncName s] →
        (∃ v ∈ s.Variables, x = getVariableFuncName s v) ∨ x = getMessageFuncName s := by
      intro s x hx
      rcases List.mem_append.1 hx with h1 | h1
      · obtain ⟨v, hv1, hv2⟩ := List.mem_map.1 h1
        exact Or.inl ⟨v, hv1, hv2.symm⟩
      · exact Or.inr (by simpa using h1)
    unfold functionNames
    rw [List.nodup_flatMap]
    constructor
    · intro s hs
      rw [List.nodup_append]
      refine ⟨?_, List.nodup_singleton _, ?_⟩
      · have hinj : Function.Injective (fun n : String => s.Name ++ "_" ++ n) := by
          intro n1 n2 h
          have hd := congrArg String.data h
          simp only [String.data_append] at hd
          exact String.ext (List.append_cancel_left hd)
        have hvs := (hv s hs).map hinj
        simpa [List.map_map, Function.comp, getVariableFuncName] using hvs
      · intro x hx1 hx2
        obtain ⟨v, _, hv2⟩ := List.mem_map.1 hx1
        have hx3 : x = getMessageFuncName s := by simpa using hx2
        exact getVariableFuncName_ne_message s s v (hu s hs) (hv2.trans hx3)
    · have hp : List.Pairwise (fun a b : MessageScope => a.Name ≠ b.Name) loc.Scopes := by
        have := hm
        rw [List.Nodup, List.pairwise_map] at this
        exact this
      refine hp.imp_of_mem ?_
      intro a b ha hb hne
      show List.Disjoint _ _
      intro x hxa hxb
      rcases hmem a x hxa with ⟨v, _, h1⟩ | h1 <;> rcases hmem b x hxb with ⟨w, _, h2⟩ | h2
      · exact hne (getVariableFuncName_injective a b v w (hu a ha) (hu b hb)
          (h1.symm.trans h2)).1
      · exact getVariableFuncName_ne_message a b v (hu b hb) (h1.symm.trans h2)
      · exact getVariableFuncName_ne_message b a w (hu a ha) (h2.symm.trans h1)
      · exact hne (by simpa [getMessageFuncName] using h1.symm.trans h2)

/-- The witness of `functionNames_nodup`: the language `en` with the message `total`
and its variable `n`. -/
theorem functionNames_nodup_witness :
    ((Localization.mk "en" [totalScope, greetingScope] []).Scopes.map (fun s => s.Name)).Nodup
      ∧ (∀ s ∈ (Localization.mk "en" [totalScope, greetingScope] []).Scopes,
          (s.Variables.map (fun v => v.Name)).Nodup)
      ∧ (∀ s ∈ (Localization.mk "en" [totalScope, greetingScope] []).Scopes,
          '_' ∉ s.Name.data)
      ∧ (functionNames (Localization.mk "en" [totalScope, greetingScope] [])).Nodup :=
  have hv : ∀ s ∈ (Localization.mk "en" [totalScope, greetingScope] []).Scopes,
      (s.Variables.map (fun v => v.Name)).Nodup := by
    intro s hs
    simp only [List.mem_cons, List.mem_singleton, List.not_mem_nil, or_false] at hs
    rcases hs with rfl | rfl <;> decide
  have hu : ∀ s ∈ (Localization.mk "en" [totalScope, greetingScope] []).Scopes,
      '_' ∉ s.Name.data := by
    intro s hs
    simp only [List.mem_cons, List.mem_singleton, List.not_mem_nil, or_false] at hs
    rcases hs with rfl | rfl <;> decide
  ⟨by decide, hv, hu,
    (functionNames_nodup (Localization.mk "en" [totalScope, greetingScope] []) (by decide) hv
      hu).2.2⟩

/-! ## The set of imports -/

theorem grows_refl (a : Localization) : Grows a a := fun _ h => h

theorem grows_trans {a b c : Localization} (h1 : Grows a b) (h2 : Grows b c) : Grows a c :=
  fun imp h => h2 imp (h1 imp h)

theorem AddImport_grows (loc : Localization) (imp : GoImport) : Grows loc (loc.AddImport imp) := by
  intro x hx
  unfold Localization.AddImport
  split
  · exact hx
  · exact List.mem_append_left _ hx

theorem AddImport_mem (loc : Localization) (imp : GoImport) :
    imp ∈ (loc.AddImport imp).Imports := by
  unfold Localization.AddImport
  split
  · assumption
  · simp

theorem AddImport_idempotent (loc : Localization) (imp : GoImport) :
    (loc.AddImport imp).AddImport imp = loc.AddImport imp := by
  have h := AddImport_mem loc imp
  generalize loc.AddImport imp = l at h ⊢
  simp [Localization.AddImport, h]

theorem registered_mono (scope : MessageScope) {a b : Localization} (parts : FormatParts)
    (hg : Grows a b) (h : Registered scope a parts) : Registered scope b parts :=
  fun info hi arg ha imp hr => hg imp (h info hi arg ha imp hr)

theorem registered_nil (scope : MessageScope) (loc : Localization) : Registered scope loc [] := by
  intro info hi
  simp at hi

theorem registered_append (scope : MessageScope) (loc : Localization) (p q : FormatParts)
    (hp : Registered scope loc p) (hq : Registered scope loc q) : Registered scope loc (p ++ q) := by
  intro info hi
  rcases List.mem_append.1 hi with h | h
  · exact hp info h
  · exact hq info h

theorem generateArgument_imports (loc : Localization) (scope : MessageScope) (arg : Argument)
    (info : ArgInfo) (builderName : String) (list : List Stmt) :
    Grows loc (generateArgument loc scope arg info builderName list).1
      ∧ (∀ imp, requiredImport arg info = some imp →
          imp ∈ (generateArgument loc scope arg info builderName list).1.Imports)
      ∧ (requiredImport arg info = none →
          (generateArgument loc scope arg info builderName list).1 = loc) := by
  by_cases h0 : info.FmtInfo.IsZero = true
  · by_cases h1 : arg.GoType.Type_ = "string"
    · simp [generateArgument, requiredImport, h0, h1, grows_refl]
    · by_cases h2 : arg.GoType.Type_ = "int"
      · simp [generateArgument, generateArgumentItoa, requiredImport, h0, h2, AddImport_grows,
          AddImport_mem]
      · by_cases h3 : arg.GoType.Type_ = "float64"
        · simp [generateArgument, generateArgumentFormatFloat, requiredImport, h0, h3,
            AddImport_grows, AddImport_mem]
        · simp [generateArgument, generateArgumentSprint, requiredImport, h0, h1, h2, h3,
            AddImport_grows, AddImport_mem]
  · simp [generateArgument, generateArgumentSprintf, requiredImport, h0, AddImport_grows,
      AddImport_mem]

theorem generateFormatParts_imports (scope : MessageScope) (builderName : String) :
    ∀ (parts : FormatParts) (loc loc1 : Localization) (list list1 : List Stmt),
      generateFormatParts loc scope parts builderName list = .ok (loc1, list1) →
      Grows loc loc1 ∧ Registered scope loc1 parts := by
  intro parts
  induction parts with
  | nil =>
    intro loc loc1 list list1 h
    simp only [generateFormatParts, Except.ok.injEq, Prod.mk.injEq] at h
    rw [← h.1]
    exact ⟨grows_refl _, registered_nil _ _⟩
  | cons p rest ih =>
    intro loc loc1 list list1 h
    cases p with
    | str text =>
      simp only [generateFormatParts] at h
      obtain ⟨hg, hr⟩ := ih _ _ _ _ h
      refine ⟨hg, ?_⟩
      intro info hi
      simp only [List.mem_cons, reduceCtorEq, false_or] at hi
      exact hr info hi
    | arg info0 =>
      simp only [generateFormatParts] at h
      cases ha : sliceIndex scope.Arguments (argumentIndex scope.Arguments info0.Name) with
      | error e => rw [ha] at h; simp at h
      | ok a =>
        rw [ha] at h
        simp only [] at h
        obtain ⟨hg, hr⟩ := ih _ _ _ _ h
        obtain ⟨g1, g2, _⟩ := generateArgument_imports loc scope a info0 builderName list
        refine ⟨grows_trans g1 hg, ?_⟩
        intro info hi arg harg imp himp
        rcases List.mem_cons.1 hi with h1 | h1
        · simp only [Part.arg.injEq] at h1
          subst h1
          rw [ha] at harg
          simp only [Except.ok.injEq] at harg
          subst harg
          exact hg imp (g2 imp himp)
        · exact hr info h1 arg harg imp himp
    | var info0 =>
      simp only [generateFormatParts] at h
      cases hv : sliceIndex scope.Variables (variableScopeIndex scope.Variables info0.Name) with
      | error e => rw [hv] at h; simp at h
      | ok v =>
        rw [hv] at h
        simp only [] at h
        obtain ⟨hg, hr⟩ := ih _ _ _ _ h
        refine ⟨hg, ?_⟩
        intro info hi
        simp only [List.mem_cons, reduceCtorEq, false_or] at hi
        exact hr info hi

theorem isZero_eq_nil (f : FormatParts) (h : FormatParts.IsZero f = true) : f = [] := by
  cases f with
  | nil => rfl
  | cons p rest => simp [FormatParts.IsZero] at h

theorem pluralParts_of_isZero (p : Plural) (h : p.IsZero = true) : pluralParts p = [] := by
  simp only [Plural.IsZero, Bool.and_eq_true] at h
  obtain ⟨⟨⟨h1, h2⟩, h3⟩, h4⟩ := h
  simp [pluralParts, isZero_eq_nil _ h1, isZero_eq_nil _ h2, isZero_eq_nil _ h3,
    isZero_eq_nil _ h4]

theorem generatorParts_of_isZero (g : Generator) (h : g.IsZero = true) :
    generatorParts g = [] := by
  cases g with
  | plural p => exact pluralParts_of_isZero p h
  | parts f => exact isZero_eq_nil f h

theorem generatePluralLoop_imports (scope : MessageScope) (plural : Plural)
    (builderName : String) :
    ∀ (gens : List (FormatParts × Token × String)) (loc loc1 : Localization)
      (clauses out : List Stmt),
      generatePluralLoop scope plural builderName gens loc clauses = .ok (loc1, out) →
      Grows loc loc1 ∧ ∀ g ∈ gens, Registered scope loc1 g.1 := by
  intro gens
  induction gens with
  | nil =>
    intro loc loc1 clauses out h
    simp only [generatePluralLoop, Except.ok.injEq, Prod.mk.injEq] at h
    rw [← h.1]
    exact ⟨grows_refl _, fun g hg => by simp at hg⟩
  | cons gen rest ih =>
    intro loc loc1 clauses out h
    by_cases hz : FormatParts.IsZero gen.1 = true
    · simp only [generatePluralLoop, hz, if_true] at h
      obtain ⟨hg, hr⟩ := ih _ _ _ _ h
      refine ⟨hg, ?_⟩
      intro g hmem
      rcases List.mem_cons.1 hmem with h1 | h1
      · rw [h1, isZero_eq_nil _ hz]; exact registered_nil _ _
      · exact hr g h1
    · simp only [generatePluralLoop, hz, Bool.false_eq_true, if_false, FormatParts.Generate] at h
      cases hgen : generateFormatParts loc scope gen.1 builderName [] with
      | error e => rw [hgen] at h; simp at h
      | ok r =>
        obtain ⟨locB, body⟩ := r
        rw [hgen] at h
        simp only [] at h
        obtain ⟨g1, r1⟩ := generateFormatParts_imports scope builderName _ _ _ _ _ hgen
        obtain ⟨hg, hr⟩ := ih _ _ _ _ h
        refine ⟨grows_trans g1 hg, ?_⟩
        intro g hmem
        rcases List.mem_cons.1 hmem with h1 | h1
        · rw [h1]; exact registered_mono scope _ hg r1
        · exact hr g h1

theorem generatePlural_imports (loc loc1 : Localization) (scope : MessageScope)
    (plural : Plural) (builderName : String) (list list1 : List Stmt)
    (h : generatePlural loc scope plural builderName list = .ok (loc1, list1)) :
    Grows loc loc1 ∧ Registered scope loc1 (pluralParts plural) := by
  unfold generatePlural at h
  cases hloop : generatePluralLoop scope plural builderName (pluralGenerators plural) loc [] with
  | error e => rw [hloop] at h; simp at h
  | ok r =>
    obtain ⟨loc2, clauses⟩ := r
    rw [hloop] at h
    simp only [Except.ok.injEq, Prod.mk.injEq] at h
    obtain ⟨hg, hr⟩ := generatePluralLoop_imports scope plural builderName _ _ _ _ _ hloop
    rw [← h.1]
    refine ⟨hg, ?_⟩
    have hz := hr (plural.Zero, .EQL, "0") (by simp [pluralGenerators])
    have ho := hr (plural.One, .EQL, "1") (by simp [pluralGenerators])
    have hm := hr (plural.Many, .GTR, "1") (by simp [pluralGenerators])
    have hx := hr (plural.Other, .ILLEGAL, "") (by simp [pluralGenerators])
    exact registered_append _ _ _ _
      (registered_append _ _ _ _ (registered_append _ _ _ _ hz ho) hm) hx

theorem generator_imports (g : Generator) (loc loc1 : Localization) (scope : MessageScope)
    (builderName : String) (list list1 : List Stmt)
    (h : g.Generate loc scope builderName list = .ok (loc1, list1)) :
    Grows loc loc1 ∧ Registered scope loc1 (generatorParts g) := by
  cases g with
  | plural p => exact generatePlural_imports _ _ _ _ _ _ _ h
  | parts f => exact generateFormatParts_imports scope builderName _ _ _ _ _ h

theorem generateFirst_imports (loc loc1 : Localization) (scope : MessageScope)
    (builderName : String) (list list1 : List Stmt)
    (h : generateFirst scope builderName [.plural scope.Plural, .parts scope.String] loc list
      = .ok (loc1, list1)) :
    Grows loc loc1 ∧ Registered scope loc1 (loweredParts scope) := by
  by_cases hp : scope.Plural.IsZero = true
  · by_cases hs : FormatParts.IsZero scope.String = true
    · simp only [generateFirst, Generator.IsZero, hp, hs, Bool.not_true, Bool.false_eq_true,
        if_false, Except.ok.injEq, Prod.mk.injEq] at h
      rw [← h.1]
      refine ⟨grows_refl _, ?_⟩
      simp only [loweredParts, hp, Bool.true_eq_false, if_false, isZero_eq_nil _ hs]
      exact registered_nil _ _
    · simp only [generateFirst, Generator.IsZero, hp, hs, Bool.not_true, Bool.false_eq_true,
        if_false, Bool.not_false, if_true] at h
      have := generator_imports (.parts scope.String) _ _ _ _ _ _ h
      simpa [loweredParts, hp, generatorParts] using this
  · simp only [generateFirst, Generator.IsZero, hp, Bool.not_false, if_true] at h
    have := generator_imports (.plural scope.Plural) _ _ _ _ _ _ h
    simpa [loweredParts, hp, generatorParts] using this

theorem generateVariableLoop_imports (scope : MessageScope) (varScope : VariableScope)
    (builderName : String) :
    ∀ (gens : List Generator) (loc loc1 : Localization) (params params1 : List Field)
      (body body1 : List Stmt),
      generateVariableLoop scope varScope builderName gens loc params body
        = .ok (loc1, params1, body1) →
      Grows loc loc1 ∧ ∀ g ∈ gens, Registered scope loc1 (generatorParts g) := by
  intro gens
  induction gens with
  | nil =>
    intro loc loc1 params params1 body body1 h
    simp only [generateVariableLoop, Except.ok.injEq, Prod.mk.injEq] at h
    rw [← h.1]
    exact ⟨grows_refl _, fun g hg => by simp at hg⟩
  | cons gen rest ih =>
    intro loc loc1 params params1 body body1 h
    by_cases hz : gen.IsZero = true
    · simp only [generateVariableLoop, hz, if_true] at h
      obtain ⟨hg, hr⟩ := ih _ _ _ _ _ _ h
      refine ⟨hg, ?_⟩
      intro g hmem
      rcases List.mem_cons.1 hmem with h1 | h1
      · rw [h1, generatorParts_of_isZero _ hz]; exact registered_nil _ _
      · exact hr g h1
    · simp only [generateVariableLoop, hz, Bool.false_eq_true, if_false] at h
      cases hp : variableParams scope varScope.ArgumentNames params with
      | error e => rw [hp] at h; simp at h
      | ok params2 =>
        rw [hp] at h
        simp only [] at h
        cases hgen : gen.Generate loc scope builderName body with
        | error e => rw [hgen] at h; simp at h
        | ok r =>
          obtain ⟨locB, body2⟩ := r
          rw [hgen] at h
          simp only [] at h
          obtain ⟨g1, r1⟩ := generator_imports gen _ _ _ _ _ _ hgen
          obtain ⟨hg, hr⟩ := ih _ _ _ _ _ _ h
          refine ⟨grows_trans g1 hg, ?_⟩
          intro g hmem
          rcases List.mem_cons.1 hmem with h1 | h1
          · rw [h1]; exact registered_mono scope _ hg r1
          · exact hr g h1

theorem generateVariableFunc_imports (loc loc1 : Localization) (scope : MessageScope)
    (varScope : VariableScope) (decls decls1 : List Decl)
    (h : generateVariableFunc loc scope varScope decls = .ok (loc1, decls1)) :
    Grows loc loc1 ∧ Registered scope loc1 (variableParts varScope) := by
  unfold generateVariableFunc at h
  simp only [] at h
  cases hl : generateVariableLoop scope varScope "b0"
      [.plural varScope.Plural, .parts varScope.String] loc
      [Field.mk ["b0"] (.StarExpr (.SelectorExpr (.Ident "strings") "Builder"))] [] with
  | error e => rw [hl] at h; simp at h
  | ok r =>
    obtain ⟨loc2, params, body⟩ := r
    rw [hl] at h
    simp only [Except.ok.injEq, Prod.mk.injEq] at h
    obtain ⟨hg, hr⟩ := generateVariableLoop_imports scope varScope "b0" _ _ _ _ _ _ _ hl
    rw [← h.1]
    refine ⟨hg, ?_⟩
    have h1 := hr (.plural varScope.Plural) (by simp)
    have h2 := hr (.parts varScope.String) (by simp)
    exact registered_append _ _ _ _ h1 h2

theorem generateVariableFuncs_imports (scope : MessageScope) :
    ∀ (vars : List VariableScope) (loc loc1 : Localization) (decls decls1 : List Decl),
      generateVariableFuncs scope vars loc decls = .ok (loc1, decls1) →
      Grows loc loc1 ∧ ∀ v ∈ vars, Registered scope loc1 (variableParts v) := by
  intro vars
  induction vars with
  | nil =>
    intro loc loc1 decls decls1 h
    simp only [generateVariableFuncs, Except.ok.injEq, Prod.mk.injEq] at h
    rw [← h.1]
    exact ⟨grows_refl _, fun v hv => by simp at hv⟩
  | cons v rest ih =>
    intro loc loc1 decls decls1 h
    simp only [generateVariableFuncs] at h
    cases hv : generateVariableFunc loc scope v decls with
    | error e => rw [hv] at h; simp at h
    | ok r =>
      obtain ⟨loc2, decls2⟩ := r
      rw [hv] at h
      simp only [] at h
      obtain ⟨g1, r1⟩ := generateVariableFunc_imports _ _ _ _ _ _ hv
      obtain ⟨hg, hr⟩ := ih _ _ _ _ h
      refine ⟨grows_trans g1 hg, ?_⟩
      intro w hmem
      rcases List.mem_cons.1 hmem with h1 | h1
      · rw [h1]; exact registered_mono scope _ hg r1
      · exact hr w h1

theorem generateMessage_imports (loc loc1 : Localization) (scope : MessageScope)
    (decls decls1 : List Decl) (h : generateMessage loc scope decls = .ok (loc1, decls1)) :
    (⟨"strings", "strings"⟩ : GoImport) ∈ loc1.Imports
      ∧ Grows loc loc1
      ∧ Registered scope loc1 (loweredParts scope)
      ∧ ∀ v ∈ scope.Variables, Registered scope loc1 (variableParts v) := by
  unfold generateMessage at h
  simp only [] at h
  cases h1 : generateFirst scope "builder" [.plural scope.Plural, .parts scope.String]
      (loc.AddImport ⟨"strings", "strings"⟩)
      [.DeclStmt .VAR [.ValueSpec ["builder"]
        (some (.SelectorExpr (.Ident "strings") "Builder")) []]] with
  | error e => rw [h1] at h; simp at h
  | ok r =>
    obtain ⟨loc2, body⟩ := r
    rw [h1] at h
    simp only [] at h
    cases h2 : generateVariableFuncs scope scope.Variables loc2 decls with
    | error e => rw [h2] at h; simp at h
    | ok r2 =>
      obtain ⟨loc3, decls2⟩ := r2
      rw [h2] at h
      simp only [Except.ok.injEq, Prod.mk.injEq] at h
      obtain ⟨ga, ra⟩ := generateFirst_imports _ _ _ _ _ _ h1
      obtain ⟨gb, rb⟩ := generateVariableFuncs_imports scope _ _ _ _ _ h2
      rw [← h.1]
      exact ⟨gb _ (ga _ (AddImport_mem _ _)),
        grows_trans (AddImport_grows _ _) (grows_trans ga gb),
        registered_mono scope _ gb ra, rb⟩

theorem generateScopes_imports :
    ∀ (scopes : List MessageScope) (loc loc1 : Localization) (decls decls1 : List Decl),
      generateScopes scopes loc decls = .ok (loc1, decls1) → Grows loc loc1 := by
  intro scopes
  induction scopes with
  | nil =>
    intro loc loc1 decls decls1 h
    simp only [generateScopes, Except.ok.injEq, Prod.mk.injEq] at h
    rw [← h.1]
    exact grows_refl _
  | cons scope rest ih =>
    intro loc loc1 decls decls1 h
    by_cases hs : scope.IsSimple = true
    · simp only [generateScopes, hs, if_true] at h
      exact ih _ _ _ _ h
    · simp only [generateScopes, hs, Bool.false_eq_true, if_false] at h
      cases hm : generateMessage loc scope decls with
      | error e => rw [hm] at h; simp at h
      | ok r =>
        obtain ⟨loc2, decls2⟩ := r
        rw [hm] at h
        simp only [] at h
        exact grows_trans (generateMessage_imports _ _ _ _ _ hm).2.1 (ih _ _ _ _ h)

/-- C16: after `generateMessage` has lowered a message, the imports of the localization
hold `strings`, every import they held before, and, for every argument reference
lowered for the body of the message or for one of its variables, the import its
formatting needs: `fmt` with a directive or for the generic fallback, `strconv` for
an `int` or a `float64` without directive. A `string` argument without directive, a
literal part and a message in the simple shape add nothing, and lowering the messages
of a localization never removes an import. -/
theorem imports_after_lowering (loc loc1 : Localization) (scope : MessageScope)
    (decls decls1 : List Decl) (h : generateMessage loc scope decls = .ok (loc1, decls1)) :
    (⟨"strings", "strings"⟩ : GoImport) ∈ loc1.Imports
      ∧ Grows loc loc1
      ∧ Registered scope loc1 (loweredParts scope)
      ∧ (∀ v ∈ scope.Variables, Registered scope loc1 (variableParts v))
      ∧ (∀ (arg : Argument) (info : ArgInfo),
          (info.FmtInfo.IsZero = false → requiredImport arg info = some ⟨"fmt", "fmt"⟩)
          ∧ (info.FmtInfo.IsZero = true → arg.GoType.Type_ = "string" →
              requiredImport arg info = none)
          ∧ (info.FmtInfo.IsZero = true →
              arg.GoType.Type_ = "int" ∨ arg.GoType.Type_ = "float64" →
              requiredImport arg info = some ⟨"strconv", "strconv"⟩)
          ∧ (info.FmtInfo.IsZero = true → arg.GoType.Type_ ≠ "string" →
              arg.GoType.Type_ ≠ "int" → arg.GoType.Type_ ≠ "float64" →
              requiredImport arg info = some ⟨"fmt", "fmt"⟩))
      ∧ (∀ (l : Localization) (arg : Argument) (info : ArgInfo) (builderName : String)
          (list : List Stmt), requiredImport arg info = none →
          (generateArgument l scope arg info builderName list).1 = l)
      ∧ (∀ (l : Localization) (texts : List String) (builderName : String) (list : List Stmt),
          generateFormatParts l scope (texts.map Part.str) builderName list
            = .ok (l, list ++ texts.map (writeLiteral builderName)))
      ∧ (∀ (l : Localization) (rest : List MessageScope) (ds : List Decl),
          scope.IsSimple = true →
          generateScopes (scope :: rest) l ds
            = generateScopes rest l (generateSimpleMessage l scope ds))
      ∧ (∀ (scopes : List MessageScope) (l l1 : Localization) (ds ds1 : List Decl),
          generateScopes scopes l ds = .ok (l1, ds1) → Grows l l1)
      ∧ ∀ (l : Localization) (imp : GoImport),
          Grows l (l.AddImport imp) ∧ (l.AddImport imp).AddImport imp = l.AddImport imp := by
  obtain ⟨h1, h2, h3, h4⟩ := generateMessage_imports loc loc1 scope decls decls1 h
  refine ⟨h1, h2, h3, h4, ?_, ?_, ?_, ?_, generateScopes_imports, ?_⟩
  · intro arg info
    refine ⟨?_, ?_, ?_, ?_⟩
    · intro h0; simp [requiredImport, h0]
    · intro h0 ht; simp [requiredImport, h0, ht]
    · intro h0 ht
      rcases ht with ht | ht <;> simp [requiredImport, h0, ht]
    · intro h0 t1 t2 t3; simp [requiredImport, h0, t1, t2, t3]
  · intro l arg info builderName list hn
    exact (generateArgument_imports l scope arg info builderName list).2.2 hn
  · intro l texts builderName list
    exact generateFormatParts_literals l scope builderName texts list
  · intro l rest ds hs
    simp [generateScopes, hs]
  · intro l imp
    exact ⟨AddImport_grows l imp, AddImport_idempotent l imp⟩

/-- The witness of `imports_after_lowering`: the message `items`, whose branch other
formats the `int` argument `count`. -/
theorem imports_after_lowering_witness :
    generateMessage enLoc itemsScope [] = .ok (itemsLowered.1, itemsLowered.2)
      ∧ itemsLowered.1.Imports = [⟨"strings", "strings"⟩, ⟨"strconv", "strconv"⟩]
      ∧ (⟨"strings", "strings"⟩ : GoImport) ∈ itemsLowered.1.Imports
      ∧ Registered itemsScope itemsLowered.1 (loweredParts itemsScope) :=
  ⟨rfl, rfl,
    (imports_after_lowering enLoc itemsLowered.1 itemsScope [] itemsLowered.2 rfl).1,
    (imports_after_lowering enLoc itemsLowered.1 itemsScope [] itemsLowered.2 rfl).2.2.1⟩


/-! ## The auxiliary functions in the program of a message -/

theorem generateArgument_code (locA locB : Localization) (scope : MessageScope) (arg : Argument)
    (info : ArgInfo) (builderName : String) (list : List Stmt) :
    (generateArgument locA scope arg info builderName list).2
      = (generateArgument locB scope arg info builderName list).2 := by
  simp only [generateArgument, generateArgumentSprintf, generateArgumentItoa,
    generateArgumentFormatFloat, generateArgumentSprint]
  split_ifs <;> rfl

/-- The statements a template is lowered to depend on the localization through its
language only. -/
theorem generateFormatParts_congr (scope : MessageScope) (builderName : String) :
    ∀ (parts : FormatParts) (locA locB : Localization) (list : List Stmt),
      locA.Lang = locB.Lang →
      (generateFormatParts locA scope parts builderName list).map Prod.snd
        = (generateFormatParts locB scope parts builderName list).map Prod.snd := by
  intro parts
  induction parts with
  | nil => intro locA locB list _; rfl
  | cons p rest ih =>
    intro locA locB list h
    cases p with
    | str text =>
      simp only [generateFormatParts, generateString]
      exact ih _ _ _ h
    | arg info =>
      simp only [generateFormatParts]
      cases sliceIndex scope.Arguments (argumentIndex scope.Arguments info.Name) with
      | error e => rfl
      | ok a =>
        simp only []
        rw [generateArgument_code locA locB]
        exact ih _ _ _ (by rw [generateArgument_Lang, generateArgument_Lang]; exact h)
    | var info =>
      simp only [generateFormatParts]
      cases sliceIndex scope.Variables (variableScopeIndex scope.Variables info.Name) with
      | error e => rfl
      | ok v =>
        simp only [generateVariableCall, getLocalizerName_congr locA locB h]
        exact ih _ _ _ h

theorem map_snd_cases {α : Type} (rA rB : Except GoPanic (Localization × α))
    (h : rA.map Prod.snd = rB.map Prod.snd) :
    (∃ e, rA = .error e ∧ rB = .error e)
      ∨ ∃ lA lB a, rA = .ok (lA, a) ∧ rB = .ok (lB, a) := by
  cases rA with
  | error eA =>
    cases rB with
    | error eB =>
      cases eA
      cases eB
      exact Or.inl ⟨_, rfl, rfl⟩
    | ok b => simp [Except.map] at h
  | ok a =>
    cases rB with
    | error eB => simp [Except.map] at h
    | ok b =>
      simp only [Except.map, Except.ok.injEq] at h
      obtain ⟨lA, x⟩ := a
      obtain ⟨lB, y⟩ := b
      simp only at h
      subst h
      exact Or.inr ⟨lA, lB, x, rfl, rfl⟩

theorem generatePluralLoop_congr (scope : MessageScope) (plural : Plural)
    (builderName : String) :
    ∀ (gens : List (FormatParts × Token × String)) (locA locB : Localization)
      (clauses : List Stmt), locA.Lang = locB.Lang →
      (generatePluralLoop scope plural builderName gens locA clauses).map Prod.snd
        = (generatePluralLoop scope plural builderName gens locB clauses).map Prod.snd := by
  intro gens
  induction gens with
  | nil => intro locA locB clauses _; rfl
  | cons gen rest ih =>
    intro locA locB clauses h
    by_cases hz : gen.1.IsZero = true
    · simp only [generatePluralLoop, hz, if_true]
      exact ih _ _ _ h
    · simp only [generatePluralLoop, hz, Bool.false_eq_true, if_false, FormatParts.Generate]
      rcases map_snd_cases _ _ (generateFormatParts_congr scope builderName gen.1 locA locB [] h)
        with ⟨e, hA, hB⟩ | ⟨lA, lB, body, hA, hB⟩
      · rw [hA, hB]
      · rw [hA, hB]
        simp only []
        have h1 := generateFormatParts_Lang scope builderName _ _ _ _ _ hA
        have h2 := generateFormatParts_Lang scope builderName _ _ _ _ _ hB
        exact ih _ _ _ (by rw [h1, h2]; exact h)

theorem generatePluralLoop_Lang (scope : MessageScope) (plural : Plural)
    (builderName : String) (gens : List (FormatParts × Token × String))
    (loc loc1 : Localization) (clauses out : List Stmt)
    (h : generatePluralLoop scope plural builderName gens loc clauses = .ok (loc1, out)) :
    loc1.Lang = loc.Lang :=
  (generatePluralLoop_clauses scope plural builderName gens loc loc1 clauses out h).1

theorem generator_congr (scope : MessageScope) (builderName : String) (gen : Generator)
    (locA locB : Localization) (list : List Stmt) (h : locA.Lang = locB.Lang) :
    (gen.Generate locA scope builderName list).map Prod.snd
      = (gen.Generate locB scope builderName list).map Prod.snd := by
  cases gen with
  | parts f => exact generateFormatParts_congr scope builderName f locA locB list h
  | plural p =>
    simp only [Generator.Generate, Plural.Generate, generatePlural]
    rcases map_snd_cases _ _
        (generatePluralLoop_congr scope p builderName (pluralGenerators p) locA locB [] h)
      with ⟨e, hA, hB⟩ | ⟨lA, lB, body, hA, hB⟩
    · rw [hA, hB]
    · rw [hA, hB]; rfl

theorem generator_Lang (scope : MessageScope) (builderName : String) (gen : Generator)
    (loc loc1 : Localization) (list out : List Stmt)
    (h : gen.Generate loc scope builderName list = .ok (loc1, out)) : loc1.Lang = loc.Lang := by
  cases gen with
  | parts f => exact generateFormatParts_Lang scope builderName f loc loc1 list out h
  | plural p =>
    simp only [Generator.Generate, Plural.Generate, generatePlural] at h
    cases hl : generatePluralLoop scope p builderName (pluralGenerators p) loc [] with
    | error e => rw [hl] at h; simp at h
    | ok r =>
      obtain ⟨loc2, clauses⟩ := r
      rw [hl] at h
      simp only [Except.ok.injEq, Prod.mk.injEq] at h
      rw [← h.1]
      exact generatePluralLoop_Lang scope p builderName _ _ _ _ _ hl

theorem generateVariableLoop_congr (scope : MessageScope) (varScope : VariableScope)
    (builderName : String) :
    ∀ (gens : List Generator) (locA locB : Localization) (params : List Field)
      (body : List Stmt), locA.Lang = locB.Lang →
      (generateVariableLoop scope varScope builderName gens locA params body).map Prod.snd
        = (generateVariableLoop scope varScope builderName gens locB params body).map
            Prod.snd := by
  intro gens
  induction gens with
  | nil => intro locA locB params body _; rfl
  | cons gen rest ih =>
    intro locA locB params body h
    by_cases hz : gen.IsZero = true
    · simp only [generateVariableLoop, hz, if_true]
      exact ih _ _ _ _ h
    · simp only [generateVariableLoop, hz, Bool.false_eq_true, if_false]
      cases variableParams scope varScope.ArgumentNames params with
      | error e => rfl
      | ok params1 =>
        simp only []
        rcases map_snd_cases _ _ (generator_congr scope builderName gen locA locB body h)
          with ⟨e, hA, hB⟩ | ⟨lA, lB, body1, hA, hB⟩
        · rw [hA, hB]
        · rw [hA, hB]
          simp only []
          have h1 := generator_Lang scope builderName gen _ _ _ _ hA
          have h2 := generator_Lang scope builderName gen _ _ _ _ hB
          exact ih _ _ _ _ (by rw [h1, h2]; exact h)

theorem generateVariableLoop_Lang (scope : MessageScope) (varScope : VariableScope)
    (builderName : String) :
    ∀ (gens : List Generator) (loc loc1 : Localization) (params params1 : List Field)
      (body body1 : List Stmt),
      generateVariableLoop scope varScope builderName gens loc params body
        = .ok (loc1, params1, body1) → loc1.Lang = loc.Lang := by
  intro gens
  induction gens with
  | nil =>
    intro loc loc1 params params1 body body1 h
    simp only [generateVariableLoop, Except.ok.injEq, Prod.mk.injEq] at h
    rw [← h.1]
  | cons gen rest ih =>
    intro loc loc1 params params1 body body1 h
    by_cases hz : gen.IsZero = true
    · simp only [generateVariableLoop, hz, if_true] at h
      exact ih _ _ _ _ _ _ h
    · simp only [generateVariableLoop, hz, Bool.false_eq_true, if_false] at h
      cases hp : variableParams scope varScope.ArgumentNames params with
      | error e => rw [hp] at h; simp at h
      | ok params2 =>
        rw [hp] at h
        simp only [] at h
        cases hg : gen.Generate loc scope builderName body with
        | error e => rw [hg] at h; simp at h
        | ok r =>
          obtain ⟨loc2, body2⟩ := r
          rw [hg] at h
          simp only [] at h
          rw [ih _ _ _ _ _ _ h]
          exact generator_Lang scope builderName gen _ _ _ _ hg

/-- The auxiliary function of a variable depends on the localization through its language
only. -/
theorem auxiliaryFunc_congr (locA locB : Localization) (scope : MessageScope)
    (varScope : VariableScope) (h : locA.Lang = locB.Lang) :
    auxiliaryFunc locA scope varScope = auxiliaryFunc locB scope varScope := by
  simp only [auxiliaryFunc, generateVariableFunc, getLocalizerName_congr locA locB h,
    getLocalizerTypeName, h]
  rcases map_snd_cases _ _ (generateVariableLoop_congr scope varScope "b0"
      [.plural varScope.Plural, .parts varScope.String] locA locB
      [Field.mk ["b0"] (.StarExpr (.SelectorExpr (.Ident "strings") "Builder"))] [] h)
    with ⟨e, hA, hB⟩ | ⟨lA, lB, r, hA, hB⟩
  · rw [hA, hB]
  · obtain ⟨params, body⟩ := r
    rw [hA, hB]
    rfl

theorem string_append_left_cancel (s a b : String) (h : s ++ a = s ++ b) : a = b := by
  have h1 : (s ++ a).data = (s ++ b).data := by rw [h]
  rw [String.data_append, String.data_append] at h1
  exact String.ext (List.append_cancel_left h1)

theorem getVariableFuncName_name (scope : MessageScope) (a b : VariableScope)
    (h : getVariableFuncName scope a = getVariableFuncName scope b) : a.Name = b.Name :=
  string_append_left_cancel _ _ _ h

theorem variableScope_cons (v0 : VariableScope) (vs : List VariableScope) (name : String)
    (v : VariableScope)
    (h : sliceIndex (v0 :: vs) (variableScopeIndex (v0 :: vs) name) = .ok v) :
    (v0.Name = name ∧ v = v0)
      ∨ (v0.Name ≠ name ∧ sliceIndex vs (variableScopeIndex vs name) = .ok v) := by
  by_cases h0 : v0.Name = name
  · left
    refine ⟨h0, ?_⟩
    simp [variableScopeIndex, indexWhere, h0, sliceIndex] at h
    exact h.symm
  · right
    refine ⟨h0, ?_⟩
    have hb : (v0.Name == name) = false := by simpa using h0
    simp only [variableScopeIndex, indexWhere, hb, Bool.false_eq_true, if_false] at h ⊢
    cases hi : indexWhere (fun v => v.Name == name) vs with
    | none =>
      rw [hi] at h
      simp [sliceIndex] at h
    | some i =>
      rw [hi] at h
      simp only [Option.map_some'] at h ⊢
      have hpos : ¬ (((i + 1 : Nat) : Int) < 0) := by omega
      have hpos2 : ¬ ((i : Int) < 0) := by omega
      simp only [sliceIndex, hpos, hpos2, if_false, Int.toNat_ofNat, List.get?_cons_succ] at h ⊢
      exact h

theorem variableScope_name :
    ∀ (vars : List VariableScope) (name : String) (v : VariableScope),
      sliceIndex vars (variableScopeIndex vars name) = .ok v → v.Name = name := by
  intro vars
  induction vars with
  | nil => intro name v h; simp [variableScopeIndex, indexWhere, sliceIndex] at h
  | cons v0 vs ih =>
    intro name v h
    rcases variableScope_cons v0 vs name v h with ⟨h0, rfl⟩ | ⟨_, h1⟩
    · exact h0
    · exact ih name v h1

/-- The declaration `generateVariableFunc` appends is the auxiliary function of the
variable. -/
theorem generateVariableFunc_decl (loc loc1 : Localization) (scope : MessageScope)
    (varScope : VariableScope) (decls decls1 : List Decl)
    (h : generateVariableFunc loc scope varScope decls = .ok (loc1, decls1)) :
    loc1.Lang = loc.Lang
      ∧ ∃ params body,
        decls1 = decls ++ [.FuncDecl (getVariableFuncName scope varScope)
          [Field.mk [getLocalizerName loc] (.Ident (getLocalizerTypeName loc))]
          (.FuncType params []) body]
        ∧ auxiliaryFunc loc scope varScope
          = some ([Field.mk [getLocalizerName loc] (.Ident (getLocalizerTypeName loc))],
              params, body) := by
  simp only [generateVariableFunc] at h
  cases hl : generateVariableLoop scope varScope "b0"
      [.plural varScope.Plural, .parts varScope.String] loc
      [Field.mk ["b0"] (.StarExpr (.SelectorExpr (.Ident "strings") "Builder"))] [] with
  | error e => rw [hl] at h; simp at h
  | ok r =>
    obtain ⟨loc2, params, body⟩ := r
    rw [hl] at h
    simp only [Except.ok.injEq, Prod.mk.injEq] at h
    refine ⟨?_, params, body, h.2.symm, ?_⟩
    · rw [← h.1]
      exact generateVariableLoop_Lang scope varScope "b0" _ _ _ _ _ _ _ hl
    · simp only [auxiliaryFunc, generateVariableFunc, hl]
      rfl

/-- Among the declarations `generateVariableFuncs` appends, the method of the name of a
variable the scope resolves is the auxiliary function of that variable. -/
theorem generateVariableFuncs_findFunc (scope : MessageScope) (loc0 : Localization) :
    ∀ (vars : List VariableScope) (loc loc1 : Localization) (decls decls1 : List Decl),
      loc.Lang = loc0.Lang →
      generateVariableFuncs scope vars loc decls = .ok (loc1, decls1) →
      ∃ added, decls1 = decls ++ added
        ∧ ∀ name v tail, sliceIndex vars (variableScopeIndex vars name) = .ok v →
            findFunc (some (getLocalizerTypeName loc0)) (getVariableFuncName scope v)
                (added ++ tail)
              = auxiliaryFunc loc0 scope v := by
  intro vars
  induction vars with
  | nil =>
    intro loc loc1 decls decls1 _ h
    simp only [generateVariableFuncs, Except.ok.injEq, Prod.mk.injEq] at h
    refine ⟨[], by simp [h.2], ?_⟩
    intro name v tail hv
    simp [variableScopeIndex, indexWhere, sliceIndex] at hv
  | cons v0 vs ih =>
    intro loc loc1 decls decls1 hl h
    simp only [generateVariableFuncs] at h
    cases hv0 : generateVariableFunc loc scope v0 decls with
    | error e => rw [hv0] at h; simp at h
    | ok r =>
      obtain ⟨loc2, decls2⟩ := r
      rw [hv0] at h
      simp only [] at h
      obtain ⟨hl2, params, body, hd, hf⟩ := generateVariableFunc_decl _ _ _ _ _ _ hv0
      obtain ⟨added, ha, hfind⟩ := ih loc2 loc1 decls2 decls1 (by rw [hl2]; exact hl) h
      refine ⟨.FuncDecl (getVariableFuncName scope v0)
          [Field.mk [getLocalizerName loc] (.Ident (getLocalizerTypeName loc))]
          (.FuncType params []) body :: added, by rw [ha, hd]; simp, ?_⟩
      intro name v tail hv
      have htn : getLocalizerTypeName loc = getLocalizerTypeName loc0 := by
        simp [getLocalizerTypeName, hl]
      rcases variableScope_cons v0 vs name v hv with ⟨_, rfl⟩ | ⟨h0, h1⟩
      · rw [← auxiliaryFunc_congr loc loc0 scope v hl, hf]
        simp [findFunc, recvType, htn]
      · have hname : v.Name = name := variableScope_name vs name v h1
        have hne : getVariableFuncName scope v0 ≠ getVariableFuncName scope v := by
          intro e
          exact h0 (by rw [getVariableFuncName_name scope v0 v e]; exact hname)
        simp only [List.cons_append, findFunc, hne, false_and, if_false]
        exact hfind name v tail h1

theorem generateFirst_Lang (scope : MessageScope) (builderName : String) :
    ∀ (gens : List Generator) (loc loc1 : Localization) (list out : List Stmt),
      generateFirst scope builderName gens loc list = .ok (loc1, out) →
      loc1.Lang = loc.Lang := by
  intro gens
  induction gens with
  | nil =>
    intro loc loc1 list out h
    simp only [generateFirst, Except.ok.injEq, Prod.mk.injEq] at h
    rw [← h.1]
  | cons gen rest ih =>
    intro loc loc1 list out h
    by_cases hz : gen.IsZero = true
    · simp only [generateFirst, hz, Bool.not_true, Bool.false_eq_true, if_false] at h
      exact ih _ _ _ _ h
    · have hz2 : gen.IsZero = false := by simpa using hz
      simp only [generateFirst, hz2, Bool.not_false, if_true] at h
      exact generator_Lang scope builderName gen _ _ _ _ h

/-- The declarations `generateMessage` emits for a message have, for every variable the
scope resolves, the auxiliary function `generateVariableFunc` declares for it, as the
method of its name of the implementing type of the language. -/
theorem generateMessage_hasAuxiliaries (loc loc1 : Localization) (scope : MessageScope)
    (decls : List Decl) (parts : FormatParts)
    (h : generateMessage loc scope [] = .ok (loc1, decls)) :
    HasAuxiliaries decls (getLocalizerTypeName loc) loc scope parts := by
  unfold generateMessage at h
  simp only [] at h
  cases h1 : generateFirst scope "builder" [.plural scope.Plural, .parts scope.String]
      (loc.AddImport ⟨"strings", "strings"⟩)
      [.DeclStmt .VAR [.ValueSpec ["builder"]
        (some (.SelectorExpr (.Ident "strings") "Builder")) []]] with
  | error e => rw [h1] at h; simp at h
  | ok r =>
    obtain ⟨loc2, body⟩ := r
    rw [h1] at h
    simp only [] at h
    cases h2 : generateVariableFuncs scope scope.Variables loc2 [] with
    | error e => rw [h2] at h; simp at h
    | ok r2 =>
      obtain ⟨loc3, decls2⟩ := r2
      rw [h2] at h
      simp only [Except.ok.injEq, Prod.mk.injEq] at h
      have hl2 : loc2.Lang = loc.Lang := by
        rw [generateFirst_Lang scope "builder" _ _ _ _ _ h1]
        exact AddImport_Lang _ _
      obtain ⟨added, ha, hfind⟩ :=
        generateVariableFuncs_findFunc scope loc scope.Variables loc2 loc3 [] decls2 hl2 h2
      intro info _ v hv
      rw [← h.2]
      have hd : decls2 = added := by simpa using ha
      rw [hd]
      exact hfind info.Name v _ hv

/-! ## The three enumerations of the languages -/

theorem stringLits_quoted (locs : List Localization) :
    stringLits (locs.map (fun loc => Expr.BasicLit .STRING (strconvQuote loc.Lang)))
      = some (locs.map (fun loc => loc.Lang)) := by
  induction locs with
  | nil => rfl
  | cons loc rest ih => simp [stringLits, ih, strconvUnquote_strconvQuote]

theorem caseIdentifiers_clauses (locs : List Localization) :
    caseIdentifiers (locs.map (fun l => Stmt.CaseClause [.Ident (getLocalizerTypeName l)]
        [.ReturnStmt [.BasicLit .STRING (strconvQuote l.Lang)]])
      ++ [.CaseClause [] [.ReturnStmt [.BasicLit .STRING "\"\""]]])
      = some (locs.map (fun loc => loc.Lang)) := by
  induction locs with
  | nil => rfl
  | cons loc rest ih =>
    simp only [List.map_cons, List.cons_append, caseIdentifiers, strconvUnquote_strconvQuote,
      List.append_eq, ih]

theorem registry_keys (locs : List Localization) :
    (locs.map registryEntry).map Prod.fst = locs.map (fun loc => loc.Lang) := by
  simp [List.map_map, Function.comp, registryEntry]

theorem generalDecls_findSupported (locs : List Localization) (pre : List Decl) (iface : Expr)
    (hpre : pre = [] ∨ ∃ specs, pre = [.GenDecl .IMPORT specs]) :
    findSupported (generateGeneralFuncs locs (generateGeneralSupported locs
        (generateGeneralTable locs (pre ++ [.GenDecl .TYPE [.TypeSpec "Localizer" iface]]))))
      = some (locs.map (fun loc => loc.Lang)) := by
  rcases hpre with rfl | ⟨specs, rfl⟩ <;>
    simp [generateGeneralFuncs, generateGeneralFuncLang, generateGeneralFuncNew,
      generateGeneralSupported, generateGeneralTable, findSupported, foldl_append_singleton,
      stringLits_quoted]

theorem caseTypeNames_clauses (locs : List Localization) :
    caseTypeNames (locs.map (fun l => Stmt.CaseClause [.Ident (getLocalizerTypeName l)]
        [.ReturnStmt [.BasicLit .STRING (strconvQuote l.Lang)]])
      ++ [.CaseClause [] [.ReturnStmt [.BasicLit .STRING "\"\""]]])
      = locs.map getLocalizerTypeName := by
  induction locs with
  | nil => rfl
  | cons loc rest ih =>
    simp only [List.map_cons, List.cons_append, caseTypeNames, typeNames, List.append_eq,
      List.singleton_append, List.cons.injEq, true_and]
    exact ih

theorem distinctCasesAll_clauses (locs : List Localization) :
    distinctCasesAll (locs.map (fun l => Stmt.CaseClause [.Ident (getLocalizerTypeName l)]
        [.ReturnStmt [.BasicLit .STRING (strconvQuote l.Lang)]])
      ++ [.CaseClause [] [.ReturnStmt [.BasicLit .STRING "\"\""]]]) = true := by
  induction locs with
  | nil => simp [distinctCasesAll, Stmt.distinctCases]
  | cons loc rest ih =>
    simp only [List.map_cons, List.cons_append, distinctCasesAll, Stmt.distinctCases,
      List.append_eq, ih, Bool.and_self]

theorem typeNames_nodup (locs : List Localization) :
    (locs.map getLocalizerTypeName).Nodup ↔ (locs.map (fun loc => loc.Lang)).Nodup := by
  have h : locs.map getLocalizerTypeName
      = (locs.map (fun loc => loc.Lang)).map (fun s => s ++ "_Localizer") := by
    simp [List.map_map, Function.comp, getLocalizerTypeName]
  rw [h]
  exact List.nodup_map_iff (fun a b hab => string_append_right_cancel a b _ hab)

theorem generalDecls_duplicateFree (locs : List Localization) (pre : List Decl) (iface : Expr)
    (hpre : pre = [] ∨ ∃ specs, pre = [.GenDecl .IMPORT specs]) :
    (duplicateFree (generateGeneralFuncs locs (generateGeneralSupported locs
        (generateGeneralTable locs (pre ++ [.GenDecl .TYPE [.TypeSpec "Localizer" iface]]))))
      = true) ↔ (locs.map (fun loc => loc.Lang)).Nodup := by
  have hk : (locs.map (Prod.fst ∘ registryEntry)) = locs.map (fun loc => loc.Lang) := by
    simp [Function.comp, registryEntry]
  rcases hpre with rfl | ⟨specs, rfl⟩ <;>
    simp [generateGeneralFuncs, generateGeneralFuncLang, generateGeneralFuncNew,
      generateGeneralSupported, generateGeneralTable, duplicateFree, Decl.duplicateFree,
      funcKey, recvType, foldl_append_singleton, tableEntries_registry, hk, distinctCasesAll,
      Stmt.distinctCases, caseTypeNames_clauses, distinctCasesAll_clauses, typeNames_nodup]

/-- C21, as stated, fails: for the list in which the language `en` occurs twice:
the three enumerations are `en`, `en`, the map literal has the key `"en"` twice and the
type switch the case `en_Localizer` twice, the general file does not compile, and `New`
reports nothing for `en`. -/
theorem identifiers_enumerated_counterexample :
    generateGeneral sampleConfig [enLoc, enLoc] = .ok repeatedGeneralFile
      ∧ findSupported repeatedGeneralFile.Decls = some ["en", "en"]
      ∧ (findTable "mapLangToLocalizer" repeatedGeneralFile.Decls).map (List.map Prod.fst)
        = some ["en", "en"]
      ∧ languageIdentifiers repeatedGeneralFile.Decls = some ["en", "en"]
      ∧ duplicateFree repeatedGeneralFile.Decls = false
      ∧ invokeChecked sampleLib repeatedGeneralFile.Decls 0 none "New" [.str "en"] = none :=
  ⟨rfl, rfl, rfl, rfl, rfl, rfl⟩

/-- C21, amended: for every list of localizations the slice `Supported`, the keys of
the registry and the clauses of the type switch of `Language` each have one entry per
localization, in the order of the list, and each stands for the identifier of that
localization; in the general file the three enumerate the same identifiers and every
identifier in `Supported` is a key of the registry. The general file has no repeated key,
case or function exactly when the identifiers are pairwise different, and then `New`
reports every identifier in `Supported` found. -/
theorem identifiers_enumerated (lib : GoLib) (locs : List Localization) (fuel : Nat) :
    (∀ decls, generateGeneralSupported locs decls
        = decls ++ [.GenDecl .VAR [.ValueSpec ["Supported"] none
            [.CompositeLit (.ArrayType (.Ident "string"))
              (locs.map (fun loc => Expr.BasicLit .STRING (strconvQuote loc.Lang)))]]])
      ∧ (∀ decls, generateGeneralTable locs decls
        = decls ++ [.GenDecl .VAR [.ValueSpec ["mapLangToLocalizer"] none
            [.CompositeLit (.MapType (.Ident "string") (.Ident "Localizer"))
              (locs.map (fun loc => Expr.KeyValueExpr (.Ident (strconvQuote loc.Lang))
                (.CompositeLit (.Ident (getLocalizerTypeName loc)) [])))]]])
      ∧ (∀ decls, generateGeneralFuncLang locs decls
        = decls ++ [.FuncDecl "Language" []
            (.FuncType [Field.mk ["loc"] (.Ident "Localizer")] [Field.mk [] (.Ident "string")])
            [.TypeSwitchStmt (.ExprStmt (.TypeAssertExpr (.Ident "loc")))
              (locs.map (fun l => Stmt.CaseClause [.Ident (getLocalizerTypeName l)]
                  [.ReturnStmt [.BasicLit .STRING (strconvQuote l.Lang)]])
                ++ [.CaseClause [] [.ReturnStmt [.BasicLit .STRING "\"\""]]])]])
      ∧ ∀ (config : Config) (file : File), generateGeneral config locs = .ok file →
          findSupported file.Decls = some (locs.map (fun loc => loc.Lang))
            ∧ (findTable "mapLangToLocalizer" file.Decls).map (List.map Prod.fst)
              = some (locs.map (fun loc => loc.Lang))
            ∧ languageIdentifiers file.Decls = some (locs.map (fun loc => loc.Lang))
            ∧ (∀ lang ∈ locs.map (fun loc => loc.Lang),
                ∃ entries, findTable "mapLangToLocalizer" file.Decls = some entries
                  ∧ lang ∈ entries.map Prod.fst)
            ∧ (duplicateFree file.Decls = true ↔ (locs.map (fun loc => loc.Lang)).Nodup)
            ∧ ((locs.map (fun loc => loc.Lang)).Nodup →
                ∀ lang ∈ locs.map (fun loc => loc.Lang),
                  ∃ entries v, findTable "mapLangToLocalizer" file.Decls = some entries
                    ∧ entries.lookup lang = some v
                    ∧ invokeChecked lib file.Decls fuel none "New" [.str lang]
                      = some [v, .bool true]) := by
  refine ⟨?_, ?_, ?_, ?_⟩
  · intro decls
    simp [generateGeneralSupported, foldl_append_singleton]
  · intro decls
    simp [generateGeneralTable, foldl_append_singleton]
  · intro decls
    simp [generateGeneralFuncLang, foldl_append_singleton]
  · intro config file hg
    obtain ⟨pre, iface, hpre, hdecls⟩ := generateGeneral_decls config locs file hg
    have hs := generalDecls_findSupported locs pre iface hpre
    have ht := generalDecls_findTable locs pre iface hpre
    have hf := generalDecls_findNew locs pre iface hpre
    have hl := generalDecls_findLanguage locs pre iface hpre
    have hc := generalDecls_duplicateFree locs pre iface hpre
    rw [← hdecls] at hs ht hf hl hc
    refine ⟨hs, ?_, ?_, ?_, hc, ?_⟩
    · rw [ht]
      simp only [Option.map_some', registry_keys]
    · simp only [languageIdentifiers, hl]
      exact caseIdentifiers_clauses locs
    · intro lang hlang
      exact ⟨_, ht, by rw [registry_keys]; exact hlang⟩
    · intro hd lang hlang
      obtain ⟨loc, hloc, rfl⟩ := List.mem_map.1 hlang
      refine ⟨_, _, ht, lookup_registry_mem locs loc hloc, ?_⟩
      simp only [invokeChecked, hc.2 hd, if_true]
      rw [invoke_New lib file.Decls fuel loc.Lang _ ht hf, lookup_registry_mem locs loc hloc]

/-- The witness of `identifiers_enumerated`: the general file of the languages `en` and
`fr`, whose identifiers are different; `New` finds `fr`. -/
theorem identifiers_enumerated_witness :
    generateGeneral sampleConfig [enLoc, frLoc] = .ok sampleGeneralFile
      ∧ ([enLoc, frLoc].map (fun loc => loc.Lang)).Nodup
      ∧ findSupported sampleGeneralFile.Decls = some ["en", "fr"]
      ∧ (findTable "mapLangToLocalizer" sampleGeneralFile.Decls).map (List.map Prod.fst)
        = some ["en", "fr"]
      ∧ languageIdentifiers sampleGeneralFile.Decls = some ["en", "fr"]
      ∧ duplicateFree sampleGeneralFile.Decls = true
      ∧ ∃ entries v, findTable "mapLangToLocalizer" sampleGeneralFile.Decls = some entries
          ∧ entries.lookup "fr" = some v
          ∧ invokeChecked sampleLib sampleGeneralFile.Decls 0 none "New" [.str "fr"]
            = some [v, .bool true] :=
  ⟨rfl, by decide,
    ((identifiers_enumerated sampleLib [enLoc, frLoc] 0).2.2.2 sampleConfig sampleGeneralFile
      rfl).1,
    ((identifiers_enumerated sampleLib [enLoc, frLoc] 0).2.2.2 sampleConfig sampleGeneralFile
      rfl).2.1,
    ((identifiers_enumerated sampleLib [enLoc, frLoc] 0).2.2.2 sampleConfig sampleGeneralFile
      rfl).2.2.1,
    ((identifiers_enumerated sampleLib [enLoc, frLoc] 0).2.2.2 sampleConfig sampleGeneralFile
      rfl).2.2.2.2.1.2 (by decide),
    ((identifiers_enumerated sampleLib [enLoc, frLoc] 0).2.2.2 sampleConfig sampleGeneralFile
      rfl).2.2.2.2.2 (by decide) "fr" (by decide)⟩

end GoL10n
